import Mathlib

/-!
# chat-backend/internal/websocket/hub.go : the presence and fan-out hub

A shallow embedding of the hub of `hub.go`.

* A `*Client` is a pointer; the embedding keeps a heap `ClientPtr → Client` next to
  the hub's map `clients`, so that a session that left the map still has a queue.
* The buffered channel `send` is a record of its buffer, capacity and closed flag.
  Sending on a closed channel and closing a closed channel panic in Go; every step
  therefore returns `Except Panic HubState`.
* `Hub.Run` receives one request per iteration of its `select`; each `case` is a
  step function on the state (`runRegister`, `runUnregister`, `runBroadcast`).
* `BroadcastToChat` and `BroadcastToUser` are not cases of `Hub.Run`: they run in the
  goroutine of their caller, on the same map and queues, without a lock. `step` and
  `run` put a call of them between two iterations of `Hub.Run`, which covers the
  executions in which no call overlaps with an iteration; `defaultClose` and
  `defaultDelete` are the two statements of their default branch taken apart, for the
  executions in which `Hub.Run` runs between the two.
* `for client := range h.clients` visits the keys the map has at loop entry, and a key
  deleted before it is reached is not produced. The map is the list of its keys; the
  order of the visit is immaterial (`rangeClients_order_irrelevant`).
* `json.Marshal` is modelled on the JSON document it produces. The `json.Unmarshal` of
  `readPump`, which decodes the bytes a client sent, is a parameter of `readPump`:
  what is proved about the read pump holds for every decoder.
* The ghost field `statusCalls` records the invocations of `statusUpdateFunc`.
* `readPump` and `writePump` are functions of what their connection delivers: the
  results of `ReadMessage`, the outcomes of `WriteMessage`.

The reversal loop of `ChatService.GetMessages` (services/chat.go) is embedded in the
namespace `Services`, over the rows its query returns.
-/

namespace Websocket

/-! ## JSON documents and the `Message` envelope -/

/-- A JSON document. A number is kept by its literal, so that every number a document
can hold has a value here. -/
inductive JSON where
  | null
  | bool (b : Bool)
  | num (literal : String)
  | str (s : String)
  | arr (items : List JSON)
  | obj (fields : List (String × JSON))

/-- The value held by `Message.Data` (`interface{}`), identified by what
`encoding/json` makes of it: a JSON document, or a value it rejects (a channel, a
function, a NaN float). -/
inductive Data where
  | json (v : JSON)
  | unsupported

/-- The struct `Message` (hub.go:34-40). The field `Type` is spelled `Type_`. -/
structure Message where
  Type_ : String
  Data : Data
  UserID : String := ""
  Username : String := ""
  ChatID : String := ""

/-- The byte slices that travel through the channels: serialized events, kept as the
JSON document they encode. -/
abbrev Bytes := JSON

/-- A struct field tagged `omitempty`: present exactly when the string is not empty. -/
def omitEmpty (key : String) (value : String) : List (String × JSON) :=
  if value = "" then [] else [(key, JSON.str value)]

/-- The call `json.Marshal(message)` for a `Message`: the fields in declaration order
with their JSON names, `userId`, `username` and `chatId` under `omitempty`; `none` is
the error return (a `Data` value that cannot be encoded). -/
def jsonMarshal (message : Message) : Option Bytes :=
  match message.Data with
  | Data.unsupported => none
  | Data.json v =>
    some (JSON.obj ([("type", JSON.str message.Type_), ("data", v)]
      ++ omitEmpty "userId" message.UserID
      ++ omitEmpty "username" message.Username
      ++ omitEmpty "chatId" message.ChatID))

/-- The map literal `map[string]interface{}{"userId": .., "username": .., "isOnline": ..}`
of the two notifications; `encoding/json` writes the keys of a map in sorted order. -/
def presenceData (userID username : String) (isOnline : Bool) : Data :=
  Data.json (JSON.obj [("isOnline", JSON.bool isOnline), ("userId", JSON.str userID),
    ("username", JSON.str username)])

/-! ## Channels, clients and the hub -/

/-- A pointer `*Client`. -/
abbrev ClientPtr := Nat

/-- The two run-time panics of channel operations. -/
inductive Panic where
  | sendOnClosedChannel
  | closeOfClosedChannel
  deriving DecidableEq, Repr

/-- A buffered channel `chan []byte`. -/
structure Chan where
  buf : List Bytes
  cap : Nat
  closed : Bool

/-- The call `make(chan []byte, n)`. -/
def makeChan (n : Nat) : Chan := { buf := [], cap := n, closed := false }

/-- The outcome of `select { case ch <- data: ... default: ... }`. -/
inductive SendResult where
  | sent (ch : Chan)
  | full

/-- The non-blocking send `select { case ch <- data: default: }`: on a closed channel
the send case is chosen and panics; with room in the buffer the value is appended;
otherwise the default case runs. -/
def Chan.trySend (ch : Chan) (data : Bytes) : Except Panic SendResult :=
  if ch.closed then Except.error Panic.sendOnClosedChannel
  else if ch.buf.length < ch.cap then Except.ok (SendResult.sent { ch with buf := ch.buf ++ [data] })
  else Except.ok SendResult.full

/-- The call `close(ch)`. -/
def Chan.close (ch : Chan) : Except Panic Chan :=
  if ch.closed then Except.error Panic.closeOfClosedChannel
  else Except.ok { ch with closed := true }

/-- The struct `Client` (hub.go:25-32) without its `hub` and `conn` fields. -/
structure Client where
  send : Chan
  userID : String
  username : String
  role : String

/-- The hub (hub.go:17-23) together with the heap of `Client` objects.
`clients` holds the keys of `map[*Client]bool`; `nextClient` is the address the next
allocated `Client` gets; `statusCalls` lists the calls made to `statusUpdateFunc`.
The unbuffered channels `register`, `unregister` and `broadcast` carry the requests
that the step functions below take as arguments. -/
structure HubState where
  clients : List ClientPtr
  statusUpdateFunc : Option (String → Bool → Option String)
  heap : ClientPtr → Client
  nextClient : Nat
  statusCalls : List (String × Bool)

/-- The content of an address no `Client` was allocated at. -/
def noClient : Client := { send := makeChan 0, userID := "", username := "", role := "" }

/-- The function `NewHub` (hub.go:42-49): an empty map and no status function. -/
def NewHub : HubState :=
  { clients := [], statusUpdateFunc := none, heap := fun _ => noClient, nextClient := 0,
    statusCalls := [] }

/-- The method `SetStatusUpdateFunc` (hub.go:51-53). -/
def SetStatusUpdateFunc (h : HubState) (fn : String → Bool → Option String) : HubState :=
  { h with statusUpdateFunc := some fn }

/-- The assignment `h.clients[client] = true`. -/
def mapInsert (clients : List ClientPtr) (client : ClientPtr) : List ClientPtr :=
  if client ∈ clients then clients else clients ++ [client]

/-- The call `delete(h.clients, client)`. -/
def mapDelete (clients : List ClientPtr) (client : ClientPtr) : List ClientPtr :=
  clients.filter (fun c => c ≠ client)

/-- The assignment to the `send` channel of the object `client` points to. -/
def setSend (h : HubState) (client : ClientPtr) (ch : Chan) : HubState :=
  { h with heap := Function.update h.heap client { h.heap client with send := ch } }

/-- The statement `if h.statusUpdateFunc != nil { h.statusUpdateFunc(userID, isOnline) }`;
the returned error is dropped. -/
def callStatusUpdate (h : HubState) (userID : String) (isOnline : Bool) : HubState :=
  match h.statusUpdateFunc with
  | none => h
  | some fn =>
    let _err : Option String := fn userID isOnline
    { h with statusCalls := h.statusCalls ++ [(userID, isOnline)] }

/-- The block every fan-out loop runs for a target (hub.go:107-112, 127-132, 149-154,
167-172): `select { case client.send <- data: default: close(client.send);
delete(h.clients, client) }`. -/
def selectSend (h : HubState) (client : ClientPtr) (data : Bytes) : Except Panic HubState :=
  match (h.heap client).send.trySend data with
  | Except.error e => Except.error e
  | Except.ok (SendResult.sent ch) => Except.ok (setSend h client ch)
  | Except.ok SendResult.full =>
    match (h.heap client).send.close with
    | Except.error e => Except.error e
    | Except.ok ch =>
      Except.ok { setSend h client ch with clients := mapDelete h.clients client }

/-- The loop `for client := range h.clients { if target(client) { select ... } }` over
the keys `keys` still to be visited: a key no longer in the map is skipped. -/
def rangeClients (target : ClientPtr → Client → Bool) (data : Bytes) :
    List ClientPtr → HubState → Except Panic HubState
  | [], h => Except.ok h
  | client :: rest, h =>
    if client ∈ h.clients ∧ target client (h.heap client) = true then
      match selectSend h client data with
      | Except.error e => Except.error e
      | Except.ok h' => rangeClients target data rest h'
    else rangeClients target data rest h

/-- The method `broadcastToOthers` (hub.go:118-135). -/
def broadcastToOthers (h : HubState) (sender : ClientPtr) (message : Message) :
    Except Panic HubState :=
  match jsonMarshal message with
  | none => Except.ok h
  | some data => rangeClients (fun client _ => decide (client ≠ sender)) data h.clients h

/-- The notification built in the register case (hub.go:68-77). -/
def connectedNotification (client : Client) : Message :=
  { Type_ := "user_connected", UserID := client.userID, Username := client.username,
    Data := presenceData client.userID client.username true }

/-- The notification built in the unregister case (hub.go:92-101). -/
def disconnectedNotification (client : Client) : Message :=
  { Type_ := "user_disconnected", UserID := client.userID, Username := client.username,
    Data := presenceData client.userID client.username false }

/-- The case `client := <-h.register` of `Hub.Run` (hub.go:58-78). -/
def runRegister (h : HubState) (client : ClientPtr) : Except Panic HubState :=
  let h1 := { h with clients := mapInsert h.clients client }
  let h2 := callStatusUpdate h1 (h1.heap client).userID true
  broadcastToOthers h2 client (connectedNotification (h2.heap client))

/-- The case `client := <-h.unregister` of `Hub.Run` (hub.go:80-103). -/
def runUnregister (h : HubState) (client : ClientPtr) : Except Panic HubState :=
  if client ∈ h.clients then
    let h1 := { h with clients := mapDelete h.clients client }
    match (h1.heap client).send.close with
    | Except.error e => Except.error e
    | Except.ok ch =>
      let h2 := setSend h1 client ch
      let h3 := callStatusUpdate h2 (h2.heap client).userID false
      broadcastToOthers h3 client (disconnectedNotification (h3.heap client))
  else Except.ok h

/-- The case `message := <-h.broadcast` of `Hub.Run` (hub.go:105-113). -/
def runBroadcast (h : HubState) (message : Bytes) : Except Panic HubState :=
  rangeClients (fun _ _ => true) message h.clients h

/-- The method `BroadcastToChat` (hub.go:137-156). The assignment
`message.ChatID = chatID` comes after `json.Marshal` and changes the local copy only. -/
def BroadcastToChat (h : HubState) (chatID : String) (message : Message) :
    Except Panic HubState :=
  match jsonMarshal message with
  | none => Except.ok h
  | some data =>
    let _message : Message := { message with ChatID := chatID }
    rangeClients (fun _ _ => true) data h.clients h

/-- The method `BroadcastToUser` (hub.go:158-175). -/
def BroadcastToUser (h : HubState) (userID : String) (message : Message) :
    Except Panic HubState :=
  match jsonMarshal message with
  | none => Except.ok h
  | some data => rangeClients (fun _ client => decide (client.userID = userID)) data h.clients h

/-- The object `Client{..., send: make(chan []byte, 256), userID: userID,
username: username, role: role}` of `HandleWebSocket` (hub.go:229-236). -/
def freshClient (userID username role : String) : Client :=
  { send := makeChan 256, userID := userID, username := username, role := role }

/-- The allocation `client := &Client{...}` of `HandleWebSocket`: the object is stored
at the next free address. -/
def newClient (h : HubState) (userID username role : String) : HubState :=
  { h with
    heap := Function.update h.heap h.nextClient (freshClient userID username role)
    nextClient := h.nextClient + 1 }

/-- The method `HandleWebSocket` (hub.go:228-242) up to the hub taking the new client
from `h.register`; the two pumps it starts are steps of their own. -/
def HandleWebSocket (h : HubState) (userID username role : String) : Except Panic HubState :=
  runRegister (newClient h userID username role) h.nextClient

/-- One receive `message, ok := <-c.send` of `writePump` (hub.go:214) that finds a
pending event: the head of the buffer is taken. -/
def writePumpRecv (h : HubState) (client : ClientPtr) : HubState :=
  setSend h client { (h.heap client).send with buf := (h.heap client).send.buf.tail }

/-! ## Sequences of requests -/

/-- What acts on the state of the hub: a connection handed to `HandleWebSocket`, a
client sent on `h.unregister` by its `readPump`, a payload sent on `h.broadcast`, which
`Hub.Run` takes one per iteration; and a call of `BroadcastToChat`, `BroadcastToUser`
or `SetStatusUpdateFunc` by a collaborator and a receive of a `writePump` on its queue,
which run in goroutines of their own. -/
inductive Request where
  | handleWebSocket (userID username role : String)
  | unregister (client : ClientPtr)
  | broadcast (message : Bytes)
  | broadcastToChat (chatID : String) (message : Message)
  | broadcastToUser (userID : String) (message : Message)
  | setStatusUpdateFunc (fn : String → Bool → Option String)
  | writePumpRecv (client : ClientPtr)

/-- One request acts on the state, from start to end: an iteration of `Hub.Run`, or a
whole call of a collaborator with no iteration of `Hub.Run` in between its statements. -/
def step (h : HubState) : Request → Except Panic HubState
  | Request.handleWebSocket userID username role => HandleWebSocket h userID username role
  | Request.unregister client => runUnregister h client
  | Request.broadcast message => runBroadcast h message
  | Request.broadcastToChat chatID message => BroadcastToChat h chatID message
  | Request.broadcastToUser userID message => BroadcastToUser h userID message
  | Request.setStatusUpdateFunc fn => Except.ok (SetStatusUpdateFunc h fn)
  | Request.writePumpRecv client => Except.ok (writePumpRecv h client)

/-- A sequence of requests acts on the state, one after the other, none overlapping
with the next; a panic ends it. -/
def run : HubState → List Request → Except Panic HubState
  | h, [] => Except.ok h
  | h, r :: rest =>
    match step h r with
    | Except.error e => Except.error e
    | Except.ok h' => run h' rest

/-- An admit request (a connection handed to `HandleWebSocket`, which allocates the
session and sends it on `h.register`) or a remove request (a session sent on
`h.unregister`). -/
inductive AdmitRemove where
  | admitSession (userID username role : String)
  | removeSession (client : ClientPtr)

/-- The request of the hub an admit or remove request stands for. -/
def AdmitRemove.toRequest : AdmitRemove → Request
  | AdmitRemove.admitSession userID username role => Request.handleWebSocket userID username role
  | AdmitRemove.removeSession client => Request.unregister client

/-- Follows the sentence of section 8 of the specification, "the sessions admitted
minus those removed": going through the requests in order, an admit adds the session
it creates (the `next`-th client object allocated) and a remove takes its session out
of the set when it is there. -/
def admittedMinusRemoved : List AdmitRemove → Nat → List ClientPtr → List ClientPtr
  | [], _, live => live
  | AdmitRemove.admitSession _ _ _ :: rest, next, live =>
    admittedMinusRemoved rest (next + 1) (live ++ [next])
  | AdmitRemove.removeSession client :: rest, next, live =>
    admittedMinusRemoved rest next (live.filter (fun c => c ≠ client))

/-- The requests `admit, remove 1, admit, remove 2, ..., admit, remove k` that follow
the admission of session 0: session `i` connects and disconnects at once. -/
def churn : Nat → List AdmitRemove
  | 0 => []
  | k + 1 => churn k ++ [AdmitRemove.admitSession "u-guest" "guest" "user", AdmitRemove.removeSession (k + 1)]

/-- A sequence of 258 requests: alice connects (session 0), 128 guests connect and
disconnect one after the other (sessions 1 to 128) while no event is taken from the
queue of alice, then bob connects (session 129). -/
def floodSequence : List AdmitRemove :=
  AdmitRemove.admitSession "u-alice" "alice" "user" :: churn 128
    ++ [AdmitRemove.admitSession "u-bob" "bob" "user"]

/-! ## Well-formed states and the effect of one fan-out -/

/-- The queue of a client has room for one more event. -/
def hasRoom (c : Client) : Prop := c.send.buf.length < c.send.cap

instance (c : Client) : Decidable (hasRoom c) := by unfold hasRoom; infer_instance

/-- A hub state as the hub keeps it: the map holds each key once, and the queue of a
session in the map is open. -/
def HubState.WellFormed (h : HubState) : Prop :=
  h.clients.Nodup ∧ ∀ c ∈ h.clients, (h.heap c).send.closed = false

/-- What the block `selectSend` does to the client object it targets: the event is
appended when the queue has room, the queue is closed otherwise. -/
def deliveredClient (c : Client) (data : Bytes) : Client :=
  if hasRoom c then { c with send := { c.send with buf := c.send.buf ++ [data] } }
  else { c with send := { c.send with closed := true } }

end Websocket

/-! # chat-backend/internal/services/chat.go : `ChatService.GetMessages` -/

namespace Models

/-- The struct `models.User` (models.go:7-18), with the fields that `GetMessages`
scans; the others keep their zero value. -/
structure User where
  ID : String
  Username : String
  Name : String
  Role : String
  Avatar : Option String
  IsOnline : Bool

/-- The struct `models.Message` (models.go:34-42); `CreatedAt` is an instant on a
discrete time line. -/
structure Message where
  ID : String
  ChatID : String
  SenderID : String
  Content : String
  MessageType : String
  CreatedAt : Nat
  Sender : Option User

end Models

namespace Services

/-- One turn of the loop `for rows.Next()`: what `rows.Scan` stored in `message` and
`sender`, or the error it returned. -/
inductive Scan where
  | values (message : Models.Message) (sender : Models.User)
  | err (e : String)

/-- The statements `message.Sender = &sender` and `append(messages, message)`
(chat.go:263-264) make of a scanned row the element of the slice. -/
def withSender (message : Models.Message) (sender : Models.User) : Models.Message :=
  { message with Sender := some sender }

/-- The loop `for rows.Next() { ... }` of `GetMessages` (chat.go:250-265) over the rows
the query gives, `messages` being the slice built so far; a scan error is returned. -/
def scanRows : List Scan → List Models.Message → Except String (List Models.Message)
  | [], messages => Except.ok messages
  | Scan.err e :: _, _ => Except.error e
  | Scan.values message sender :: rest, messages =>
    scanRows rest (messages ++ [withSender message sender])

/-- The assignment `messages[i], messages[j] = messages[j], messages[i]`. -/
def swap (messages : List Models.Message) (i j : Nat) : List Models.Message :=
  match messages.get? i, messages.get? j with
  | some a, some b => (messages.set i b).set j a
  | _, _ => messages

/-- The loop `for i, j := 0, len(messages)-1; i < j; i, j = i+1, j-1 { swap }`
(chat.go:268-270), from the values `i` and `j` of its two counters. -/
def reverseLoop (messages : List Models.Message) (i j : Int) : List Models.Message :=
  if i < j then reverseLoop (swap messages i.toNat j.toNat) (i + 1) (j - 1) else messages
termination_by (j - i).toNat
decreasing_by omega

/-- The method `ChatService.GetMessages` (chat.go:235-273) given what `s.db.Query`
returns: an error, or the rows of the result, which the query orders by `created_at`
descending. -/
def GetMessages (query : Except String (List Scan)) : Except String (List Models.Message) :=
  match query with
  | Except.error e => Except.error e
  | Except.ok rows =>
    match scanRows rows [] with
    | Except.error e => Except.error e
    | Except.ok messages =>
      Except.ok (reverseLoop messages 0 ((messages.length : Int) - 1))

/-- The rows of a result every scan of which succeeds. -/
def scans (rows : List (Models.Message × Models.User)) : List Scan :=
  rows.map (fun row => Scan.values row.1 row.2)

/-- The messages of the rows in the order the query gave them. -/
def fetched (rows : List (Models.Message × Models.User)) : List Models.Message :=
  rows.map (fun row => withSender row.1 row.2)

/-- The sender of the sample rows. -/
def sampleSender : Models.User :=
  { ID := "u-alice", Username := "alice", Name := "Alice", Role := "customer",
    Avatar := none, IsOnline := true }

/-- Three rows of chat `c1`, the newest first. -/
def sampleRows : List (Models.Message × Models.User) :=
  [({ ID := "m3", ChatID := "c1", SenderID := "u-alice", Content := "three",
      MessageType := "text", CreatedAt := 30, Sender := none }, sampleSender),
   ({ ID := "m2", ChatID := "c1", SenderID := "u-alice", Content := "two",
      MessageType := "text", CreatedAt := 20, Sender := none }, sampleSender),
   ({ ID := "m1", ChatID := "c1", SenderID := "u-alice", Content := "one",
      MessageType := "text", CreatedAt := 10, Sender := none }, sampleSender)]

end Services

namespace Websocket

/-- The backpressure contract of a fan-out of `data` that takes `h` to `h'`, over the
sessions of the map selected by `target`: a target whose queue is full has its queue
closed, with nothing added to it, and leaves the map; a target whose queue has room
gets `data` at the tail of its queue, which stays open, and stays in the map. -/
def ShedsClientNotEvent (h h' : HubState) (target : ClientPtr → Prop) (data : Bytes) : Prop :=
  ∀ c ∈ h.clients, target c →
    (¬ hasRoom (h.heap c) →
      (h'.heap c).send.closed = true ∧ (h'.heap c).send.buf = (h.heap c).send.buf ∧
        c ∉ h'.clients) ∧
    (hasRoom (h.heap c) →
      (h'.heap c).send.closed = false ∧ (h'.heap c).send.buf = (h.heap c).send.buf ++ [data] ∧
        c ∈ h'.clients)

/-- The relation between a hub state and the set `live` of the sessions admitted and
not removed since, after `k` admit and remove requests: the sessions of `live` are
allocated; the map holds the sessions of `live` whose queue is open; a queue of the
map has capacity 256 and fewer than `k` pending events; up to 257 requests every queue
of `live` is open. -/
def AdmitRemoveInv (h : HubState) (live : List ClientPtr) (k : Nat) : Prop :=
  h.WellFormed ∧ (∀ c ∈ live, c < h.nextClient) ∧
  (∀ c, c ∈ h.clients ↔ c ∈ live ∧ (h.heap c).send.closed = false) ∧
  (∀ c ∈ h.clients, (h.heap c).send.cap = 256 ∧ (h.heap c).send.buf.length + 1 ≤ k) ∧
  (k ≤ 257 → ∀ c ∈ live, (h.heap c).send.closed = false)

/-! ## Decoding, the connection and the two pumps -/

/-- The bytes of an inbound frame, as `ReadMessage` returns them. -/
abbrev Frame := List Nat

/-- The case folding under which `encoding/json` matches a key with a field name: an
ASCII capital letter becomes its small letter, and so do the two other characters that
fold to an ASCII letter, U+017F (long s) and U+212A (Kelvin sign). -/
def foldChar (ch : Char) : Char :=
  if ch = Char.ofNat 0x17F then 's'
  else if ch = Char.ofNat 0x212A then 'k'
  else ch.toLower

/-- Key matching of `encoding/json` for the fields of `Message`, whose names are ASCII:
a key of the document names a field when the two are equal under case folding. -/
def keyMatches (key name : String) : Bool :=
  key.data.map foldChar == name.data.map foldChar

/-- Decoding into a struct field of type `string`, going through the members of the
document in order: a string member that names the field sets it, `null` leaves it, and
any other value is a type error, which `json.Unmarshal` reports in the end (`none`). -/
def stringField (name : String) (fields : List (String × JSON)) : Option String :=
  fields.foldl (fun acc member =>
    if keyMatches member.1 name = true then
      match member.2 with
      | JSON.str s => acc.map (fun _ => s)
      | JSON.null => acc
      | _ => none
    else acc) (some "")

/-- Reading the field `Data interface{}` back: the last member that names the field sets
it, and it is handed over as it stands in the document; a field that is never set is
`nil`, which is encoded as `null`. -/
def dataField (fields : List (String × JSON)) : JSON :=
  fields.foldl (fun acc member => if keyMatches member.1 "data" = true then member.2 else acc)
    JSON.null

/-- Reading a serialized event back: the call `json.Unmarshal(b, &msg)` on a zero
`Message` for bytes given by the document they spell (`none` when they are not JSON).
`none` is the error return: bytes that are not JSON, a document that is neither an
object nor `null`, or a member of the wrong type for its field. It is applied to the
documents that `jsonMarshal` makes, to say what an event carries. The frames of a client
are not read with it: `readPump` takes the call of hub.go:193 as the function
`unmarshal`. -/
def jsonUnmarshal (document : Option JSON) : Option Message :=
  match document with
  | none => none
  | some JSON.null => some { Type_ := "", Data := Data.json JSON.null }
  | some (JSON.obj fields) =>
    match stringField "type" fields, stringField "userId" fields,
      stringField "username" fields, stringField "chatId" fields with
    | some type_, some userID, some username, some chatID =>
      some { Type_ := type_, Data := Data.json (dataField fields), UserID := userID,
             Username := username, ChatID := chatID }
    | _, _, _, _ => none
  | some _ => none

/-- What `c.conn.ReadMessage()` returns: the bytes of a frame, or an error. -/
inductive ReadResult where
  | message (messageBytes : Frame)
  | err

/-- The body of the loop of `readPump` for a frame read without error
(hub.go:192-205): the bytes it sends on `c.hub.broadcast`, or `none` when the
iteration sends nothing. The call `json.Unmarshal(messageBytes, &msg)` of hub.go:193 is
the function `unmarshal`, taken as `encoding/json` gives it: the message it stores in
the zero `msg`, or `none` for its error return. -/
def readPumpMessage (unmarshal : Frame → Option Message) (c : Client) (messageBytes : Frame) :
    Option Bytes :=
  match unmarshal messageBytes with
  | none => none
  | some msg => jsonMarshal { msg with UserID := c.userID, Username := c.username }

/-- The method `readPump` (hub.go:177-207) of the client object `c` at address
`client`, run on the successive results of `ReadMessage`: the requests it sends to the
hub, in order. The first error ends the loop, and the deferred function sends the
client on `h.unregister`; when the results run out the pump is waiting in
`ReadMessage`. -/
def readPump (unmarshal : Frame → Option Message) (client : ClientPtr) (c : Client) :
    List ReadResult → List Request
  | [] => []
  | ReadResult.err :: _ => [Request.unregister client]
  | ReadResult.message messageBytes :: rest =>
    match readPumpMessage unmarshal c messageBytes with
    | none => readPump unmarshal client c rest
    | some data => Request.broadcast data :: readPump unmarshal client c rest

/-- The frames `conn.WriteMessage` is given: `websocket.TextMessage` with a payload, or
`websocket.CloseMessage` with an empty one. -/
inductive WireFrame where
  | text (message : Bytes)
  | close

/-- The connection `*websocket.Conn` as the two pumps use it: whether `Close` was
called on it, and the frames written to it so far. -/
structure Conn where
  closed : Bool
  written : List WireFrame

/-- The call `conn.Close()`. -/
def Conn.Close (conn : Conn) : Conn := { conn with closed := true }

/-- The call `conn.WriteMessage(..)`: the connection and whether an error is returned.
The write fails on a connection that was closed, and when the transport fails
(`fails`). -/
def Conn.WriteMessage (conn : Conn) (frame : WireFrame) (fails : Bool) : Conn × Bool :=
  if conn.closed = true ∨ fails = true then (conn, true)
  else ({ conn with written := conn.written ++ [frame] }, false)

/-- The call `conn.ReadMessage()`: an error on a connection that was closed, and what
the peer sent (`incoming`) otherwise. -/
def Conn.ReadMessage (conn : Conn) (incoming : ReadResult) : ReadResult :=
  if conn.closed = true then ReadResult.err else incoming

/-- One iteration of the loop of `writePump` (hub.go:212-225) for the client at address
`client`; `fails` tells whether the transport fails the write of this iteration. The
result is the state, the connection, and whether the pump goes on: `false` when it has
returned, in which case the deferred `c.conn.Close()` has run. With an empty open queue
the receive waits and nothing changes. -/
def writePumpIter (h : HubState) (client : ClientPtr) (conn : Conn) (fails : Bool) :
    HubState × Conn × Bool :=
  match (h.heap client).send.buf with
  | message :: _ =>
    let h1 := writePumpRecv h client
    let w := conn.WriteMessage (WireFrame.text message) fails
    if w.2 = true then (h1, w.1.Close, false) else (h1, w.1, true)
  | [] =>
    if (h.heap client).send.closed = true then
      (h, (conn.WriteMessage WireFrame.close fails).1.Close, false)
    else (h, conn, true)

/-- The method `writePump` (hub.go:209-226) run for as many iterations as `outcomes`
has entries, each telling whether the transport fails that write; it stops when an
iteration returns. -/
def writePump (client : ClientPtr) : HubState → Conn → List Bool → HubState × Conn × Bool
  | h, conn, [] => (h, conn, true)
  | h, conn, fails :: rest =>
    let r := writePumpIter h client conn fails
    if r.2.2 = true then writePump client r.1 r.2.1 rest else r

/-! ## The queue of one session along a sequence of requests -/

/-- The map holds allocated addresses only. -/
def HubState.Allocated (h : HubState) : Prop := ∀ c ∈ h.clients, c < h.nextClient

/-- Follows the words of the specification, "the deliveries targeting it": the events
that request `r`, processed in state `h`, addresses to the session `c` of the map. A
connection addresses to it the `user_connected` notification of the new session, an
unregister of another session of the map its `user_disconnected` notification, a
relayed broadcast and `BroadcastToChat` their event, `BroadcastToUser` its event when
the user id is that of `c`. -/
def deliveriesTargeting (h : HubState) (c : ClientPtr) : Request → List Bytes
  | Request.handleWebSocket userID username role =>
    (jsonMarshal (connectedNotification (freshClient userID username role))).toList
  | Request.unregister s =>
    if s ∈ h.clients ∧ s ≠ c then (jsonMarshal (disconnectedNotification (h.heap s))).toList
    else []
  | Request.broadcast message => [message]
  | Request.broadcastToChat _ message => (jsonMarshal message).toList
  | Request.broadcastToUser userID message =>
    if (h.heap c).userID = userID then (jsonMarshal message).toList else []
  | Request.setStatusUpdateFunc _ => []
  | Request.writePumpRecv _ => []

/-- The event that request `r` takes out of the queue of `c`: the head of the queue
when `r` is a receive of the write pump of `c`. -/
def takenBy (h : HubState) (c : ClientPtr) : Request → List Bytes
  | Request.writePumpRecv s => if s = c then (h.heap c).send.buf.head?.toList else []
  | _ => []

/-- The deliveries targeting `c` along a sequence of requests, in the order the hub
processes them. -/
def deliveriesAlong (c : ClientPtr) : HubState → List Request → List Bytes
  | _, [] => []
  | h, r :: rest =>
    deliveriesTargeting h c r ++
      (match step h r with
      | Except.ok h1 => deliveriesAlong c h1 rest
      | Except.error _ => [])

/-- The events taken out of the queue of `c` along a sequence of requests, in the order
the receives take them. -/
def takenAlong (c : ClientPtr) : HubState → List Request → List Bytes
  | _, [] => []
  | h, r :: rest =>
    takenBy h c r ++
      (match step h r with
      | Except.ok h1 => takenAlong c h1 rest
      | Except.error _ => [])

/-- The keys of a JSON object, in the order of the document; a document that is not an
object has none. -/
def JSON.keys : JSON → List String
  | JSON.obj fields => fields.map (fun member => member.1)
  | _ => []

/-- The frame of a delivery step that takes `h` to `h'` over the sessions of the map
selected by `target`: the map does not grow, a session of the map leaves it exactly when
it is a target whose queue was full, and the identity of every client object is kept. -/
def DeliveryFrame (h h' : HubState) (target : ClientPtr → Prop) : Prop :=
  (∀ c ∈ h'.clients, c ∈ h.clients) ∧
  (∀ c ∈ h.clients, c ∉ h'.clients ↔ (target c ∧ ¬ hasRoom (h.heap c))) ∧
  (∀ c, (h'.heap c).userID = (h.heap c).userID ∧ (h'.heap c).username = (h.heap c).username ∧
    (h'.heap c).role = (h.heap c).role)

/-- Every queue holds no more events than its capacity, which is at most 256. -/
def HubState.Bounded (h : HubState) : Prop :=
  ∀ c, (h.heap c).send.buf.length ≤ (h.heap c).send.cap ∧ (h.heap c).send.cap ≤ 256

/-! ## Sample states -/

/-- A hub with a status function set, two live sessions with empty queues (alice at
address 0, bob at address 1) and a third client object (carol at address 2) that is
allocated and not in the map. -/
def sampleHub : HubState :=
  { clients := [0, 1]
    statusUpdateFunc := some (fun _ _ => none)
    heap := fun p =>
      if p = 0 then freshClient "u-alice" "alice" "user"
      else if p = 1 then freshClient "u-bob" "bob" "user"
      else if p = 2 then freshClient "u-carol" "carol" "admin"
      else noClient
    nextClient := 3
    statusCalls := [] }

/-- A hub whose only live session (alice at address 0) has 255 pending events in its
queue of capacity 256; bob at address 1 is allocated and not in the map. -/
def nearlyFullHub : HubState :=
  { clients := [0]
    statusUpdateFunc := none
    heap := fun p =>
      if p = 0 then
        { send := { buf := List.replicate 255 JSON.null, cap := 256, closed := false }
          userID := "u-alice", username := "alice", role := "user" }
      else if p = 1 then freshClient "u-bob" "bob" "user"
      else noClient
    nextClient := 2
    statusCalls := [] }

/-- A hub with three live sessions: alice at addresses 0 and 2, bob at address 1. -/
def twoSessionsHub : HubState :=
  { clients := [0, 1, 2]
    statusUpdateFunc := none
    heap := fun p =>
      if p = 0 then freshClient "u-alice" "alice" "user"
      else if p = 1 then freshClient "u-bob" "bob" "user"
      else if p = 2 then freshClient "u-alice" "alice" "user"
      else noClient
    nextClient := 3
    statusCalls := [] }

/-- A hub with two live sessions: alice at address 0, whose queue of capacity 256 holds
256 pending events, and bob at address 1 with an empty queue. -/
def fullQueueHub : HubState :=
  { clients := [0, 1]
    statusUpdateFunc := none
    heap := fun p =>
      if p = 0 then
        { send := { buf := List.replicate 256 JSON.null, cap := 256, closed := false }
          userID := "u-alice", username := "alice", role := "user" }
      else if p = 1 then freshClient "u-bob" "bob" "user"
      else noClient
    nextClient := 2
    statusCalls := [] }

/-- Three requests: alice connects (session 0), bob connects (session 1), alice
disconnects. -/
def shortSequence : List AdmitRemove :=
  [AdmitRemove.admitSession "u-alice" "alice" "user", AdmitRemove.admitSession "u-bob" "bob" "user",
    AdmitRemove.removeSession 0]

/-- The hub `fullQueueHub` with a status function set. -/
def fullQueueHubWithStatus : HubState :=
  SetStatusUpdateFunc fullQueueHub (fun _ _ => none)

/-- The bytes of a text frame: the code of each character of an ASCII text. -/
def textFrame (text : String) : Frame := text.data.map Char.toNat

/-- A frame of a client that claims to be mallory: an object with `type` "chat", `data`
"hi", `userId` "u-mallory", `username` "mallory" and `chatId` "c1". -/
def spoofedFrame : Frame :=
  textFrame ("\x7b\"type\":\"chat\",\"data\":\"hi\",\"userId\":\"u-mallory\","
    ++ "\"username\":\"mallory\",\"chatId\":\"c1\"\x7d")

/-- The message `json.Unmarshal` stores for `spoofedFrame`. -/
def spoofedMessage : Message :=
  { Type_ := "chat", Data := Data.json (JSON.str "hi"), UserID := "u-mallory",
    Username := "mallory", ChatID := "c1" }

/-- A frame whose `type` member is the number 7, with `data` "hi". -/
def malformedFrame : Frame :=
  textFrame "\x7b\"type\":7,\"data\":\"hi\"\x7d"

/-- What `json.Unmarshal` returns on the two sample frames: the message of
`spoofedFrame`, and an error for `malformedFrame`. Frames that are not samples are
given the error return as well. -/
def sampleUnmarshal (messageBytes : Frame) : Option Message :=
  if messageBytes = spoofedFrame then some spoofedMessage else none

/-- A hub with two live sessions: alice at address 0 with two pending events in her
queue, and bob at address 1 with an empty queue. -/
def pendingHub : HubState :=
  { clients := [0, 1]
    statusUpdateFunc := none
    heap := fun p =>
      if p = 0 then
        { send := { buf := [JSON.str "first", JSON.str "second"], cap := 256, closed := false }
          userID := "u-alice", username := "alice", role := "user" }
      else if p = 1 then freshClient "u-bob" "bob" "user"
      else noClient
    nextClient := 2
    statusCalls := [] }

/-- An open connection with nothing written to it. -/
def openConn : Conn := { closed := false, written := [] }

/-- Four requests: a relayed broadcast, a receive of the write pump of session 0, a
new connection, and a message for the user of session 0. -/
def mixedRequests : List Request :=
  [Request.broadcast (JSON.str "third"), Request.writePumpRecv 0,
    Request.handleWebSocket "u-carol" "carol" "admin",
    Request.broadcastToUser "u-alice"
      { Type_ := "new_chat", Data := Data.json (JSON.str "chat-7") }]

/-- The envelope of a chat message as `ChatService.SendMessage` builds it. -/
def sampleEnvelope : Message :=
  { Type_ := "new_message", Data := Data.json (JSON.str "hello"), ChatID := "c1" }

/-! ## A delivery of a collaborator that overlaps with `Hub.Run` -/

/-- The statement `close(client.send)` of the default branch of `BroadcastToChat` and
`BroadcastToUser` (hub.go:152, 170), taken on its own. The two methods run in the
goroutine of their caller (chat.go:196, 200, 230), `Hub.Run` runs in its own
(main.go:41), and nothing keeps an iteration of `Hub.Run` from running between this
statement and the next. -/
def defaultClose (h : HubState) (client : ClientPtr) : Except Panic HubState :=
  match (h.heap client).send.close with
  | Except.error e => Except.error e
  | Except.ok ch => Except.ok (setSend h client ch)

/-- The statement `delete(h.clients, client)` of the default branch (hub.go:153, 171),
taken on its own. -/
def defaultDelete (h : HubState) (client : ClientPtr) : HubState :=
  { h with clients := mapDelete h.clients client }

/-- A sequence of 257 requests: alice connects (session 0) and 128 guests connect and
disconnect one after the other (sessions 1 to 128) while no event is taken from the
queue of alice, which leaves her alone in the map with 256 pending events. -/
def stalledSequence : List AdmitRemove :=
  AdmitRemove.admitSession "u-alice" "alice" "user" :: churn 128

/-! ## Lemmas on the fan-out loop -/

theorem selectSend_of_open (h : HubState) (k : ClientPtr) (data : Bytes)
    (hopen : (h.heap k).send.closed = false) :
    selectSend h k data = Except.ok
      { h with
        heap := Function.update h.heap k (deliveredClient (h.heap k) data)
        clients := if hasRoom (h.heap k) then h.clients else mapDelete h.clients k } := by
  unfold selectSend Chan.trySend Chan.close deliveredClient hasRoom setSend
  by_cases hr : (h.heap k).send.buf.length < (h.heap k).send.cap
  · simp [hopen, hr]
  · simp [hopen, hr]

theorem rangeClients_spec (target : ClientPtr → Client → Bool) (data : Bytes) :
    ∀ (keys : List ClientPtr) (h : HubState), keys.Nodup →
      (∀ c ∈ keys, c ∈ h.clients → target c (h.heap c) = true →
        (h.heap c).send.closed = false) →
      ∃ h', rangeClients target data keys h = Except.ok h' ∧
        h'.clients = h.clients.filter
          (fun c => decide ¬ (c ∈ keys ∧ target c (h.heap c) = true ∧ ¬ hasRoom (h.heap c))) ∧
        (∀ c, h'.heap c =
          if c ∈ keys ∧ c ∈ h.clients ∧ target c (h.heap c) = true
          then deliveredClient (h.heap c) data else h.heap c) ∧
        h'.statusUpdateFunc = h.statusUpdateFunc ∧ h'.nextClient = h.nextClient ∧
        h'.statusCalls = h.statusCalls := by
  intro keys
  induction keys with
  | nil =>
    intro h _ _
    refine ⟨h, rfl, ?_, ?_, rfl, rfl, rfl⟩
    · simp
    · intro c; simp
  | cons k rest ih =>
    intro h hnd hopen
    have hk : k ∉ rest := (List.nodup_cons.mp hnd).1
    have hrest : rest.Nodup := (List.nodup_cons.mp hnd).2
    by_cases ht : k ∈ h.clients ∧ target k (h.heap k) = true
    · have hko : (h.heap k).send.closed = false := hopen k (List.mem_cons_self _ _) ht.1 ht.2
      obtain ⟨h', hrun, hcl, hheap, hf, hn, hs⟩ := ih
        { h with
          heap := Function.update h.heap k (deliveredClient (h.heap k) data)
          clients := if hasRoom (h.heap k) then h.clients else mapDelete h.clients k } hrest
        (by
          intro c hc hcm htc
          have hck : c ≠ k := fun e => hk (e ▸ hc)
          simp only [Function.update_noteq hck] at htc ⊢
          refine hopen c (List.mem_cons_of_mem _ hc) ?_ htc
          by_cases hr : hasRoom (h.heap k)
          · simpa [hr] using hcm
          · simp only [hr, if_false, mapDelete, List.mem_filter] at hcm
            exact hcm.1)
      refine ⟨h', ?_, ?_, ?_, hf, hn, hs⟩
      · simp only [rangeClients, ht, and_self, if_true, selectSend_of_open h k data hko]
        exact hrun
      · rw [hcl]
        by_cases hr : hasRoom (h.heap k)
        · simp only [hr, if_true]
          apply List.filter_congr
          intro c _
          by_cases hck : c = k
          · subst hck; simp [hk, hr]
          · simp [Function.update_noteq hck, hck]
        · simp only [hr, if_false, mapDelete, List.filter_filter]
          apply List.filter_congr
          intro c _
          by_cases hck : c = k
          · subst hck; simp [hr, ht.2]
          · simp [Function.update_noteq hck, hck]
      · intro c
        rw [hheap c]
        by_cases hck : c = k
        · subst hck; simp [hk, ht.1, ht.2]
        · have hmem : (c ∈ (if hasRoom (h.heap k) then h.clients else mapDelete h.clients k))
              ↔ c ∈ h.clients := by
            by_cases hr : hasRoom (h.heap k)
            · simp [hr]
            · simp [hr, mapDelete, hck]
          simp only [Function.update_noteq hck, hmem, List.mem_cons, hck, false_or]
    · obtain ⟨h', hrun, hcl, hheap, hf, hn, hs⟩ := ih h hrest
        (fun c hc => hopen c (List.mem_cons_of_mem _ hc))
      refine ⟨h', ?_, ?_, ?_, hf, hn, hs⟩
      · simp only [rangeClients, ht, if_false]
        exact hrun
      · rw [hcl]
        apply List.filter_congr
        intro c hc
        by_cases hck : c = k
        · subst hck
          have : ¬ target c (h.heap c) = true := fun e => ht ⟨hc, e⟩
          simp [this]
        · simp [hck]
      · intro c
        rw [hheap c]
        by_cases hck : c = k
        · subst hck
          have h1 : ¬ (c ∈ h.clients ∧ target c (h.heap c) = true) := ht
          simp [hk, h1]
        · simp [hck]

theorem fanOut_spec (target : ClientPtr → Client → Bool) (data : Bytes) (h : HubState)
    (hnd : h.clients.Nodup)
    (hopen : ∀ c ∈ h.clients, target c (h.heap c) = true → (h.heap c).send.closed = false) :
    ∃ h', rangeClients target data h.clients h = Except.ok h' ∧
      h'.clients = h.clients.filter
        (fun c => decide (target c (h.heap c) = true → hasRoom (h.heap c))) ∧
      (∀ c, h'.heap c =
        if c ∈ h.clients ∧ target c (h.heap c) = true
        then deliveredClient (h.heap c) data else h.heap c) ∧
      h'.statusUpdateFunc = h.statusUpdateFunc ∧ h'.nextClient = h.nextClient ∧
      h'.statusCalls = h.statusCalls := by
  obtain ⟨h', hrun, hcl, hheap, hf, hn, hs⟩ :=
    rangeClients_spec target data h.clients h hnd (fun c hc _ ht => hopen c hc ht)
  refine ⟨h', hrun, ?_, ?_, hf, hn, hs⟩
  · rw [hcl]
    apply List.filter_congr
    intro c hc
    simp [hc]
  · intro c
    rw [hheap c]
    by_cases hc : c ∈ h.clients <;> simp [hc]

/-- The order in which `range` produces the keys of the map does not matter: the loop
run over any arrangement of the keys gives the state it gives over the list. -/
theorem rangeClients_order_irrelevant (target : ClientPtr → Client → Bool) (data : Bytes)
    (h : HubState) (keys : List ClientPtr) (hperm : keys.Perm h.clients)
    (hwf : h.WellFormed) :
    rangeClients target data keys h = rangeClients target data h.clients h := by
  obtain ⟨h1, hrun1, hcl1, hheap1, hf1, hn1, hs1⟩ :=
    rangeClients_spec target data keys h (hperm.nodup_iff.mpr hwf.1)
      (fun c _ hc _ => hwf.2 c hc)
  obtain ⟨h2, hrun2, hcl2, hheap2, hf2, hn2, hs2⟩ :=
    rangeClients_spec target data h.clients h hwf.1 (fun c _ hc _ => hwf.2 c hc)
  rw [hrun1, hrun2]
  have e1 : h1.clients = h2.clients := by
    rw [hcl1, hcl2]
    apply List.filter_congr
    intro c _
    simp only [hperm.mem_iff]
  have e2 : h1.heap = h2.heap := by
    funext c
    rw [hheap1 c, hheap2 c]
    simp only [hperm.mem_iff]
  have e3 : h1.statusUpdateFunc = h2.statusUpdateFunc := by rw [hf1, hf2]
  have e4 : h1.nextClient = h2.nextClient := by rw [hn1, hn2]
  have e5 : h1.statusCalls = h2.statusCalls := by rw [hs1, hs2]
  cases h1
  cases h2
  simp only at e1 e2 e3 e4 e5
  subst e1 e2 e3 e4 e5
  rfl

theorem deliveredClient_room (c : Client) (data : Bytes) (hr : hasRoom c) :
    (deliveredClient c data).send.buf = c.send.buf ++ [data] ∧
      (deliveredClient c data).send.closed = c.send.closed ∧
      (deliveredClient c data).send.cap = c.send.cap := by
  simp [deliveredClient, hr]

theorem deliveredClient_full (c : Client) (data : Bytes) (hr : ¬ hasRoom c) :
    (deliveredClient c data).send.buf = c.send.buf ∧
      (deliveredClient c data).send.closed = true ∧
      (deliveredClient c data).send.cap = c.send.cap := by
  simp [deliveredClient, hr]

theorem deliveredClient_identity (c : Client) (data : Bytes) :
    (deliveredClient c data).userID = c.userID ∧
      (deliveredClient c data).username = c.username ∧
      (deliveredClient c data).role = c.role := by
  unfold deliveredClient
  by_cases hr : hasRoom c <;> simp [hr]

theorem mapInsert_nodup (l : List ClientPtr) (s : ClientPtr) (h : l.Nodup) :
    (mapInsert l s).Nodup := by
  unfold mapInsert
  by_cases hs : s ∈ l
  · simpa [hs] using h
  · simp only [hs, if_false]
    rw [List.nodup_append]
    refine ⟨h, List.nodup_singleton s, ?_⟩
    intro a ha hb
    simp only [List.mem_singleton] at hb
    exact hs (hb ▸ ha)

theorem mem_mapInsert (l : List ClientPtr) (s c : ClientPtr) :
    c ∈ mapInsert l s ↔ c ∈ l ∨ c = s := by
  unfold mapInsert
  by_cases hs : s ∈ l
  · simp only [hs, if_true]
    constructor
    · exact Or.inl
    · rintro (h | h)
      · exact h
      · exact h ▸ hs
  · simp [hs]

theorem mem_mapDelete (l : List ClientPtr) (s c : ClientPtr) :
    c ∈ mapDelete l s ↔ c ∈ l ∧ c ≠ s := by
  simp [mapDelete]

theorem mapDelete_nodup (l : List ClientPtr) (s : ClientPtr) (h : l.Nodup) :
    (mapDelete l s).Nodup := h.filter _

theorem jsonMarshal_connected (c : Client) :
    ∃ data, jsonMarshal (connectedNotification c) = some data := ⟨_, rfl⟩

theorem jsonMarshal_disconnected (c : Client) :
    ∃ data, jsonMarshal (disconnectedNotification c) = some data := ⟨_, rfl⟩

theorem callStatusUpdate_fields (g : HubState) (u : String) (b : Bool) :
    (callStatusUpdate g u b).clients = g.clients ∧ (callStatusUpdate g u b).heap = g.heap ∧
      (callStatusUpdate g u b).statusUpdateFunc = g.statusUpdateFunc ∧
      (callStatusUpdate g u b).nextClient = g.nextClient := by
  unfold callStatusUpdate
  cases hfn : g.statusUpdateFunc <;> simp [hfn]

theorem callStatusUpdate_calls (g : HubState) (u : String) (b : Bool) :
    (callStatusUpdate g u b).statusCalls =
      if g.statusUpdateFunc.isSome then g.statusCalls ++ [(u, b)] else g.statusCalls := by
  unfold callStatusUpdate
  cases hfn : g.statusUpdateFunc <;> simp [hfn]

/-- The register case, spelled out: when the map holds each key once and the queues of
the other sessions of the map are open, it returns a state whose map is the old map
with `s` inserted minus the other sessions whose queue was full. -/
theorem runRegister_spec (h : HubState) (s : ClientPtr) (hnd : h.clients.Nodup)
    (hopen : ∀ c ∈ h.clients, c ≠ s → (h.heap c).send.closed = false) :
    ∃ h' data, jsonMarshal (connectedNotification (h.heap s)) = some data ∧
      runRegister h s = Except.ok h' ∧
      h'.clients = (mapInsert h.clients s).filter
        (fun c => decide (c ≠ s → hasRoom (h.heap c))) ∧
      (∀ c, h'.heap c = if (c ∈ h.clients ∧ c ≠ s)
        then deliveredClient (h.heap c) data else h.heap c) ∧
      h'.statusUpdateFunc = h.statusUpdateFunc ∧ h'.nextClient = h.nextClient ∧
      h'.statusCalls = (callStatusUpdate h (h.heap s).userID true).statusCalls := by
  obtain ⟨data, hdata⟩ := jsonMarshal_connected (h.heap s)
  obtain ⟨h', hrun, hcl, hheap, hf, hn, hs⟩ :=
    fanOut_spec (fun client _ => decide (client ≠ s)) data
      (callStatusUpdate { h with clients := mapInsert h.clients s } (h.heap s).userID true)
      (by
        rw [(callStatusUpdate_fields _ _ _).1]
        exact mapInsert_nodup _ _ hnd)
      (by
        intro c hc ht
        rw [(callStatusUpdate_fields _ _ _).1] at hc
        rw [(callStatusUpdate_fields _ _ _).2.1]
        have hne : c ≠ s := by simpa using ht
        have hmem : c ∈ h.clients := by
          rcases (mem_mapInsert _ _ _).mp hc with h1 | h1
          · exact h1
          · exact absurd h1 hne
        exact hopen c hmem hne)
  obtain ⟨e1, e2, e3, e4⟩ := callStatusUpdate_fields { h with clients := mapInsert h.clients s }
    (h.heap s).userID true
  refine ⟨h', data, hdata, ?_, ?_, ?_, ?_, ?_, ?_⟩
  · unfold runRegister broadcastToOthers
    simp only [e2, hdata, e1]
    simpa only [e1] using hrun
  · rw [hcl, e1, e2]
    apply List.filter_congr
    intro c _
    simp
  · intro c
    rw [hheap c, e1, e2]
    by_cases hcs : c = s
    · subst hcs; simp
    · simp [hcs, mem_mapInsert]
  · rw [hf, e3]
  · rw [hn, e4]
  · rw [hs, callStatusUpdate_calls, callStatusUpdate_calls]

/-- The unregister case for a session in the map, spelled out. -/
theorem runUnregister_spec (h : HubState) (s : ClientPtr) (hwf : h.WellFormed)
    (hs : s ∈ h.clients) :
    ∃ h' data, jsonMarshal (disconnectedNotification (h.heap s)) = some data ∧
      runUnregister h s = Except.ok h' ∧
      h'.clients = (mapDelete h.clients s).filter (fun c => decide (hasRoom (h.heap c))) ∧
      (∀ c, h'.heap c =
        if c = s then { h.heap s with send := { (h.heap s).send with closed := true } }
        else if c ∈ h.clients then deliveredClient (h.heap c) data else h.heap c) ∧
      h'.statusUpdateFunc = h.statusUpdateFunc ∧ h'.nextClient = h.nextClient ∧
      h'.statusCalls = (callStatusUpdate h (h.heap s).userID false).statusCalls := by
  obtain ⟨data, hdata⟩ := jsonMarshal_disconnected (h.heap s)
  have hso : (h.heap s).send.closed = false := hwf.2 s hs
  let h2 : HubState := setSend { h with clients := mapDelete h.clients s } s
    { (h.heap s).send with closed := true }
  have hh2 : ∀ c, h2.heap c =
      if c = s then { h.heap s with send := { (h.heap s).send with closed := true } }
      else h.heap c := by
    intro c
    by_cases hcs : c = s
    · subst hcs; simp [h2, setSend]
    · simp [h2, setSend, Function.update_noteq hcs, hcs]
  have hh2s : h2.heap s = { h.heap s with send := { (h.heap s).send with closed := true } } := by
    simpa using hh2 s
  let h3 : HubState := callStatusUpdate h2 (h2.heap s).userID false
  obtain ⟨e1, e2, e3, e4⟩ := callStatusUpdate_fields h2 (h2.heap s).userID false
  have hnote : disconnectedNotification (h3.heap s) = disconnectedNotification (h.heap s) := by
    show disconnectedNotification ((callStatusUpdate h2 (h2.heap s).userID false).heap s) = _
    rw [e2, hh2s]
    rfl
  obtain ⟨h', hrun, hcl, hheap, hf, hn, hsc⟩ :=
    fanOut_spec (fun client _ => decide (client ≠ s)) data h3
      (by
        show (callStatusUpdate h2 (h2.heap s).userID false).clients.Nodup
        rw [e1]
        exact mapDelete_nodup _ _ hwf.1)
      (by
        intro c hc ht
        have hc' : c ∈ mapDelete h.clients s := by
          have : c ∈ (callStatusUpdate h2 (h2.heap s).userID false).clients := hc
          rw [e1] at this
          exact this
        have hne : c ≠ s := by simpa using ht
        show ((callStatusUpdate h2 (h2.heap s).userID false).heap c).send.closed = false
        rw [e2, hh2 c]
        simp only [hne, if_false]
        exact hwf.2 c ((mem_mapDelete _ _ _).mp hc').1)
  have hcl3 : h3.clients = mapDelete h.clients s := e1
  have hheap3 : h3.heap = h2.heap := e2
  refine ⟨h', data, hdata, ?_, ?_, ?_, ?_, ?_, ?_⟩
  · unfold runUnregister Chan.close
    simp only [hs, if_true, hso]
    show broadcastToOthers h3 s (disconnectedNotification (h3.heap s)) = Except.ok h'
    rw [hnote]
    unfold broadcastToOthers
    simp only [hdata]
    exact hrun
  · rw [hcl, hcl3]
    apply List.filter_congr
    intro c hc
    have hne : c ≠ s := ((mem_mapDelete _ _ _).mp hc).2
    rw [hheap3, hh2 c]
    simp [hne]
  · intro c
    rw [hheap c, hcl3, hheap3, hh2 c]
    by_cases hcs : c = s
    · subst hcs; simp
    · simp [hcs, mem_mapDelete]
  · rw [hf]; exact e3
  · rw [hn]; exact e4
  · rw [hsc]
    show (callStatusUpdate h2 (h2.heap s).userID false).statusCalls = _
    rw [callStatusUpdate_calls, callStatusUpdate_calls, hh2s]
    rfl

/-- The loop of the broadcast case and of `BroadcastToChat`, spelled out. -/
theorem runBroadcast_spec (h : HubState) (data : Bytes) (hwf : h.WellFormed) :
    ∃ h', runBroadcast h data = Except.ok h' ∧
      h'.clients = h.clients.filter (fun c => decide (hasRoom (h.heap c))) ∧
      (∀ c, h'.heap c = if c ∈ h.clients then deliveredClient (h.heap c) data else h.heap c) ∧
      h'.statusUpdateFunc = h.statusUpdateFunc ∧ h'.nextClient = h.nextClient ∧
      h'.statusCalls = h.statusCalls := by
  obtain ⟨h', hrun, hcl, hheap, hrest⟩ :=
    fanOut_spec (fun _ _ => true) data h hwf.1 (fun c hc _ => hwf.2 c hc)
  refine ⟨h', hrun, ?_, ?_, hrest⟩
  · rw [hcl]
    apply List.filter_congr
    intro c _
    simp
  · intro c
    rw [hheap c]
    simp

theorem BroadcastToChat_eq (h : HubState) (chatID : String) (message : Message) (data : Bytes)
    (hdata : jsonMarshal message = some data) :
    BroadcastToChat h chatID message = runBroadcast h data := by
  unfold BroadcastToChat runBroadcast
  simp only [hdata]

/-- The loop of `BroadcastToUser`, spelled out. -/
theorem BroadcastToUser_spec (h : HubState) (userID : String) (message : Message) (data : Bytes)
    (hdata : jsonMarshal message = some data) (hwf : h.WellFormed) :
    ∃ h', BroadcastToUser h userID message = Except.ok h' ∧
      h'.clients = h.clients.filter
        (fun c => decide ((h.heap c).userID = userID → hasRoom (h.heap c))) ∧
      (∀ c, h'.heap c = if c ∈ h.clients ∧ (h.heap c).userID = userID
        then deliveredClient (h.heap c) data else h.heap c) ∧
      h'.statusUpdateFunc = h.statusUpdateFunc ∧ h'.nextClient = h.nextClient ∧
      h'.statusCalls = h.statusCalls := by
  obtain ⟨h', hrun, hcl, hheap, hrest⟩ :=
    fanOut_spec (fun _ client => decide (client.userID = userID)) data h hwf.1
      (fun c hc _ => hwf.2 c hc)
  refine ⟨h', ?_, ?_, ?_, hrest⟩
  · unfold BroadcastToUser
    simp only [hdata]
    exact hrun
  · rw [hcl]
    apply List.filter_congr
    intro c _
    simp
  · intro c
    rw [hheap c]
    simp

/-- The loop of `broadcastToOthers`, spelled out. -/
theorem broadcastToOthers_spec (h : HubState) (sender : ClientPtr) (message : Message)
    (data : Bytes) (hdata : jsonMarshal message = some data) (hwf : h.WellFormed) :
    ∃ h', broadcastToOthers h sender message = Except.ok h' ∧
      h'.clients = h.clients.filter
        (fun c => decide (c ≠ sender → hasRoom (h.heap c))) ∧
      (∀ c, h'.heap c = if c ∈ h.clients ∧ c ≠ sender
        then deliveredClient (h.heap c) data else h.heap c) ∧
      h'.statusUpdateFunc = h.statusUpdateFunc ∧ h'.nextClient = h.nextClient ∧
      h'.statusCalls = h.statusCalls := by
  obtain ⟨h', hrun, hcl, hheap, hrest⟩ :=
    fanOut_spec (fun client _ => decide (client ≠ sender)) data h hwf.1
      (fun c hc _ => hwf.2 c hc)
  refine ⟨h', ?_, ?_, ?_, hrest⟩
  · unfold broadcastToOthers
    simp only [hdata]
    exact hrun
  · rw [hcl]
    apply List.filter_congr
    intro c _
    simp
  · intro c
    rw [hheap c]
    simp

theorem sampleHub_wellFormed : sampleHub.WellFormed := by
  refine ⟨by decide, ?_⟩
  intro c hc
  have : c = 0 ∨ c = 1 := by simpa [sampleHub] using hc
  rcases this with rfl | rfl <;> rfl

/-! ## The claims -/

/-- C1: on every well-formed hub state and for every session `s`, the register case
returns a state (it does not panic, whether the queues of the other sessions are full
or not) and `s` is in the map of that state. -/
theorem runRegister_admits (h : HubState) (s : ClientPtr) (hwf : h.WellFormed) :
    ∃ h', runRegister h s = Except.ok h' ∧ s ∈ h'.clients := by
  obtain ⟨h', data, _, hrun, hcl, _⟩ := runRegister_spec h s hwf.1 (fun c hc _ => hwf.2 c hc)
  refine ⟨h', hrun, ?_⟩
  rw [hcl, List.mem_filter]
  exact ⟨(mem_mapInsert _ _ _).mpr (Or.inr rfl), by simp⟩

theorem runRegister_admits_witness :
    sampleHub.WellFormed ∧ ∃ h', runRegister sampleHub 2 = Except.ok h' ∧ 2 ∈ h'.clients :=
  ⟨sampleHub_wellFormed, runRegister_admits sampleHub 2 sampleHub_wellFormed⟩

/-- C2: on a well-formed hub state the register case for `s` calls the status function
with `(s.userID, true)` exactly when one is set, appends the serialized
`user_connected` notification once to the queue of every other session of the map whose
queue has room, and leaves the queue of `s` as it was. -/
theorem runRegister_presence (h : HubState) (s : ClientPtr) (hwf : h.WellFormed) :
    ∃ h' data, jsonMarshal (connectedNotification (h.heap s)) = some data ∧
      (connectedNotification (h.heap s)).Type_ = "user_connected" ∧
      runRegister h s = Except.ok h' ∧
      (h.statusUpdateFunc.isSome = true →
        h'.statusCalls = h.statusCalls ++ [((h.heap s).userID, true)]) ∧
      (h.statusUpdateFunc = none → h'.statusCalls = h.statusCalls) ∧
      (∀ c ∈ h.clients, c ≠ s → hasRoom (h.heap c) →
        (h'.heap c).send.buf = (h.heap c).send.buf ++ [data]) ∧
      (h'.heap s).send = (h.heap s).send := by
  obtain ⟨h', data, hdata, hrun, _, hheap, _, _, hcalls⟩ := runRegister_spec h s hwf.1 (fun c hc _ => hwf.2 c hc)
  refine ⟨h', data, hdata, rfl, hrun, ?_, ?_, ?_, ?_⟩
  · intro hset
    rw [hcalls, callStatusUpdate_calls, hset]
    rfl
  · intro hnone
    rw [hcalls, callStatusUpdate_calls, hnone]
    rfl
  · intro c hc hne hr
    rw [hheap c]
    simp only [hc, hne, ne_eq, not_false_eq_true, and_self, if_true]
    exact (deliveredClient_room _ _ hr).1
  · rw [hheap s]
    simp

theorem runRegister_presence_witness :
    sampleHub.WellFormed ∧
    ∃ h' data, jsonMarshal (connectedNotification (sampleHub.heap 2)) = some data ∧
      (connectedNotification (sampleHub.heap 2)).Type_ = "user_connected" ∧
      runRegister sampleHub 2 = Except.ok h' ∧
      (sampleHub.statusUpdateFunc.isSome = true →
        h'.statusCalls = sampleHub.statusCalls ++ [((sampleHub.heap 2).userID, true)]) ∧
      (sampleHub.statusUpdateFunc = none → h'.statusCalls = sampleHub.statusCalls) ∧
      (∀ c ∈ sampleHub.clients, c ≠ 2 → hasRoom (sampleHub.heap c) →
        (h'.heap c).send.buf = (sampleHub.heap c).send.buf ++ [data]) ∧
      (h'.heap 2).send = (sampleHub.heap 2).send :=
  ⟨sampleHub_wellFormed, runRegister_presence sampleHub 2 sampleHub_wellFormed⟩

/-- C3: on a well-formed hub state the unregister case for a session `s` of the map
deletes `s` from the map, closes its queue without adding to it, calls the status
function with `(s.userID, false)` exactly when one is set, and appends the serialized
`user_disconnected` notification once to the queue of every remaining session of the
map whose queue has room, which stays in the map. -/
theorem runUnregister_live (h : HubState) (s : ClientPtr) (hwf : h.WellFormed)
    (hs : s ∈ h.clients) :
    ∃ h' data, jsonMarshal (disconnectedNotification (h.heap s)) = some data ∧
      (disconnectedNotification (h.heap s)).Type_ = "user_disconnected" ∧
      (disconnectedNotification (h.heap s)).UserID = (h.heap s).userID ∧
      runUnregister h s = Except.ok h' ∧
      s ∉ h'.clients ∧
      (h'.heap s).send.closed = true ∧
      (h'.heap s).send.buf = (h.heap s).send.buf ∧
      (h.statusUpdateFunc.isSome = true →
        h'.statusCalls = h.statusCalls ++ [((h.heap s).userID, false)]) ∧
      (h.statusUpdateFunc = none → h'.statusCalls = h.statusCalls) ∧
      (∀ c ∈ h.clients, c ≠ s → hasRoom (h.heap c) →
        c ∈ h'.clients ∧ (h'.heap c).send.buf = (h.heap c).send.buf ++ [data]) := by
  obtain ⟨h', data, hdata, hrun, hcl, hheap, _, _, hcalls⟩ := runUnregister_spec h s hwf hs
  refine ⟨h', data, hdata, rfl, rfl, hrun, ?_, ?_, ?_, ?_, ?_, ?_⟩
  · rw [hcl, List.mem_filter, mem_mapDelete]
    exact fun hmem => hmem.1.2 rfl
  · rw [hheap s]; simp
  · rw [hheap s]; simp
  · intro hset
    rw [hcalls, callStatusUpdate_calls, hset]
    rfl
  · intro hnone
    rw [hcalls, callStatusUpdate_calls, hnone]
    rfl
  · intro c hc hne hr
    constructor
    · rw [hcl, List.mem_filter, mem_mapDelete]
      exact ⟨⟨hc, hne⟩, by simpa using hr⟩
    · rw [hheap c]
      simp only [hne, if_false, hc, if_true]
      exact (deliveredClient_room _ _ hr).1

theorem runUnregister_live_witness :
    sampleHub.WellFormed ∧ 0 ∈ sampleHub.clients ∧
    ∃ h' data, jsonMarshal (disconnectedNotification (sampleHub.heap 0)) = some data ∧
      (disconnectedNotification (sampleHub.heap 0)).Type_ = "user_disconnected" ∧
      (disconnectedNotification (sampleHub.heap 0)).UserID = (sampleHub.heap 0).userID ∧
      runUnregister sampleHub 0 = Except.ok h' ∧
      0 ∉ h'.clients ∧
      (h'.heap 0).send.closed = true ∧
      (h'.heap 0).send.buf = (sampleHub.heap 0).send.buf ∧
      (sampleHub.statusUpdateFunc.isSome = true →
        h'.statusCalls = sampleHub.statusCalls ++ [((sampleHub.heap 0).userID, false)]) ∧
      (sampleHub.statusUpdateFunc = none → h'.statusCalls = sampleHub.statusCalls) ∧
      (∀ c ∈ sampleHub.clients, c ≠ 0 → hasRoom (sampleHub.heap c) →
        c ∈ h'.clients ∧ (h'.heap c).send.buf = (sampleHub.heap c).send.buf ++ [data]) :=
  ⟨sampleHub_wellFormed, by decide,
    runUnregister_live sampleHub 0 sampleHub_wellFormed (by decide)⟩

/-- C4: for every hub state and every session `s` that is not in the map, the
unregister case returns the state it was given: the map, every queue and closed flag,
and the list of status calls are unchanged, and nothing panics. -/
theorem runUnregister_absent (h : HubState) (s : ClientPtr) (hs : s ∉ h.clients) :
    runUnregister h s = Except.ok h := by
  unfold runUnregister
  simp only [hs, if_false]

theorem runUnregister_absent_witness :
    2 ∉ sampleHub.clients ∧ runUnregister sampleHub 2 = Except.ok sampleHub :=
  ⟨by decide, runUnregister_absent sampleHub 2 (by decide)⟩

/-- After the register case for `s`, the map holds each key once and the queue of
every other session of the map is open. -/
theorem runRegister_post (h h' : HubState) (s : ClientPtr) (data : Bytes)
    (hnd : h.clients.Nodup)
    (hopen : ∀ c ∈ h.clients, c ≠ s → (h.heap c).send.closed = false)
    (hcl : h'.clients = (mapInsert h.clients s).filter
      (fun c => decide (c ≠ s → hasRoom (h.heap c))))
    (hheap : ∀ c, h'.heap c = if (c ∈ h.clients ∧ c ≠ s)
      then deliveredClient (h.heap c) data else h.heap c) :
    h'.clients.Nodup ∧ ∀ c ∈ h'.clients, c ≠ s → (h'.heap c).send.closed = false := by
  constructor
  · rw [hcl]
    exact (mapInsert_nodup _ _ hnd).filter _
  · intro c hc hne
    rw [hcl, List.mem_filter, mem_mapInsert] at hc
    have hmem : c ∈ h.clients := hc.1.resolve_right hne
    have hr : hasRoom (h.heap c) := by simpa [hne] using hc.2
    rw [hheap c]
    simp only [hmem, hne, ne_eq, not_false_eq_true, and_self, if_true]
    rw [(deliveredClient_room _ _ hr).2.1]
    exact hopen c hmem hne

theorem nearlyFullHub_wellFormed : nearlyFullHub.WellFormed := by
  refine ⟨List.nodup_singleton 0, ?_⟩
  intro c hc
  have : c = 0 := List.mem_singleton.mp hc
  subst this
  rfl

theorem nearlyFullHub_queue :
    (nearlyFullHub.heap 0).send.buf.length = 255 ∧ (nearlyFullHub.heap 0).send.cap = 256 :=
  ⟨List.length_replicate 255 JSON.null, rfl⟩

/-- C5, as stated, fails: alice (address 0) is live with 255 of 256 slots taken; the
first register of bob (address 1) fills her queue and gives the map `[0, 1]`; the second
register of bob finds her queue full and sheds her, which gives the map `[1]`. -/
theorem runRegister_twice_sheds :
    nearlyFullHub.WellFormed ∧
    ∃ h1 h2, runRegister nearlyFullHub 1 = Except.ok h1 ∧ runRegister h1 1 = Except.ok h2 ∧
      h1.clients = [0, 1] ∧ h2.clients = [1] ∧ h2.clients ≠ h1.clients := by
  refine ⟨nearlyFullHub_wellFormed, ?_⟩
  have hwf := nearlyFullHub_wellFormed
  obtain ⟨h1, data, _, hrun1, hcl1, hheap1, _⟩ :=
    runRegister_spec nearlyFullHub 1 hwf.1 (fun c hc _ => hwf.2 c hc)
  obtain ⟨hnd1, hopen1⟩ := runRegister_post nearlyFullHub h1 1 data hwf.1
    (fun c hc _ => hwf.2 c hc) hcl1 hheap1
  obtain ⟨h2, data2, _, hrun2, hcl2, _⟩ := runRegister_spec h1 1 hnd1 hopen1
  have hroom0 : hasRoom (nearlyFullHub.heap 0) := by
    unfold hasRoom
    rw [nearlyFullHub_queue.1, nearlyFullHub_queue.2]
    decide
  have hc0 : nearlyFullHub.clients = [0] := rfl
  have e1 : h1.clients = [0, 1] := by
    rw [hcl1, hc0]
    have hins : mapInsert [0] 1 = [0, 1] := by decide
    rw [hins]
    simp [List.filter, hroom0]
  have hfull : ¬ hasRoom (h1.heap 0) := by
    rw [hheap1 0]
    have h0 : (0 : ClientPtr) ∈ nearlyFullHub.clients ∧ (0 : ClientPtr) ≠ 1 :=
      ⟨List.mem_singleton.mpr rfl, by decide⟩
    rw [if_pos h0]
    unfold hasRoom
    rw [(deliveredClient_room _ data hroom0).1, (deliveredClient_room _ data hroom0).2.2,
      List.length_append, nearlyFullHub_queue.1, nearlyFullHub_queue.2, List.length_singleton]
    decide
  have e2 : h2.clients = [1] := by
    rw [hcl2, e1]
    have hins : mapInsert [0, 1] 1 = [0, 1] := by decide
    rw [hins]
    simp [List.filter, hfull]
  refine ⟨h1, h2, hrun1, hrun2, e1, e2, ?_⟩
  rw [e1, e2]
  decide

/-- C5, amended: on a well-formed hub state, registering `s` twice in succession
returns a state; `s` is in the map after the first and after the second register,
once; the map after the second register is the map after the first without the other
sessions whose queue is full at the second register; the two maps are equal when every
other session of the map has room in its queue after the first register. -/
theorem runRegister_twice (h : HubState) (s : ClientPtr) (hwf : h.WellFormed) :
    ∃ h1 h2, runRegister h s = Except.ok h1 ∧ runRegister h1 s = Except.ok h2 ∧
      s ∈ h1.clients ∧ s ∈ h2.clients ∧ h1.clients.count s = 1 ∧ h2.clients.count s = 1 ∧
      h2.clients = h1.clients.filter (fun c => decide (c = s ∨ hasRoom (h1.heap c))) ∧
      ((∀ c ∈ h1.clients, c ≠ s → hasRoom (h1.heap c)) → h2.clients = h1.clients) := by
  obtain ⟨h1, data, _, hrun1, hcl1, hheap1, _⟩ :=
    runRegister_spec h s hwf.1 (fun c hc _ => hwf.2 c hc)
  obtain ⟨hnd1, hopen1⟩ := runRegister_post h h1 s data hwf.1
    (fun c hc _ => hwf.2 c hc) hcl1 hheap1
  obtain ⟨h2, data2, _, hrun2, hcl2, hheap2, _⟩ := runRegister_spec h1 s hnd1 hopen1
  obtain ⟨hnd2, _⟩ := runRegister_post h1 h2 s data2 hnd1 hopen1 hcl2 hheap2
  have hs1 : s ∈ h1.clients := by
    rw [hcl1, List.mem_filter]
    exact ⟨(mem_mapInsert _ _ _).mpr (Or.inr rfl), by simp⟩
  have hins : mapInsert h1.clients s = h1.clients := by
    unfold mapInsert
    simp only [hs1, if_true]
  have hfilter : h2.clients =
      h1.clients.filter (fun c => decide (c = s ∨ hasRoom (h1.heap c))) := by
    rw [hcl2, hins]
    apply List.filter_congr
    intro c _
    by_cases hcs : c = s <;> simp [hcs]
  have hs2 : s ∈ h2.clients := by
    rw [hfilter, List.mem_filter]
    exact ⟨hs1, by simp⟩
  refine ⟨h1, h2, hrun1, hrun2, hs1, hs2, List.count_eq_one_of_mem hnd1 hs1,
    List.count_eq_one_of_mem hnd2 hs2, hfilter, ?_⟩
  intro hall
  rw [hfilter, List.filter_eq_self]
  intro c hc
  by_cases hcs : c = s
  · simp [hcs]
  · simp [hall c hc hcs]

theorem runRegister_twice_witness :
    sampleHub.WellFormed ∧
    ∃ h1 h2, runRegister sampleHub 2 = Except.ok h1 ∧ runRegister h1 2 = Except.ok h2 ∧
      2 ∈ h1.clients ∧ 2 ∈ h2.clients ∧ h1.clients.count 2 = 1 ∧ h2.clients.count 2 = 1 ∧
      h2.clients = h1.clients.filter (fun c => decide (c = 2 ∨ hasRoom (h1.heap c))) ∧
      ((∀ c ∈ h1.clients, c ≠ 2 → hasRoom (h1.heap c)) → h2.clients = h1.clients) :=
  ⟨sampleHub_wellFormed, runRegister_twice sampleHub 2 sampleHub_wellFormed⟩

/-- The result of a fan-out loop over a well-formed state meets the backpressure
contract, keeps the sessions that are not targets as they are, and is well formed. -/
theorem fanOut_sheds (target : ClientPtr → Client → Bool) (data : Bytes) (h : HubState)
    (hwf : h.WellFormed) :
    ∃ h', rangeClients target data h.clients h = Except.ok h' ∧
      ShedsClientNotEvent h h' (fun c => target c (h.heap c) = true) data ∧
      (∀ c, ¬ (c ∈ h.clients ∧ target c (h.heap c) = true) → h'.heap c = h.heap c) ∧
      (∀ c ∈ h.clients, target c (h.heap c) = false → c ∈ h'.clients) ∧
      (∀ c ∈ h'.clients, c ∈ h.clients) ∧
      h'.WellFormed := by
  obtain ⟨h', hrun, hcl, hheap, _⟩ :=
    fanOut_spec target data h hwf.1 (fun c hc _ => hwf.2 c hc)
  refine ⟨h', hrun, ?_, ?_, ?_, ?_, ?_, ?_⟩
  · intro c hc ht
    have hh : h'.heap c = deliveredClient (h.heap c) data := by
      rw [hheap c, if_pos ⟨hc, ht⟩]
    constructor
    · intro hr
      refine ⟨?_, ?_, ?_⟩
      · rw [hh]; exact (deliveredClient_full _ _ hr).2.1
      · rw [hh]; exact (deliveredClient_full _ _ hr).1
      · rw [hcl, List.mem_filter]
        intro hmem
        have := hmem.2
        simp only [decide_eq_true_eq] at this
        exact hr (this ht)
    · intro hr
      refine ⟨?_, ?_, ?_⟩
      · rw [hh, (deliveredClient_room _ _ hr).2.1]; exact hwf.2 c hc
      · rw [hh]; exact (deliveredClient_room _ _ hr).1
      · rw [hcl, List.mem_filter]
        exact ⟨hc, by simp [hr]⟩
  · intro c hn
    rw [hheap c, if_neg hn]
  · intro c hc hf
    rw [hcl, List.mem_filter]
    exact ⟨hc, by simp [hf]⟩
  · intro c hc
    rw [hcl, List.mem_filter] at hc
    exact hc.1
  · rw [hcl]; exact hwf.1.filter _
  · intro c hc
    rw [hcl, List.mem_filter] at hc
    rw [hheap c]
    by_cases ht : target c (h.heap c) = true
    · have hr : hasRoom (h.heap c) := by
        have := hc.2
        simp only [decide_eq_true_eq] at this
        exact this ht
      rw [if_pos ⟨hc.1, ht⟩, (deliveredClient_room _ _ hr).2.1]
      exact hwf.2 c hc.1
    · rw [if_neg (fun hh => ht hh.2)]
      exact hwf.2 c hc.1

/-- C6: on a well-formed hub state the broadcast case of `Hub.Run`, and
`BroadcastToChat` for every chat id and every message that serializes, return a state
in which every session of the map whose queue has room is still in the map and has the
one serialized event appended at the tail of its queue; no session of the map is
exempt, whatever the chat id. -/
theorem deliverToAll_reaches_every_session (h : HubState) (hwf : h.WellFormed) :
    (∀ data : Bytes, ∃ h', runBroadcast h data = Except.ok h' ∧
      ∀ c ∈ h.clients, hasRoom (h.heap c) →
        c ∈ h'.clients ∧ (h'.heap c).send.buf = (h.heap c).send.buf ++ [data]) ∧
    (∀ (chatID : String) (message : Message) (data : Bytes),
      jsonMarshal message = some data →
      ∃ h', BroadcastToChat h chatID message = Except.ok h' ∧
        ∀ c ∈ h.clients, hasRoom (h.heap c) →
          c ∈ h'.clients ∧ (h'.heap c).send.buf = (h.heap c).send.buf ++ [data]) := by
  have key : ∀ data : Bytes, ∃ h', runBroadcast h data = Except.ok h' ∧
      ∀ c ∈ h.clients, hasRoom (h.heap c) →
        c ∈ h'.clients ∧ (h'.heap c).send.buf = (h.heap c).send.buf ++ [data] := by
    intro data
    obtain ⟨h', hrun, hshed, _⟩ := fanOut_sheds (fun _ _ => true) data h hwf
    refine ⟨h', hrun, ?_⟩
    intro c hc hr
    obtain ⟨_, hbuf, hmem⟩ := (hshed c hc rfl).2 hr
    exact ⟨hmem, hbuf⟩
  refine ⟨key, ?_⟩
  intro chatID message data hdata
  rw [BroadcastToChat_eq h chatID message data hdata]
  exact key data

/-- A chat message as `ChatService.SendMessage` hands it to `BroadcastToChat`. -/
theorem jsonMarshal_sample :
    jsonMarshal { Type_ := "new_message", Data := Data.json (JSON.str "hello") } =
      some (JSON.obj [("type", JSON.str "new_message"), ("data", JSON.str "hello")]) := rfl

theorem deliverToAll_reaches_every_session_witness :
    sampleHub.WellFormed ∧
    (∃ h', runBroadcast sampleHub (JSON.str "x") = Except.ok h' ∧
      ∀ c ∈ sampleHub.clients, hasRoom (sampleHub.heap c) →
        c ∈ h'.clients ∧ (h'.heap c).send.buf = (sampleHub.heap c).send.buf ++ [JSON.str "x"]) ∧
    (∃ h', BroadcastToChat sampleHub "c1"
        { Type_ := "new_message", Data := Data.json (JSON.str "hello") } = Except.ok h' ∧
      ∀ c ∈ sampleHub.clients, hasRoom (sampleHub.heap c) →
        c ∈ h'.clients ∧ (h'.heap c).send.buf = (sampleHub.heap c).send.buf ++
          [JSON.obj [("type", JSON.str "new_message"), ("data", JSON.str "hello")]]) :=
  ⟨sampleHub_wellFormed,
    (deliverToAll_reaches_every_session sampleHub sampleHub_wellFormed).1 (JSON.str "x"),
    (deliverToAll_reaches_every_session sampleHub sampleHub_wellFormed).2 "c1" _ _
      jsonMarshal_sample⟩

/-- C7: on a well-formed hub state, `BroadcastToUser` of a message that serializes
returns a state in which every session of the map whose `userID` is the given one and
whose queue has room is still in the map with one copy of the event appended to its
queue (each of several sessions of one user alike), and every session of the map with
another `userID` is still in the map with its client object, queue included, unchanged. -/
theorem BroadcastToUser_reaches_all_and_only (h : HubState) (userID : String)
    (message : Message) (data : Bytes) (hdata : jsonMarshal message = some data)
    (hwf : h.WellFormed) :
    ∃ h', BroadcastToUser h userID message = Except.ok h' ∧
      (∀ c ∈ h.clients, (h.heap c).userID = userID → hasRoom (h.heap c) →
        c ∈ h'.clients ∧ (h'.heap c).send.buf = (h.heap c).send.buf ++ [data]) ∧
      (∀ c ∈ h.clients, (h.heap c).userID ≠ userID →
        c ∈ h'.clients ∧ h'.heap c = h.heap c) := by
  obtain ⟨h', hrun, hshed, hframe, hkeep, _⟩ :=
    fanOut_sheds (fun _ client => decide (client.userID = userID)) data h hwf
  refine ⟨h', ?_, ?_, ?_⟩
  · unfold BroadcastToUser
    simp only [hdata]
    exact hrun
  · intro c hc hu hr
    obtain ⟨_, hbuf, hmem⟩ := (hshed c hc (by simpa using hu)).2 hr
    exact ⟨hmem, hbuf⟩
  · intro c hc hu
    refine ⟨hkeep c hc (by simpa using hu), hframe c ?_⟩
    intro hh
    exact hu (by simpa using hh.2)

theorem twoSessionsHub_wellFormed : twoSessionsHub.WellFormed := by
  refine ⟨by decide, ?_⟩
  intro c hc
  have : c = 0 ∨ c = 1 ∨ c = 2 := by simpa [twoSessionsHub] using hc
  rcases this with rfl | rfl | rfl <;> rfl

theorem BroadcastToUser_reaches_all_and_only_witness :
    jsonMarshal { Type_ := "new_message", Data := Data.json (JSON.str "hello") } =
      some (JSON.obj [("type", JSON.str "new_message"), ("data", JSON.str "hello")]) ∧
    twoSessionsHub.WellFormed ∧
    ∃ h', BroadcastToUser twoSessionsHub "u-alice"
        { Type_ := "new_message", Data := Data.json (JSON.str "hello") } = Except.ok h' ∧
      (∀ c ∈ twoSessionsHub.clients, (twoSessionsHub.heap c).userID = "u-alice" →
        hasRoom (twoSessionsHub.heap c) →
        c ∈ h'.clients ∧ (h'.heap c).send.buf = (twoSessionsHub.heap c).send.buf ++
          [JSON.obj [("type", JSON.str "new_message"), ("data", JSON.str "hello")]]) ∧
      (∀ c ∈ twoSessionsHub.clients, (twoSessionsHub.heap c).userID ≠ "u-alice" →
        c ∈ h'.clients ∧ h'.heap c = twoSessionsHub.heap c) :=
  ⟨jsonMarshal_sample, twoSessionsHub_wellFormed,
    BroadcastToUser_reaches_all_and_only twoSessionsHub "u-alice" _ _ jsonMarshal_sample
      twoSessionsHub_wellFormed⟩

/-- C8: on a well-formed hub state each of the four fan-outs (the broadcast case of
`Hub.Run`, `BroadcastToChat`, `BroadcastToUser`, and `broadcastToOthers` of the
presence notifications) returns a state, so it does not wait on a full queue, and in
that state every target whose queue was full has its queue closed with nothing added
and is out of the map, while every target whose queue had room has the event at the
tail of its queue and is in the map. -/
theorem fanOut_sheds_client_not_event (h : HubState) (hwf : h.WellFormed) :
    (∀ data : Bytes, ∃ h', runBroadcast h data = Except.ok h' ∧
      ShedsClientNotEvent h h' (fun _ => True) data) ∧
    (∀ (chatID : String) (message : Message) (data : Bytes),
      jsonMarshal message = some data →
      ∃ h', BroadcastToChat h chatID message = Except.ok h' ∧
        ShedsClientNotEvent h h' (fun _ => True) data) ∧
    (∀ (userID : String) (message : Message) (data : Bytes),
      jsonMarshal message = some data →
      ∃ h', BroadcastToUser h userID message = Except.ok h' ∧
        ShedsClientNotEvent h h' (fun c => (h.heap c).userID = userID) data) ∧
    (∀ (sender : ClientPtr) (message : Message) (data : Bytes),
      jsonMarshal message = some data →
      ∃ h', broadcastToOthers h sender message = Except.ok h' ∧
        ShedsClientNotEvent h h' (fun c => c ≠ sender) data) := by
  have key : ∀ data : Bytes, ∃ h', runBroadcast h data = Except.ok h' ∧
      ShedsClientNotEvent h h' (fun _ => True) data := by
    intro data
    obtain ⟨h', hrun, hshed, _⟩ := fanOut_sheds (fun _ _ => true) data h hwf
    exact ⟨h', hrun, fun c hc _ => hshed c hc rfl⟩
  refine ⟨key, ?_, ?_, ?_⟩
  · intro chatID message data hdata
    rw [BroadcastToChat_eq h chatID message data hdata]
    exact key data
  · intro userID message data hdata
    obtain ⟨h', hrun, hshed, _⟩ :=
      fanOut_sheds (fun _ client => decide (client.userID = userID)) data h hwf
    refine ⟨h', ?_, fun c hc hu => hshed c hc (by simpa using hu)⟩
    unfold BroadcastToUser
    simp only [hdata]
    exact hrun
  · intro sender message data hdata
    obtain ⟨h', hrun, hshed, _⟩ :=
      fanOut_sheds (fun client _ => decide (client ≠ sender)) data h hwf
    refine ⟨h', ?_, fun c hc hne => hshed c hc (by simpa using hne)⟩
    unfold broadcastToOthers
    simp only [hdata]
    exact hrun

theorem fullQueueHub_wellFormed : fullQueueHub.WellFormed := by
  refine ⟨by decide, ?_⟩
  intro c hc
  have : c = 0 ∨ c = 1 := by
    have hc' : c ∈ [0, 1] := hc
    simpa using hc'
  rcases this with rfl | rfl <;> rfl

theorem fanOut_sheds_client_not_event_witness :
    fullQueueHub.WellFormed ∧
    (∃ h', runBroadcast fullQueueHub (JSON.str "x") = Except.ok h' ∧
      ShedsClientNotEvent fullQueueHub h' (fun _ => True) (JSON.str "x")) ∧
    (∃ h', BroadcastToChat fullQueueHub "c1"
        { Type_ := "new_message", Data := Data.json (JSON.str "hello") } = Except.ok h' ∧
      ShedsClientNotEvent fullQueueHub h' (fun _ => True)
        (JSON.obj [("type", JSON.str "new_message"), ("data", JSON.str "hello")])) ∧
    (∃ h', BroadcastToUser fullQueueHub "u-alice"
        { Type_ := "new_message", Data := Data.json (JSON.str "hello") } = Except.ok h' ∧
      ShedsClientNotEvent fullQueueHub h' (fun c => (fullQueueHub.heap c).userID = "u-alice")
        (JSON.obj [("type", JSON.str "new_message"), ("data", JSON.str "hello")])) ∧
    (∃ h', broadcastToOthers fullQueueHub 1
        { Type_ := "new_message", Data := Data.json (JSON.str "hello") } = Except.ok h' ∧
      ShedsClientNotEvent fullQueueHub h' (fun c => c ≠ 1)
        (JSON.obj [("type", JSON.str "new_message"), ("data", JSON.str "hello")])) :=
  ⟨fullQueueHub_wellFormed,
    (fanOut_sheds_client_not_event fullQueueHub fullQueueHub_wellFormed).1 (JSON.str "x"),
    (fanOut_sheds_client_not_event fullQueueHub fullQueueHub_wellFormed).2.1 "c1" _ _
      jsonMarshal_sample,
    (fanOut_sheds_client_not_event fullQueueHub fullQueueHub_wellFormed).2.2.1 "u-alice" _ _
      jsonMarshal_sample,
    (fanOut_sheds_client_not_event fullQueueHub fullQueueHub_wellFormed).2.2.2 1 _ _
      jsonMarshal_sample⟩

/-! ## Reachable states -/

theorem NewHub_wellFormed : NewHub.WellFormed :=
  ⟨List.nodup_nil, fun _ hc => absurd hc (List.not_mem_nil _)⟩

theorem HandleWebSocket_wellFormed (h : HubState) (userID username role : String)
    (hwf : h.WellFormed) :
    ∃ h', HandleWebSocket h userID username role = Except.ok h' ∧ h'.WellFormed := by
  have hwf1 : (newClient h userID username role).WellFormed := by
    refine ⟨hwf.1, ?_⟩
    intro c hc
    by_cases hcn : c = h.nextClient
    · subst hcn
      simp [newClient, freshClient, makeChan]
    · have : (newClient h userID username role).heap c = h.heap c := by
        simp [newClient, Function.update_noteq hcn]
      rw [this]
      exact hwf.2 c hc
  obtain ⟨h', data, _, hrun, hcl, hheap, _⟩ :=
    runRegister_spec (newClient h userID username role) h.nextClient hwf1.1
      (fun c hc _ => hwf1.2 c hc)
  obtain ⟨hnd, hopen⟩ := runRegister_post _ h' h.nextClient data hwf1.1
    (fun c hc _ => hwf1.2 c hc) hcl hheap
  refine ⟨h', hrun, hnd, ?_⟩
  intro c hc
  by_cases hcn : c = h.nextClient
  · subst hcn
    rw [hheap _]
    simp [newClient, freshClient, makeChan]
  · exact hopen c hc hcn

theorem runUnregister_wellFormed (h : HubState) (s : ClientPtr) (hwf : h.WellFormed) :
    ∃ h', runUnregister h s = Except.ok h' ∧ h'.WellFormed := by
  by_cases hs : s ∈ h.clients
  · obtain ⟨h', data, _, hrun, hcl, hheap, _⟩ := runUnregister_spec h s hwf hs
    refine ⟨h', hrun, ?_, ?_⟩
    · rw [hcl]
      exact (mapDelete_nodup _ _ hwf.1).filter _
    · intro c hc
      rw [hcl, List.mem_filter, mem_mapDelete] at hc
      have hr : hasRoom (h.heap c) := by simpa using hc.2
      rw [hheap c]
      simp only [hc.1.2, if_false, hc.1.1, if_true]
      rw [(deliveredClient_room _ _ hr).2.1]
      exact hwf.2 c hc.1.1
  · refine ⟨h, ?_, hwf⟩
    unfold runUnregister
    simp only [hs, if_false]

theorem writePumpRecv_wellFormed (h : HubState) (s : ClientPtr) (hwf : h.WellFormed) :
    (writePumpRecv h s).WellFormed := by
  refine ⟨hwf.1, ?_⟩
  intro c hc
  by_cases hcs : c = s
  · subst hcs
    simpa [writePumpRecv, setSend] using hwf.2 c hc
  · have : (writePumpRecv h s).heap c = h.heap c := by
      simp [writePumpRecv, setSend, Function.update_noteq hcs]
    rw [this]
    exact hwf.2 c hc

/-- Every request is processed without a panic on a well-formed state, and leaves a
well-formed state. -/
theorem step_wellFormed (h : HubState) (r : Request) (hwf : h.WellFormed) :
    ∃ h', step h r = Except.ok h' ∧ h'.WellFormed := by
  cases r with
  | handleWebSocket userID username role =>
    exact HandleWebSocket_wellFormed h userID username role hwf
  | unregister client => exact runUnregister_wellFormed h client hwf
  | broadcast message =>
    obtain ⟨h', hrun, _, _, _, _, hwf'⟩ := fanOut_sheds (fun _ _ => true) message h hwf
    exact ⟨h', hrun, hwf'⟩
  | broadcastToChat chatID message =>
    cases hm : jsonMarshal message with
    | none => exact ⟨h, by simp [step, BroadcastToChat, hm], hwf⟩
    | some data =>
      obtain ⟨h', hrun, _, _, _, _, hwf'⟩ := fanOut_sheds (fun _ _ => true) data h hwf
      exact ⟨h', by simp only [step, BroadcastToChat, hm]; exact hrun, hwf'⟩
  | broadcastToUser userID message =>
    cases hm : jsonMarshal message with
    | none => exact ⟨h, by simp [step, BroadcastToUser, hm], hwf⟩
    | some data =>
      obtain ⟨h', hrun, _, _, _, _, hwf'⟩ :=
        fanOut_sheds (fun _ client => decide (client.userID = userID)) data h hwf
      exact ⟨h', by simp only [step, BroadcastToUser, hm]; exact hrun, hwf'⟩
  | setStatusUpdateFunc fn => exact ⟨_, rfl, hwf⟩
  | writePumpRecv client => exact ⟨_, rfl, writePumpRecv_wellFormed h client hwf⟩

theorem run_wellFormed (reqs : List Request) :
    ∀ h : HubState, h.WellFormed → ∃ h', run h reqs = Except.ok h' ∧ h'.WellFormed := by
  induction reqs with
  | nil => exact fun h hwf => ⟨h, rfl, hwf⟩
  | cons r rest ih =>
    intro h hwf
    obtain ⟨h1, hstep, hwf1⟩ := step_wellFormed h r hwf
    obtain ⟨h', hrun, hwf'⟩ := ih h1 hwf1
    refine ⟨h', ?_, hwf'⟩
    simp only [run, hstep]
    exact hrun

/-- As long as no call of `BroadcastToChat` or `BroadcastToUser` overlaps with an
iteration of `Hub.Run`, every sequence of requests is processed from `NewHub` without a
panic; in the state reached the map holds each key once and the queue of every session
of the map is open; and a request processed next returns a state as well. -/
theorem reachable_live_queues_open (reqs : List Request) :
    ∃ h, run NewHub reqs = Except.ok h ∧ h.clients.Nodup ∧
      (∀ c ∈ h.clients, (h.heap c).send.closed = false) ∧
      (∀ r : Request, ∃ h', step h r = Except.ok h') := by
  obtain ⟨h, hrun, hwf⟩ := run_wellFormed reqs NewHub NewHub_wellFormed
  refine ⟨h, hrun, hwf.1, hwf.2, ?_⟩
  intro r
  obtain ⟨h', hstep, _⟩ := step_wellFormed h r hwf
  exact ⟨h', hstep⟩

/-! ## Sequences of admits and removes -/

theorem run_append (a b : List Request) :
    ∀ h : HubState, run h (a ++ b) =
      match run h a with
      | Except.error e => Except.error e
      | Except.ok h' => run h' b := by
  induction a with
  | nil => intro h; rfl
  | cons r rest ih =>
    intro h
    simp only [List.cons_append, run]
    cases step h r with
    | error e => rfl
    | ok h1 => exact ih h1

theorem run_cons_ok (h h1 : HubState) (r : Request) (rest : List Request)
    (hs : step h r = Except.ok h1) : run h (r :: rest) = run h1 rest := by
  simp only [run, hs]

theorem run_append_ok (h h1 : HubState) (a b : List Request)
    (ha : run h a = Except.ok h1) : run h (a ++ b) = run h1 b := by
  rw [run_append, ha]

/-- The method `HandleWebSocket`, spelled out, on a well-formed state whose map holds
allocated addresses only. -/
theorem HandleWebSocket_spec (h : HubState) (userID username role : String)
    (hwf : h.WellFormed) (halloc : ∀ c ∈ h.clients, c < h.nextClient) :
    ∃ h' data, HandleWebSocket h userID username role = Except.ok h' ∧
      h'.clients = h.clients.filter (fun c => decide (hasRoom (h.heap c))) ++ [h.nextClient] ∧
      (∀ c, h'.heap c =
        if c = h.nextClient then freshClient userID username role
        else if c ∈ h.clients then deliveredClient (h.heap c) data else h.heap c) ∧
      h'.nextClient = h.nextClient + 1 ∧ h'.statusUpdateFunc = h.statusUpdateFunc := by
  have hfresh : h.nextClient ∉ h.clients := fun hm => lt_irrefl _ (halloc _ hm)
  have hheap0 : ∀ c, (newClient h userID username role).heap c =
      if c = h.nextClient then freshClient userID username role else h.heap c := by
    intro c
    by_cases hcn : c = h.nextClient
    · subst hcn; simp [newClient]
    · simp [newClient, Function.update_noteq hcn, hcn]
  have hopen0 : ∀ c ∈ (newClient h userID username role).clients, c ≠ h.nextClient →
      ((newClient h userID username role).heap c).send.closed = false := by
    intro c hc hne
    rw [hheap0 c, if_neg hne]
    exact hwf.2 c hc
  obtain ⟨h', data, _, hrun, hcl, hheap, hf, hn, _⟩ :=
    runRegister_spec (newClient h userID username role) h.nextClient hwf.1 hopen0
  refine ⟨h', data, hrun, ?_, ?_, ?_, ?_⟩
  · rw [hcl]
    have hins : mapInsert (newClient h userID username role).clients h.nextClient =
        h.clients ++ [h.nextClient] := by
      show mapInsert h.clients h.nextClient = _
      unfold mapInsert
      simp only [hfresh, if_false]
    rw [hins, List.filter_append]
    congr 1
    · apply List.filter_congr
      intro c hc
      have hne : c ≠ h.nextClient := fun e => hfresh (e ▸ hc)
      rw [hheap0 c, if_neg hne]
      simp [hne]
    · simp [List.filter]
  · intro c
    rw [hheap c]
    by_cases hcn : c = h.nextClient
    · subst hcn
      simp [hheap0]
    · have hcl0 : (newClient h userID username role).clients = h.clients := rfl
      rw [hcl0, hheap0 c]
      simp [hcn]
  · rw [hn]; rfl
  · rw [hf]; rfl

theorem deliveredClient_open_iff (c : Client) (data : Bytes) (hopen : c.send.closed = false) :
    (deliveredClient c data).send.closed = false ↔ hasRoom c := by
  by_cases hr : hasRoom c
  · simp [(deliveredClient_room c data hr).2.1, hopen, hr]
  · simp [(deliveredClient_full c data hr).2.1, hr]

theorem AdmitRemoveInv_handleWebSocket (h : HubState) (live : List ClientPtr) (k : Nat)
    (userID username role : String) (hinv : AdmitRemoveInv h live k) :
    ∃ h', HandleWebSocket h userID username role = Except.ok h' ∧
      h'.nextClient = h.nextClient + 1 ∧
      AdmitRemoveInv h' (live ++ [h.nextClient]) (k + 1) := by
  obtain ⟨hwf, hlt, hmem, hcap, hsmall⟩ := hinv
  have halloc : ∀ c ∈ h.clients, c < h.nextClient := fun c hc => hlt c ((hmem c).mp hc).1
  obtain ⟨h', data, hrun, hcl, hheap, hn, _⟩ :=
    HandleWebSocket_spec h userID username role hwf halloc
  obtain ⟨h'', hrun', hwf'⟩ := HandleWebSocket_wellFormed h userID username role hwf
  have hsame : h'' = h' := by
    rw [hrun] at hrun'
    exact (Except.ok.inj hrun').symm
  subst hsame
  have hmem' : ∀ c, c ∈ h''.clients ↔ (c ∈ h.clients ∧ hasRoom (h.heap c)) ∨ c = h.nextClient := by
    intro c
    rw [hcl]
    simp [List.mem_append, List.mem_filter]
  have hheapn : h''.heap h.nextClient = freshClient userID username role := by
    rw [hheap]; simp
  have hheapc : ∀ c, c ≠ h.nextClient → c ∈ h.clients →
      h''.heap c = deliveredClient (h.heap c) data := by
    intro c hne hc
    rw [hheap c, if_neg hne, if_pos hc]
  have hheapo : ∀ c, c ≠ h.nextClient → c ∉ h.clients → h''.heap c = h.heap c := by
    intro c hne hc
    rw [hheap c, if_neg hne, if_neg hc]
  refine ⟨h'', hrun, hn, hwf', ?_, ?_, ?_, ?_⟩
  · intro c hc
    rw [hn]
    rcases List.mem_append.mp hc with h1 | h1
    · exact Nat.lt_succ_of_lt (hlt c h1)
    · rw [List.mem_singleton.mp h1]; exact Nat.lt_succ_self _
  · intro c
    rw [hmem' c, List.mem_append, List.mem_singleton]
    by_cases hcn : c = h.nextClient
    · subst hcn
      simp [hheapn, freshClient, makeChan]
    · by_cases hc : c ∈ h.clients
      · have hco : (h.heap c).send.closed = false := hwf.2 c hc
        rw [hheapc c hcn hc, deliveredClient_open_iff _ _ hco]
        simp [hcn, hc, ((hmem c).mp hc).1]
      · rw [hheapo c hcn hc]
        have := hmem c
        simp only [hc, false_iff] at this
        simp [hcn, hc, this]
  · intro c hc
    rcases (hmem' c).mp hc with ⟨hcm, hr⟩ | hcn
    · have hne : c ≠ h.nextClient := fun e => lt_irrefl _ (e ▸ halloc c hcm)
      rw [hheapc c hne hcm, (deliveredClient_room _ _ hr).1, (deliveredClient_room _ _ hr).2.2]
      refine ⟨(hcap c hcm).1, ?_⟩
      have := (hcap c hcm).2
      simp only [List.length_append, List.length_singleton]
      omega
    · subst hcn
      rw [hheapn]
      simp [freshClient, makeChan]
  · intro hk c hc
    rcases List.mem_append.mp hc with h1 | h1
    · have hko : (h.heap c).send.closed = false := hsmall (by omega) c h1
      have hcm : c ∈ h.clients := (hmem c).mpr ⟨h1, hko⟩
      have hne : c ≠ h.nextClient := fun e => lt_irrefl _ (e ▸ hlt c h1)
      have hr : hasRoom (h.heap c) := by
        unfold hasRoom
        have := hcap c hcm
        omega
      rw [hheapc c hne hcm, deliveredClient_open_iff _ _ hko]
      exact hr
    · rw [List.mem_singleton.mp h1, hheapn]
      rfl

theorem AdmitRemoveInv_unregister (h : HubState) (live : List ClientPtr) (k : Nat)
    (s : ClientPtr) (hinv : AdmitRemoveInv h live k) :
    ∃ h', runUnregister h s = Except.ok h' ∧ h'.nextClient = h.nextClient ∧
      AdmitRemoveInv h' (live.filter (fun c => c ≠ s)) (k + 1) := by
  obtain ⟨hwf, hlt, hmem, hcap, hsmall⟩ := hinv
  have hfilt : ∀ c, c ∈ live.filter (fun c => c ≠ s) ↔ c ∈ live ∧ c ≠ s := by
    intro c; simp [List.mem_filter]
  by_cases hs : s ∈ h.clients
  · obtain ⟨h', data, _, hrun, hcl, hheap, _, hn, _⟩ := runUnregister_spec h s hwf hs
    obtain ⟨h'', hrun', hwf'⟩ := runUnregister_wellFormed h s hwf
    have hsame : h'' = h' := by
      rw [hrun] at hrun'
      exact (Except.ok.inj hrun').symm
    subst hsame
    have hmem' : ∀ c, c ∈ h''.clients ↔ c ∈ h.clients ∧ c ≠ s ∧ hasRoom (h.heap c) := by
      intro c
      rw [hcl, List.mem_filter, mem_mapDelete]
      simp [and_assoc]
    have hheapc : ∀ c, c ≠ s → c ∈ h.clients →
        h''.heap c = deliveredClient (h.heap c) data := by
      intro c hne hc
      rw [hheap c, if_neg hne, if_pos hc]
    have hheapo : ∀ c, c ≠ s → c ∉ h.clients → h''.heap c = h.heap c := by
      intro c hne hc
      rw [hheap c, if_neg hne, if_neg hc]
    refine ⟨h'', hrun, hn, hwf', ?_, ?_, ?_, ?_⟩
    · intro c hc
      rw [hn]
      exact hlt c ((hfilt c).mp hc).1
    · intro c
      rw [hmem' c, hfilt c]
      by_cases hcs : c = s
      · simp [hcs]
      · by_cases hc : c ∈ h.clients
        · have hco : (h.heap c).send.closed = false := hwf.2 c hc
          rw [hheapc c hcs hc, deliveredClient_open_iff _ _ hco]
          simp [hcs, hc, ((hmem c).mp hc).1]
        · rw [hheapo c hcs hc]
          have := hmem c
          simp only [hc, false_iff] at this
          simp [hcs, hc, this]
    · intro c hc
      obtain ⟨hcm, hne, hr⟩ := (hmem' c).mp hc
      rw [hheapc c hne hcm, (deliveredClient_room _ _ hr).1, (deliveredClient_room _ _ hr).2.2]
      refine ⟨(hcap c hcm).1, ?_⟩
      have := (hcap c hcm).2
      simp only [List.length_append, List.length_singleton]
      omega
    · intro hk c hc
      obtain ⟨h1, hne⟩ := (hfilt c).mp hc
      have hko : (h.heap c).send.closed = false := hsmall (by omega) c h1
      have hcm : c ∈ h.clients := (hmem c).mpr ⟨h1, hko⟩
      have hr : hasRoom (h.heap c) := by
        unfold hasRoom
        have := hcap c hcm
        omega
      rw [hheapc c hne hcm, deliveredClient_open_iff _ _ hko]
      exact hr
  · refine ⟨h, ?_, rfl, hwf, ?_, ?_, ?_, ?_⟩
    · unfold runUnregister
      simp only [hs, if_false]
    · intro c hc
      exact hlt c ((hfilt c).mp hc).1
    · intro c
      rw [hmem c, hfilt c]
      constructor
      · rintro ⟨h1, h2⟩
        refine ⟨⟨h1, ?_⟩, h2⟩
        intro e
        exact hs (e ▸ (hmem c).mpr ⟨h1, h2⟩)
      · rintro ⟨⟨h1, _⟩, h2⟩
        exact ⟨h1, h2⟩
    · intro c hc
      have := hcap c hc
      exact ⟨this.1, by omega⟩
    · intro hk c hc
      exact hsmall (by omega) c ((hfilt c).mp hc).1

theorem AdmitRemoveInv_run (reqs : List AdmitRemove) :
    ∀ (h : HubState) (live : List ClientPtr) (k : Nat), AdmitRemoveInv h live k →
      ∃ h', run h (reqs.map AdmitRemove.toRequest) = Except.ok h' ∧
        AdmitRemoveInv h' (admittedMinusRemoved reqs h.nextClient live) (k + reqs.length) := by
  induction reqs with
  | nil => exact fun h live k hinv => ⟨h, rfl, hinv⟩
  | cons r rest ih =>
    intro h live k hinv
    cases r with
    | admitSession userID username role =>
      obtain ⟨h1, hstep, hn, hinv1⟩ := AdmitRemoveInv_handleWebSocket h live k userID username role hinv
      obtain ⟨h', hrun, hinv'⟩ := ih h1 _ _ hinv1
      refine ⟨h', ?_, ?_⟩
      · simp only [List.map_cons, run, AdmitRemove.toRequest, step, hstep]
        exact hrun
      · rw [hn] at hinv'
        have hlen : k + (AdmitRemove.admitSession userID username role :: rest).length =
            k + 1 + rest.length := by
          simp only [List.length_cons]; omega
        rw [hlen]
        exact hinv'
    | removeSession client =>
      obtain ⟨h1, hstep, hn, hinv1⟩ := AdmitRemoveInv_unregister h live k client hinv
      obtain ⟨h', hrun, hinv'⟩ := ih h1 _ _ hinv1
      refine ⟨h', ?_, ?_⟩
      · simp only [List.map_cons, run, AdmitRemove.toRequest, step, hstep]
        exact hrun
      · rw [hn] at hinv'
        have hlen : k + (AdmitRemove.removeSession client :: rest).length =
            k + 1 + rest.length := by
          simp only [List.length_cons]; omega
        rw [hlen]
        exact hinv'

theorem AdmitRemoveInv_NewHub : AdmitRemoveInv NewHub [] 0 :=
  ⟨NewHub_wellFormed, fun _ hc => absurd hc (List.not_mem_nil _),
    fun c => by simp [NewHub], fun _ hc => absurd hc (List.not_mem_nil _),
    fun _ _ hc => absurd hc (List.not_mem_nil _)⟩

/-! ## The flood of 258 requests -/

theorem wellFormed_of_single (h : HubState) (hcl : h.clients = [0])
    (hopen : (h.heap 0).send.closed = false) : h.WellFormed := by
  refine ⟨by rw [hcl]; exact List.nodup_singleton 0, ?_⟩
  intro c hc
  rw [hcl] at hc
  rw [List.mem_singleton.mp hc]
  exact hopen

/-- While session 0 is alone in the map with `len` pending events, `len + 2 ≤ 256`, a
guest that connects and disconnects leaves two more events in its queue. -/
theorem churn_step (h : HubState) (len : Nat) (userID username role : String)
    (hcl : h.clients = [0]) (hn : 0 < h.nextClient)
    (hlen : (h.heap 0).send.buf.length = len) (hcap : (h.heap 0).send.cap = 256)
    (hopen : (h.heap 0).send.closed = false) (hsmall : len + 2 ≤ 256) :
    ∃ h1 h2, HandleWebSocket h userID username role = Except.ok h1 ∧
      runUnregister h1 h.nextClient = Except.ok h2 ∧
      h2.clients = [0] ∧ h2.nextClient = h.nextClient + 1 ∧
      (h2.heap 0).send.buf.length = len + 2 ∧ (h2.heap 0).send.cap = 256 ∧
      (h2.heap 0).send.closed = false := by
  have hwf : h.WellFormed := wellFormed_of_single h hcl hopen
  have halloc : ∀ c ∈ h.clients, c < h.nextClient := by
    intro c hc
    rw [hcl] at hc
    rw [List.mem_singleton.mp hc]
    exact hn
  have hne : (0 : ClientPtr) ≠ h.nextClient := Nat.ne_of_lt hn
  have hr : hasRoom (h.heap 0) := by
    unfold hasRoom; omega
  obtain ⟨h1, data, hrun1, hcl1, hheap1, hn1, _⟩ :=
    HandleWebSocket_spec h userID username role hwf halloc
  obtain ⟨h1', hrun1', hwf1⟩ := HandleWebSocket_wellFormed h userID username role hwf
  have hsame : h1' = h1 := by
    rw [hrun1] at hrun1'
    exact (Except.ok.inj hrun1').symm
  subst hsame
  have e1 : h1'.clients = [0, h.nextClient] := by
    rw [hcl1, hcl]
    simp [List.filter, hr]
  have hh0 : h1'.heap 0 = deliveredClient (h.heap 0) data := by
    rw [hheap1 0, if_neg hne, if_pos (by rw [hcl]; exact List.mem_singleton.mpr rfl)]
  have hr1 : hasRoom (h1'.heap 0) := by
    unfold hasRoom
    rw [hh0, (deliveredClient_room _ _ hr).1, (deliveredClient_room _ _ hr).2.2,
      List.length_append, List.length_singleton]
    omega
  have hs1 : h.nextClient ∈ h1'.clients := by
    rw [e1]; simp
  obtain ⟨h2, data2, _, hrun2, hcl2, hheap2, _, hn2, _⟩ :=
    runUnregister_spec h1' h.nextClient hwf1 hs1
  have hmem0 : (0 : ClientPtr) ∈ h1'.clients := by
    rw [e1]; simp
  have hh2 : h2.heap 0 = deliveredClient (h1'.heap 0) data2 := by
    rw [hheap2 0, if_neg hne, if_pos hmem0]
  refine ⟨h1', h2, hrun1, hrun2, ?_, ?_, ?_, ?_, ?_⟩
  · rw [hcl2, e1]
    have hdel : mapDelete [0, h.nextClient] h.nextClient = [0] := by
      simp [mapDelete, List.filter, hne]
    rw [hdel]
    simp [List.filter, hr1]
  · rw [hn2, hn1]
  · rw [hh2, (deliveredClient_room _ _ hr1).1, hh0, (deliveredClient_room _ _ hr).1]
    simp only [List.length_append, List.length_singleton]
    omega
  · rw [hh2, (deliveredClient_room _ _ hr1).2.2, hh0, (deliveredClient_room _ _ hr).2.2]
    exact hcap
  · rw [hh2, (deliveredClient_room _ _ hr1).2.1, hh0, (deliveredClient_room _ _ hr).2.1]
    exact hopen

theorem churn_run (k : Nat) :
    k ≤ 128 → ∀ h : HubState, h.clients = [0] → h.nextClient = 1 →
      (h.heap 0).send.buf.length = 0 → (h.heap 0).send.cap = 256 →
      (h.heap 0).send.closed = false →
      ∃ h', run h ((churn k).map AdmitRemove.toRequest) = Except.ok h' ∧
        h'.clients = [0] ∧ h'.nextClient = k + 1 ∧
        (h'.heap 0).send.buf.length = 2 * k ∧ (h'.heap 0).send.cap = 256 ∧
        (h'.heap 0).send.closed = false := by
  induction k with
  | zero =>
    intro _ h hcl hn hlen hcap hopen
    exact ⟨h, rfl, hcl, hn, hlen, hcap, hopen⟩
  | succ k ih =>
    intro hk h hcl hn hlen hcap hopen
    obtain ⟨hk', hrun, hcl', hn', hlen', hcap', hopen'⟩ :=
      ih (by omega) h hcl hn hlen hcap hopen
    obtain ⟨h1, h2, hrun1, hrun2, hcl2, hn2, hlen2, hcap2, hopen2⟩ :=
      churn_step hk' (2 * k) "u-guest" "guest" "user" hcl' (by omega) hlen' hcap' hopen'
        (by omega)
    refine ⟨h2, ?_, hcl2, ?_, ?_, hcap2, hopen2⟩
    · rw [hn'] at hrun2
      simp only [churn, List.map_append, run_append, hrun, List.map_cons, List.map_nil, run,
        AdmitRemove.toRequest, step, hrun1, hrun2]
    · rw [hn2, hn']
    · rw [hlen2]; omega

theorem floodSequence_expected :
    floodSequence.length = 258 ∧ admittedMinusRemoved floodSequence 0 [] = [0, 129] := by
  constructor <;> decide!

/-- C9, as stated, fails on a sequence of 258 requests: alice is admitted (session 0),
128 guests are admitted and removed in turn, which leaves 256 notifications in the
queue of alice, and bob is admitted (session 129). The sessions admitted and not
removed are 0 and 129, and the map holds 129 only: the fan-out of the last admit found
the queue of alice full and shed her. -/
theorem admit_remove_flood_sheds :
    floodSequence.length = 258 ∧
    admittedMinusRemoved floodSequence 0 [] = [0, 129] ∧
    ∃ h, run NewHub (floodSequence.map AdmitRemove.toRequest) = Except.ok h ∧
      h.clients = [129] ∧ 0 ∉ h.clients := by
  refine ⟨floodSequence_expected.1, floodSequence_expected.2, ?_⟩
  obtain ⟨h0, data0, hrun0, hcl0, hheap0, hn0, _⟩ :=
    HandleWebSocket_spec NewHub "u-alice" "alice" "user" NewHub_wellFormed
      (fun _ hc => absurd hc (List.not_mem_nil _))
  have e0 : h0.clients = [0] := by
    rw [hcl0]; rfl
  have hh0 : h0.heap 0 = freshClient "u-alice" "alice" "user" := by
    rw [hheap0 0]
    exact if_pos rfl
  obtain ⟨h1, hrun1, hcl1, hn1, hlen1, hcap1, hopen1⟩ :=
    churn_run 128 (le_refl _) h0 e0 (by rw [hn0]; rfl) (by rw [hh0]; rfl) (by rw [hh0]; rfl)
      (by rw [hh0]; rfl)
  have hwf1 : h1.WellFormed := wellFormed_of_single h1 hcl1 hopen1
  obtain ⟨h2, data2, hrun2, hcl2, _⟩ :=
    HandleWebSocket_spec h1 "u-bob" "bob" "user" hwf1
      (by
        intro c hc
        rw [hcl1] at hc
        rw [List.mem_singleton.mp hc, hn1]
        decide)
  have hfull : ¬ hasRoom (h1.heap 0) := by
    unfold hasRoom
    rw [hlen1, hcap1]
    decide
  have e2 : h2.clients = [129] := by
    rw [hcl2, hcl1, hn1]
    simp [List.filter, hfull]
  refine ⟨h2, ?_, e2, ?_⟩
  · have hseq : floodSequence.map AdmitRemove.toRequest =
        Request.handleWebSocket "u-alice" "alice" "user" ::
          ((churn 128).map AdmitRemove.toRequest
            ++ [Request.handleWebSocket "u-bob" "bob" "user"]) := by
      simp only [floodSequence, List.map_append, List.map_cons, List.map_nil,
        List.cons_append, AdmitRemove.toRequest]
    have hstep0 : step NewHub (Request.handleWebSocket "u-alice" "alice" "user") =
        Except.ok h0 := hrun0
    have hstep2 : step h1 (Request.handleWebSocket "u-bob" "bob" "user") =
        Except.ok h2 := hrun2
    rw [hseq, run_cons_ok NewHub h0 _ _ hstep0, run_append_ok h0 h1 _ _ hrun1]
    exact run_cons_ok h1 h2 _ [] hstep2
  · rw [e2]
    decide

/-- C9, amended: every finite sequence of admit and remove requests is processed from
`NewHub` without a panic; the map reached has no duplicate key; a session is in it
exactly when it was admitted, not removed since, and its queue is still open, that is,
no fan-out has shed it for a full queue; and for a sequence of at most 257 requests the
map holds exactly the sessions admitted and not removed since. -/
theorem admit_remove_live_set (reqs : List AdmitRemove) :
    ∃ h, run NewHub (reqs.map AdmitRemove.toRequest) = Except.ok h ∧
      h.clients.Nodup ∧
      (∀ c, c ∈ h.clients ↔
        c ∈ admittedMinusRemoved reqs 0 [] ∧ (h.heap c).send.closed = false) ∧
      (reqs.length ≤ 257 → ∀ c, c ∈ h.clients ↔ c ∈ admittedMinusRemoved reqs 0 []) := by
  obtain ⟨h, hrun, hwf, _, hmem, _, hsmall⟩ :=
    AdmitRemoveInv_run reqs NewHub [] 0 AdmitRemoveInv_NewHub
  refine ⟨h, hrun, hwf.1, hmem, ?_⟩
  intro hlen c
  rw [hmem c]
  constructor
  · exact fun hc => hc.1
  · intro hc
    exact ⟨hc, hsmall (by omega) c hc⟩

theorem admit_remove_live_set_witness :
    shortSequence.length ≤ 257 ∧
    ∃ h, run NewHub (shortSequence.map AdmitRemove.toRequest) = Except.ok h ∧
      h.clients.Nodup ∧
      (∀ c, c ∈ h.clients ↔
        c ∈ admittedMinusRemoved shortSequence 0 [] ∧ (h.heap c).send.closed = false) ∧
      (shortSequence.length ≤ 257 →
        ∀ c, c ∈ h.clients ↔ c ∈ admittedMinusRemoved shortSequence 0 []) :=
  ⟨by decide, admit_remove_live_set shortSequence⟩

/-! ## A delivery that overlaps with the coordination loop -/

/-- The default branch of the `select` of a fan-out loop is its two statements, one
after the other. -/
theorem selectSend_default (h : HubState) (client : ClientPtr) (data : Bytes)
    (hfull : (h.heap client).send.trySend data = Except.ok SendResult.full) :
    selectSend h client data =
      match defaultClose h client with
      | Except.error e => Except.error e
      | Except.ok h1 => Except.ok (defaultDelete h1 client) := by
  unfold selectSend defaultClose
  rw [hfull]
  cases (h.heap client).send.close with
  | error e => rfl
  | ok ch => rfl

/-- The unregister case on a session of the map whose queue is closed: the `close` of
hub.go:83 panics. -/
theorem runUnregister_closed (h : HubState) (client : ClientPtr) (hc : client ∈ h.clients)
    (hclosed : (h.heap client).send.closed = true) :
    runUnregister h client = Except.error Panic.closeOfClosedChannel := by
  simp only [runUnregister, if_pos hc, Chan.close, hclosed, if_true]

/-- The `select` of a fan-out loop on a session whose queue is closed: the send case is
taken and panics. -/
theorem selectSend_closed (h : HubState) (client : ClientPtr) (data : Bytes)
    (hclosed : (h.heap client).send.closed = true) :
    selectSend h client data = Except.error Panic.sendOnClosedChannel := by
  simp only [selectSend, Chan.trySend, hclosed, if_true]

/-- C10 fails on the code. Alice connects and 128 guests connect and disconnect, which
leaves her alone in the map, her queue open and holding 256 events. A collaborator then
calls `BroadcastToChat` in its own goroutine: the `select` at alice takes the default
branch and runs `close(client.send)`. In the state between this statement and
`delete(h.clients, client)`, alice is in the map with a closed queue, and `Hub.Run`,
which runs in another goroutine, panics on the request it takes next: the unregister of
alice closes her queue a second time, and a relayed broadcast sends on her closed queue.
When no iteration of `Hub.Run` comes in between, the call returns and alice is out of
the map. -/
theorem BroadcastToChat_overlap_panics :
    ∃ h h1 data,
      run NewHub (stalledSequence.map AdmitRemove.toRequest) = Except.ok h ∧
      h.clients = [0] ∧ (h.heap 0).send.closed = false ∧
      jsonMarshal { Type_ := "new_message", Data := Data.json (JSON.str "hello") } =
        some data ∧
      (h.heap 0).send.trySend data = Except.ok SendResult.full ∧
      defaultClose h 0 = Except.ok h1 ∧
      0 ∈ h1.clients ∧ (h1.heap 0).send.closed = true ∧
      runUnregister h1 0 = Except.error Panic.closeOfClosedChannel ∧
      runBroadcast h1 data = Except.error Panic.sendOnClosedChannel ∧
      BroadcastToChat h "c1" { Type_ := "new_message", Data := Data.json (JSON.str "hello") } =
        Except.ok (defaultDelete h1 0) ∧
      0 ∉ (defaultDelete h1 0).clients := by
  obtain ⟨h0, data0, hrun0, hcl0, hheap0, hn0, _⟩ :=
    HandleWebSocket_spec NewHub "u-alice" "alice" "user" NewHub_wellFormed
      (fun _ hc => absurd hc (List.not_mem_nil _))
  have e0 : h0.clients = [0] := by
    rw [hcl0]; rfl
  have hh0 : h0.heap 0 = freshClient "u-alice" "alice" "user" := by
    rw [hheap0 0]
    exact if_pos rfl
  obtain ⟨h, hrun, hcl, _, hlen, hcap, hopen⟩ :=
    churn_run 128 (le_refl _) h0 e0 (by rw [hn0]; rfl) (by rw [hh0]; rfl) (by rw [hh0]; rfl)
      (by rw [hh0]; rfl)
  have hstep0 : step NewHub (Request.handleWebSocket "u-alice" "alice" "user") =
      Except.ok h0 := hrun0
  have hseq : stalledSequence.map AdmitRemove.toRequest =
      Request.handleWebSocket "u-alice" "alice" "user" ::
        (churn 128).map AdmitRemove.toRequest := by
    simp only [stalledSequence, List.map_cons, AdmitRemove.toRequest]
  have hfull : ∀ data : Bytes,
      (h.heap 0).send.trySend data = Except.ok SendResult.full := by
    intro data
    unfold Chan.trySend
    rw [hopen, hlen, hcap]
    rfl
  have hclose : defaultClose h 0 =
      Except.ok (setSend h 0 { (h.heap 0).send with closed := true }) := by
    unfold defaultClose Chan.close
    rw [hopen]
    rfl
  have hmem : (0 : ClientPtr) ∈ (setSend h 0 { (h.heap 0).send with closed := true }).clients := by
    show (0 : ClientPtr) ∈ h.clients
    rw [hcl]
    exact List.mem_singleton.mpr rfl
  have hclosed :
      ((setSend h 0 { (h.heap 0).send with closed := true }).heap 0).send.closed = true := by
    simp [setSend]
  refine ⟨h, setSend h 0 { (h.heap 0).send with closed := true }, _, ?_, hcl, hopen,
    jsonMarshal_sample, hfull _, hclose, hmem, hclosed, ?_, ?_, ?_, ?_⟩
  · rw [hseq, run_cons_ok NewHub h0 _ _ hstep0]
    exact hrun
  · exact runUnregister_closed _ 0 hmem hclosed
  · have hcl1 : (setSend h 0 { (h.heap 0).send with closed := true }).clients = [0] := hcl
    have hs := selectSend_closed (setSend h 0 { (h.heap 0).send with closed := true }) 0
      (JSON.obj [("type", JSON.str "new_message"), ("data", JSON.str "hello")]) hclosed
    unfold runBroadcast
    rw [hcl1]
    simp only [rangeClients, hmem, hs, and_self, if_true]
  · rw [BroadcastToChat_eq _ _ _ _ jsonMarshal_sample]
    unfold runBroadcast
    have hs := selectSend_default h 0
      (JSON.obj [("type", JSON.str "new_message"), ("data", JSON.str "hello")]) (hfull _)
    rw [hclose] at hs
    have hm0 : (0 : ClientPtr) ∈ h.clients := by
      rw [hcl]
      exact List.mem_singleton.mpr rfl
    rw [hcl]
    simp only [rangeClients, hm0, hs, and_self, if_true]
  · show (0 : ClientPtr) ∉ mapDelete h.clients 0
    rw [hcl]
    decide

/-! ## Overflow and the presence notifier -/

theorem fullQueueHub_queue :
    (fullQueueHub.heap 0).send.buf.length = 256 ∧ (fullQueueHub.heap 0).send.cap = 256 :=
  ⟨List.length_replicate 256 JSON.null, rfl⟩

theorem fullQueueHubWithStatus_wellFormed : fullQueueHubWithStatus.WellFormed :=
  fullQueueHub_wellFormed

/-- C11 fails on the code. In `fullQueueHubWithStatus` a status function is set, the
queue of alice (address 0) is full and bob (address 1) is live. The broadcast case
takes alice out of the map and closes her queue, makes no status call, and leaves in
the queue of bob the broadcast payload alone; the unregister case on the same state
makes the status call `("u-alice", false)` and leaves the `user_disconnected`
notification in the queue of bob. -/
theorem shed_skips_status_and_notification :
    (∃ h', runBroadcast fullQueueHubWithStatus (JSON.str "x") = Except.ok h' ∧
      0 ∉ h'.clients ∧ (h'.heap 0).send.closed = true ∧
      h'.statusCalls = [] ∧ (h'.heap 1).send.buf = [JSON.str "x"]) ∧
    (∃ h' data, jsonMarshal (disconnectedNotification (fullQueueHubWithStatus.heap 0)) =
        some data ∧
      runUnregister fullQueueHubWithStatus 0 = Except.ok h' ∧
      0 ∉ h'.clients ∧ (h'.heap 0).send.closed = true ∧
      h'.statusCalls = [("u-alice", false)] ∧ (h'.heap 1).send.buf = [data]) := by
  have hwf := fullQueueHubWithStatus_wellFormed
  have hfull : ¬ hasRoom (fullQueueHubWithStatus.heap 0) := by
    show ¬ hasRoom (fullQueueHub.heap 0)
    unfold hasRoom
    rw [fullQueueHub_queue.1, fullQueueHub_queue.2]
    decide
  have hroom : hasRoom (fullQueueHubWithStatus.heap 1) := by
    show (0 : Nat) < 256
    decide
  have hcl : fullQueueHubWithStatus.clients = [0, 1] := rfl
  have hbuf1 : (fullQueueHubWithStatus.heap 1).send.buf = [] := rfl
  constructor
  · obtain ⟨h', hrun, hshed, _⟩ :=
      fanOut_sheds (fun _ _ => true) (JSON.str "x") fullQueueHubWithStatus hwf
    obtain ⟨h'', hrun', _, _, _, _, hcalls'⟩ :=
      fanOut_spec (fun _ _ => true) (JSON.str "x") fullQueueHubWithStatus hwf.1
        (fun c hc _ => hwf.2 c hc)
    have hsame : h'' = h' := by
      have e : Except.ok h'' = Except.ok h' := hrun'.symm.trans hrun
      exact Except.ok.inj e
    subst hsame
    have h0 := (hshed 0 (by rw [hcl]; simp) rfl).1 hfull
    have h1 := (hshed 1 (by rw [hcl]; simp) rfl).2 hroom
    refine ⟨h'', hrun, h0.2.2, h0.1, ?_, ?_⟩
    · rw [hcalls']; rfl
    · rw [h1.2.1, hbuf1]; rfl
  · obtain ⟨h', data, hdata, hrun, hclients, hheap, _, _, hcalls⟩ :=
      runUnregister_spec fullQueueHubWithStatus 0 hwf (by rw [hcl]; simp)
    refine ⟨h', data, hdata, hrun, ?_, ?_, ?_, ?_⟩
    · rw [hclients, List.mem_filter, mem_mapDelete]
      exact fun hm => hm.1.2 rfl
    · rw [hheap 0]; rfl
    · rw [hcalls, callStatusUpdate_calls]; rfl
    · rw [hheap 1]
      have hne : (1 : ClientPtr) ≠ 0 := by decide
      have hm : (1 : ClientPtr) ∈ fullQueueHubWithStatus.clients := by rw [hcl]; simp
      rw [if_neg hne, if_pos hm, (deliveredClient_room _ _ hroom).1, hbuf1]
      rfl

/-! ## Encoding and decoding of the envelope -/

/-- Decoding what `json.Marshal` made of a message gives the message back. -/
theorem jsonUnmarshal_jsonMarshal (m : Message) (v : JSON) (hd : m.Data = Data.json v) :
    jsonUnmarshal (jsonMarshal m) = some m := by
  obtain ⟨t, d, u, n, c⟩ := m
  simp only at hd
  subst hd
  have k1 : keyMatches "type" "type" = true := by decide
  have k2 : keyMatches "type" "userId" = false := by decide
  have k3 : keyMatches "type" "username" = false := by decide
  have k4 : keyMatches "type" "chatId" = false := by decide
  have k5 : keyMatches "type" "data" = false := by decide
  have d1 : keyMatches "data" "type" = false := by decide
  have d2 : keyMatches "data" "userId" = false := by decide
  have d3 : keyMatches "data" "username" = false := by decide
  have d4 : keyMatches "data" "chatId" = false := by decide
  have d5 : keyMatches "data" "data" = true := by decide
  have u1 : keyMatches "userId" "type" = false := by decide
  have u2 : keyMatches "userId" "userId" = true := by decide
  have u3 : keyMatches "userId" "username" = false := by decide
  have u4 : keyMatches "userId" "chatId" = false := by decide
  have u5 : keyMatches "userId" "data" = false := by decide
  have n1 : keyMatches "username" "type" = false := by decide
  have n2 : keyMatches "username" "userId" = false := by decide
  have n3 : keyMatches "username" "username" = true := by decide
  have n4 : keyMatches "username" "chatId" = false := by decide
  have n5 : keyMatches "username" "data" = false := by decide
  have c1 : keyMatches "chatId" "type" = false := by decide
  have c2 : keyMatches "chatId" "userId" = false := by decide
  have c3 : keyMatches "chatId" "username" = false := by decide
  have c4 : keyMatches "chatId" "chatId" = true := by decide
  have c5 : keyMatches "chatId" "data" = false := by decide
  by_cases hu : u = "" <;> by_cases hn : n = "" <;> by_cases hc : c = "" <;>
    simp [jsonMarshal, jsonUnmarshal, omitEmpty, stringField, dataField, hu, hn, hc,
      k1, k2, k3, k4, k5, d1, d2, d3, d4, d5, u1, u2, u3, u4, u5, n1, n2, n3, n4, n5,
      c1, c2, c3, c4, c5]

/-! ## The read pump -/

/-- C12: whatever `json.Unmarshal` is, for every frame it accepts, storing a message
`msg` whose `Data` encodes as `value` (what `json.Unmarshal` stores in an `interface{}`
always encodes), the read pump of a client sends on `h.broadcast` one serialized event:
the object with `type` and `data` as decoded from the frame, the `userID` and the
`username` of the client object under `userId` and `username`, and the `chatId` decoded
from the frame. It is the serialization of `msg` with the two identity fields
overwritten, nothing of what the frame gave for these two fields is in it, and every
other accepted frame that decodes to the same `Type`, `Data` and `ChatID`, whatever its
`UserID` and `Username`, is forwarded as the same bytes. -/
theorem readPump_stamps_identity (unmarshal : Frame → Option Message) (client : ClientPtr)
    (c : Client) (messageBytes : Frame) (msg : Message) (value : JSON)
    (rest : List ReadResult) (hmsg : unmarshal messageBytes = some msg)
    (hvalue : msg.Data = Data.json value) :
    ∃ data, readPumpMessage unmarshal c messageBytes = some data ∧
      readPump unmarshal client c (ReadResult.message messageBytes :: rest) =
        Request.broadcast data :: readPump unmarshal client c rest ∧
      data = JSON.obj ([("type", JSON.str msg.Type_), ("data", value)]
        ++ omitEmpty "userId" c.userID ++ omitEmpty "username" c.username
        ++ omitEmpty "chatId" msg.ChatID) ∧
      jsonMarshal { Type_ := msg.Type_, Data := msg.Data, UserID := c.userID,
                    Username := c.username, ChatID := msg.ChatID } = some data ∧
      (∀ (other : Frame) (msg2 : Message), unmarshal other = some msg2 →
        msg2.Type_ = msg.Type_ → msg2.Data = msg.Data → msg2.ChatID = msg.ChatID →
        readPumpMessage unmarshal c other = some data) := by
  have hdata : jsonMarshal { msg with UserID := c.userID, Username := c.username } =
      some (JSON.obj ([("type", JSON.str msg.Type_), ("data", value)]
        ++ omitEmpty "userId" c.userID ++ omitEmpty "username" c.username
        ++ omitEmpty "chatId" msg.ChatID)) := by
    simp only [jsonMarshal, hvalue]
  have hfwd : readPumpMessage unmarshal c messageBytes = some (JSON.obj
      ([("type", JSON.str msg.Type_), ("data", value)]
        ++ omitEmpty "userId" c.userID ++ omitEmpty "username" c.username
        ++ omitEmpty "chatId" msg.ChatID)) := by
    unfold readPumpMessage
    simp only [hmsg]
    exact hdata
  refine ⟨_, hfwd, ?_, rfl, hdata, ?_⟩
  · simp only [readPump, hfwd]
  · intro other msg2 h2 ht hd hc
    unfold readPumpMessage
    simp only [h2]
    rw [← hdata]
    congr 1
    obtain ⟨t2, d2, u2, n2, c2⟩ := msg2
    obtain ⟨t, d, u, n, c0⟩ := msg
    simp only at ht hd hc
    subst ht hd hc
    rfl

theorem sampleUnmarshal_spoofedFrame : sampleUnmarshal spoofedFrame = some spoofedMessage :=
  if_pos rfl

theorem readPump_stamps_identity_witness :
    sampleUnmarshal spoofedFrame = some spoofedMessage ∧
    spoofedMessage.Data = Data.json (JSON.str "hi") ∧
    ∃ data,
      readPumpMessage sampleUnmarshal (freshClient "u-alice" "alice" "user") spoofedFrame =
        some data ∧
      readPump sampleUnmarshal 0 (freshClient "u-alice" "alice" "user")
          (ReadResult.message spoofedFrame :: [ReadResult.err]) =
        Request.broadcast data ::
          readPump sampleUnmarshal 0 (freshClient "u-alice" "alice" "user")
            [ReadResult.err] ∧
      data = JSON.obj ([("type", JSON.str spoofedMessage.Type_), ("data", JSON.str "hi")]
        ++ omitEmpty "userId" (freshClient "u-alice" "alice" "user").userID
        ++ omitEmpty "username" (freshClient "u-alice" "alice" "user").username
        ++ omitEmpty "chatId" spoofedMessage.ChatID) ∧
      jsonMarshal { Type_ := spoofedMessage.Type_, Data := spoofedMessage.Data,
                    UserID := (freshClient "u-alice" "alice" "user").userID,
                    Username := (freshClient "u-alice" "alice" "user").username,
                    ChatID := spoofedMessage.ChatID } = some data ∧
      (∀ (other : Frame) (msg2 : Message), sampleUnmarshal other = some msg2 →
        msg2.Type_ = spoofedMessage.Type_ → msg2.Data = spoofedMessage.Data →
        msg2.ChatID = spoofedMessage.ChatID →
        readPumpMessage sampleUnmarshal (freshClient "u-alice" "alice" "user") other =
          some data) :=
  ⟨sampleUnmarshal_spoofedFrame, rfl,
    readPump_stamps_identity sampleUnmarshal 0 (freshClient "u-alice" "alice" "user")
      spoofedFrame spoofedMessage (JSON.str "hi") [ReadResult.err]
      sampleUnmarshal_spoofedFrame rfl⟩

/-- C13: whatever `json.Unmarshal` is, for every frame on which it returns an error,
the iteration of the read pump sends nothing: no broadcast and no unregister; the pump
goes on with the next read; and the hub, given what this iteration sent, is in the state
it was in, so a session of the map is still in the map. -/
theorem readPump_discards_malformed (unmarshal : Frame → Option Message)
    (client : ClientPtr) (c : Client) (messageBytes : Frame)
    (rest : List ReadResult) (hbad : unmarshal messageBytes = none) :
    readPumpMessage unmarshal c messageBytes = none ∧
    readPump unmarshal client c [ReadResult.message messageBytes] = [] ∧
    readPump unmarshal client c (ReadResult.message messageBytes :: rest) =
      readPump unmarshal client c rest ∧
    (∀ h : HubState,
      run h (readPump unmarshal client c [ReadResult.message messageBytes]) =
        Except.ok h) ∧
    (∀ h : HubState, client ∈ h.clients →
      ∃ h', run h (readPump unmarshal client c [ReadResult.message messageBytes]) =
          Except.ok h' ∧ client ∈ h'.clients) := by
  have hnone : readPumpMessage unmarshal c messageBytes = none := by
    unfold readPumpMessage
    simp only [hbad]
  have hone : readPump unmarshal client c [ReadResult.message messageBytes] = [] := by
    simp only [readPump, hnone]
  refine ⟨hnone, hone, ?_, ?_, ?_⟩
  · simp only [readPump, hnone]
  · intro h
    rw [hone]
    rfl
  · intro h hc
    refine ⟨h, ?_, hc⟩
    rw [hone]
    rfl

theorem sampleUnmarshal_malformedFrame : sampleUnmarshal malformedFrame = none :=
  if_neg (by decide)

theorem readPump_discards_malformed_witness :
    sampleUnmarshal malformedFrame = none ∧
    readPumpMessage sampleUnmarshal (sampleHub.heap 0) malformedFrame = none ∧
    readPump sampleUnmarshal 0 (sampleHub.heap 0) [ReadResult.message malformedFrame] = [] ∧
    readPump sampleUnmarshal 0 (sampleHub.heap 0)
        (ReadResult.message malformedFrame :: [ReadResult.message spoofedFrame]) =
      readPump sampleUnmarshal 0 (sampleHub.heap 0) [ReadResult.message spoofedFrame] ∧
    (∀ h : HubState,
      run h (readPump sampleUnmarshal 0 (sampleHub.heap 0)
        [ReadResult.message malformedFrame]) = Except.ok h) ∧
    (∀ h : HubState, 0 ∈ h.clients →
      ∃ h', run h (readPump sampleUnmarshal 0 (sampleHub.heap 0)
          [ReadResult.message malformedFrame]) = Except.ok h' ∧ 0 ∈ h'.clients) :=
  ⟨sampleUnmarshal_malformedFrame,
    readPump_discards_malformed sampleUnmarshal 0 (sampleHub.heap 0) malformedFrame
      [ReadResult.message spoofedFrame] sampleUnmarshal_malformedFrame⟩

/-! ## The status function -/

/-- C14: on a well-formed hub state, the register case and the unregister case return
a state whatever the status function is (one that returns an error, one that returns
none, or no function at all), and the map and the heap of client objects, with the
content and the closed flag of every queue, are the same in the states returned for
any two status functions. -/
theorem status_callback_best_effort (h : HubState) (s : ClientPtr)
    (fn fn2 : Option (String → Bool → Option String)) (hwf : h.WellFormed) :
    (∃ h1 h2, runRegister { h with statusUpdateFunc := fn } s = Except.ok h1 ∧
      runRegister { h with statusUpdateFunc := fn2 } s = Except.ok h2 ∧
      h1.clients = h2.clients ∧ h1.heap = h2.heap) ∧
    (∃ h1 h2, runUnregister { h with statusUpdateFunc := fn } s = Except.ok h1 ∧
      runUnregister { h with statusUpdateFunc := fn2 } s = Except.ok h2 ∧
      h1.clients = h2.clients ∧ h1.heap = h2.heap) := by
  have hwf1 : ({ h with statusUpdateFunc := fn } : HubState).WellFormed := hwf
  have hwf2 : ({ h with statusUpdateFunc := fn2 } : HubState).WellFormed := hwf
  constructor
  · obtain ⟨h1, d1, hd1, hrun1, hcl1, hheap1, _⟩ :=
      runRegister_spec { h with statusUpdateFunc := fn } s hwf1.1 (fun c hc _ => hwf1.2 c hc)
    obtain ⟨h2, d2, hd2, hrun2, hcl2, hheap2, _⟩ :=
      runRegister_spec { h with statusUpdateFunc := fn2 } s hwf2.1
        (fun c hc _ => hwf2.2 c hc)
    have hd : d1 = d2 := Option.some.inj (hd1.symm.trans hd2)
    subst hd
    refine ⟨h1, h2, hrun1, hrun2, ?_, ?_⟩
    · rw [hcl1, hcl2]
    · funext c
      rw [hheap1 c, hheap2 c]
  · by_cases hs : s ∈ h.clients
    · obtain ⟨h1, d1, hd1, hrun1, hcl1, hheap1, _⟩ :=
        runUnregister_spec { h with statusUpdateFunc := fn } s hwf1 hs
      obtain ⟨h2, d2, hd2, hrun2, hcl2, hheap2, _⟩ :=
        runUnregister_spec { h with statusUpdateFunc := fn2 } s hwf2 hs
      have hd : d1 = d2 := Option.some.inj (hd1.symm.trans hd2)
      subst hd
      refine ⟨h1, h2, hrun1, hrun2, ?_, ?_⟩
      · rw [hcl1, hcl2]
      · funext c
        rw [hheap1 c, hheap2 c]
    · refine ⟨{ h with statusUpdateFunc := fn }, { h with statusUpdateFunc := fn2 },
        ?_, ?_, rfl, rfl⟩
      · unfold runUnregister
        simp only [hs, if_false]
      · unfold runUnregister
        simp only [hs, if_false]

theorem status_callback_best_effort_witness :
    sampleHub.WellFormed ∧
    (∃ h1 h2,
      runRegister { sampleHub with
          statusUpdateFunc := some (fun _ _ => some "database unreachable") } 2 =
        Except.ok h1 ∧
      runRegister { sampleHub with statusUpdateFunc := none } 2 = Except.ok h2 ∧
      h1.clients = h2.clients ∧ h1.heap = h2.heap) ∧
    (∃ h1 h2,
      runUnregister { sampleHub with
          statusUpdateFunc := some (fun _ _ => some "database unreachable") } 0 =
        Except.ok h1 ∧
      runUnregister { sampleHub with statusUpdateFunc := none } 0 = Except.ok h2 ∧
      h1.clients = h2.clients ∧ h1.heap = h2.heap) :=
  ⟨sampleHub_wellFormed,
    (status_callback_best_effort sampleHub 2 (some (fun _ _ => some "database unreachable"))
      none sampleHub_wellFormed).1,
    (status_callback_best_effort sampleHub 0 (some (fun _ _ => some "database unreachable"))
      none sampleHub_wellFormed).2⟩

/-! ## The scenario of two connections -/

/-- The method `HandleWebSocket`, spelled out with the notification it fans out. -/
theorem HandleWebSocket_notifies (h : HubState) (userID username role : String)
    (hwf : h.WellFormed) (halloc : ∀ c ∈ h.clients, c < h.nextClient) :
    ∃ h' data,
      jsonMarshal (connectedNotification (freshClient userID username role)) = some data ∧
      HandleWebSocket h userID username role = Except.ok h' ∧
      h'.clients = h.clients.filter (fun c => decide (hasRoom (h.heap c))) ++ [h.nextClient] ∧
      (∀ c, h'.heap c =
        if c = h.nextClient then freshClient userID username role
        else if c ∈ h.clients then deliveredClient (h.heap c) data else h.heap c) ∧
      h'.nextClient = h.nextClient + 1 := by
  have hfresh : h.nextClient ∉ h.clients := fun hm => lt_irrefl _ (halloc _ hm)
  have hheap0 : ∀ c, (newClient h userID username role).heap c =
      if c = h.nextClient then freshClient userID username role else h.heap c := by
    intro c
    by_cases hcn : c = h.nextClient
    · subst hcn; simp [newClient]
    · simp [newClient, Function.update_noteq hcn, hcn]
  have hopen0 : ∀ c ∈ (newClient h userID username role).clients, c ≠ h.nextClient →
      ((newClient h userID username role).heap c).send.closed = false := by
    intro c hc hne
    rw [hheap0 c, if_neg hne]
    exact hwf.2 c hc
  obtain ⟨h', data, hdata, hrun, hcl, hheap, _, hn, _⟩ :=
    runRegister_spec (newClient h userID username role) h.nextClient hwf.1 hopen0
  refine ⟨h', data, ?_, hrun, ?_, ?_, ?_⟩
  · rw [hheap0 h.nextClient, if_pos rfl] at hdata
    exact hdata
  · rw [hcl]
    have hins : mapInsert (newClient h userID username role).clients h.nextClient =
        h.clients ++ [h.nextClient] := by
      show mapInsert h.clients h.nextClient = _
      unfold mapInsert
      simp only [hfresh, if_false]
    rw [hins, List.filter_append]
    congr 1
    · apply List.filter_congr
      intro c hc
      have hne : c ≠ h.nextClient := fun e => hfresh (e ▸ hc)
      rw [hheap0 c, if_neg hne]
      simp [hne]
    · simp [List.filter]
  · intro c
    rw [hheap c]
    by_cases hcn : c = h.nextClient
    · subst hcn
      simp [hheap0]
    · have hcl0 : (newClient h userID username role).clients = h.clients := rfl
      rw [hcl0, hheap0 c]
      simp [hcn]
  · rw [hn]; rfl

/-- The two connections of the scenario, spelled out: after alice every queue is empty;
after bob the queue of alice (address 0) holds the notification of bob and the queue of
bob (address 1) is empty. -/
theorem scenario_states :
    ∃ h1 h2 bobConnected,
      jsonMarshal (connectedNotification (freshClient "u-bob" "bob" "agent")) =
        some bobConnected ∧
      HandleWebSocket NewHub "u-alice" "alice" "customer" = Except.ok h1 ∧
      h1.clients = [0] ∧ (∀ c, (h1.heap c).send.buf = []) ∧
      HandleWebSocket h1 "u-bob" "bob" "agent" = Except.ok h2 ∧
      h2.clients = [0, 1] ∧ (h2.heap 0).send.buf = [bobConnected] ∧
      (h2.heap 1).send.buf = [] := by
  obtain ⟨h1, d1, _, hrun1, hcl1, hheap1, hn1⟩ :=
    HandleWebSocket_notifies NewHub "u-alice" "alice" "customer" NewHub_wellFormed
      (fun _ hc => absurd hc (List.not_mem_nil _))
  have e1 : h1.clients = [0] := by rw [hcl1]; rfl
  have hh1 : ∀ c, h1.heap c =
      if c = 0 then freshClient "u-alice" "alice" "customer" else noClient := by
    intro c
    rw [hheap1 c]
    by_cases hc : c = 0
    · rw [if_pos hc, if_pos (show c = NewHub.nextClient from hc)]
    · rw [if_neg hc, if_neg (show ¬ c = NewHub.nextClient from hc),
        if_neg (show c ∉ NewHub.clients from List.not_mem_nil c)]
      rfl
  have hempty : ∀ c, (h1.heap c).send.buf = [] := by
    intro c
    rw [hh1 c]
    by_cases hc : c = 0
    · rw [if_pos hc]; rfl
    · rw [if_neg hc]; rfl
  have hn1' : h1.nextClient = 1 := by rw [hn1]; rfl
  have hwf1 : h1.WellFormed := wellFormed_of_single h1 e1 (by rw [hh1 0]; rfl)
  obtain ⟨h2, d2, hd2, hrun2, hcl2, hheap2, _⟩ :=
    HandleWebSocket_notifies h1 "u-bob" "bob" "agent" hwf1
      (by
        intro c hc
        rw [e1] at hc
        rw [List.mem_singleton.mp hc, hn1']
        decide)
  have hroom : hasRoom (h1.heap 0) := by
    rw [hh1 0]
    show (0 : Nat) < 256
    decide
  refine ⟨h1, h2, d2, hd2, hrun1, e1, hempty, hrun2, ?_, ?_, ?_⟩
  · rw [hcl2, e1, hn1']
    simp [List.filter, hroom]
  · rw [hheap2 0, hn1', if_neg (by decide), if_pos (by rw [e1]; simp),
      (deliveredClient_room _ _ hroom).1, hempty 0]
    rfl
  · rw [hheap2 1, hn1', if_pos rfl]
    rfl

/-- C16, as stated, fails: after alice (session A, address 0) and then bob (session B,
address 1) are admitted from `NewHub`, the queue of B is empty, and it was empty after
the admission of alice: the `user_connected` event for alice was sent to no one, B
included. -/
theorem scenario_alice_not_sent_to_bob :
    ∃ h1 h2, HandleWebSocket NewHub "u-alice" "alice" "customer" = Except.ok h1 ∧
      HandleWebSocket h1 "u-bob" "bob" "agent" = Except.ok h2 ∧
      (h1.heap 1).send.buf = [] ∧ (h2.heap 1).send.buf = [] := by
  obtain ⟨h1, h2, _, _, hrun1, _, hempty, hrun2, _, _, hb⟩ := scenario_states
  exact ⟨h1, h2, hrun1, hrun2, hempty 1, hb⟩

/-- C16, amended: from `NewHub`, when alice (session A) and then bob (session B) are
admitted, the `user_connected` event for alice is sent to no session (every queue is
empty after her admission: A is the sender and B is not in the map yet), and the
`user_connected` event for bob is sent to A, whose queue holds it alone, and not to B,
whose queue is empty. -/
theorem scenario_two_connections :
    ∃ h1 h2 bobConnected,
      jsonMarshal (connectedNotification (freshClient "u-bob" "bob" "agent")) =
        some bobConnected ∧
      (connectedNotification (freshClient "u-bob" "bob" "agent")).Type_ = "user_connected" ∧
      (connectedNotification (freshClient "u-bob" "bob" "agent")).UserID = "u-bob" ∧
      HandleWebSocket NewHub "u-alice" "alice" "customer" = Except.ok h1 ∧
      h1.clients = [0] ∧ (∀ c, (h1.heap c).send.buf = []) ∧
      HandleWebSocket h1 "u-bob" "bob" "agent" = Except.ok h2 ∧
      h2.clients = [0, 1] ∧ (h2.heap 0).send.buf = [bobConnected] ∧
      (h2.heap 1).send.buf = [] := by
  obtain ⟨h1, h2, d, hd, hrun1, hcl1, hempty, hrun2, hcl2, ha, hb⟩ := scenario_states
  exact ⟨h1, h2, d, hd, rfl, rfl, hrun1, hcl1, hempty, hrun2, hcl2, ha, hb⟩

/-! ## The collaborator entry points -/

theorem sampleHub_room (c : ClientPtr) (hc : c ∈ sampleHub.clients) :
    hasRoom (sampleHub.heap c) ∧ (sampleHub.heap c).send.buf = [] := by
  have : c = 0 ∨ c = 1 := by simpa [sampleHub] using hc
  rcases this with rfl | rfl
  · exact ⟨by show (0 : Nat) < 256; decide, rfl⟩
  · exact ⟨by show (0 : Nat) < 256; decide, rfl⟩

/-- C17 fails on the code. `BroadcastToChat` and `BroadcastToUser` are functions of the
hub state that their caller runs (`ChatService.SendMessage` and `CreateChat`), not
requests handed to `Hub.Run`: called on `fullQueueHub`, whose map is `[0, 1]`, each
reads the map, closes the full queue of alice and deletes her key, which leaves the map
`[1]`. -/
theorem BroadcastTo_mutates_map_in_caller :
    fullQueueHub.clients = [0, 1] ∧
    (∃ h', BroadcastToChat fullQueueHub "c1"
        { Type_ := "new_message", Data := Data.json (JSON.str "hello") } = Except.ok h' ∧
      h'.clients = [1] ∧ (h'.heap 0).send.closed = true) ∧
    (∃ h', BroadcastToUser fullQueueHub "u-alice"
        { Type_ := "new_message", Data := Data.json (JSON.str "hello") } = Except.ok h' ∧
      h'.clients = [1] ∧ (h'.heap 0).send.closed = true) := by
  have hwf := fullQueueHub_wellFormed
  have hfull : ¬ hasRoom (fullQueueHub.heap 0) := by
    unfold hasRoom
    rw [fullQueueHub_queue.1, fullQueueHub_queue.2]
    decide
  have hroom : hasRoom (fullQueueHub.heap 1) := by
    show (0 : Nat) < 256
    decide
  have hcl : fullQueueHub.clients = [0, 1] := rfl
  have hu1 : (fullQueueHub.heap 1).userID ≠ "u-alice" := by
    show "u-bob" ≠ "u-alice"
    decide
  refine ⟨hcl, ?_, ?_⟩
  · obtain ⟨h', hrun, hclients, hheap, _⟩ :=
      runBroadcast_spec fullQueueHub
        (JSON.obj [("type", JSON.str "new_message"), ("data", JSON.str "hello")]) hwf
    refine ⟨h', ?_, ?_, ?_⟩
    · rw [BroadcastToChat_eq _ _ _ _ jsonMarshal_sample]
      exact hrun
    · rw [hclients, hcl]
      simp [List.filter, hfull, hroom]
    · rw [hheap 0, if_pos (by rw [hcl]; simp)]
      exact (deliveredClient_full _ _ hfull).2.1
  · obtain ⟨h', hrun, hclients, hheap, _⟩ :=
      BroadcastToUser_spec fullQueueHub "u-alice" _ _ jsonMarshal_sample hwf
    refine ⟨h', hrun, ?_, ?_⟩
    · have hu0 : (fullQueueHub.heap 0).userID = "u-alice" := rfl
      rw [hclients, hcl]
      simp [List.filter, hfull, hu1, hu0]
    · rw [hheap 0, if_pos ⟨by rw [hcl]; simp, rfl⟩]
      exact (deliveredClient_full _ _ hfull).2.1

/-- C18 fails on the code. `BroadcastToChat` serializes the message before it assigns
`message.ChatID = chatID`: called with chat id `"c1"` and a message whose `ChatID` is
empty, it leaves in the queue of alice an event with no `chatId` member, which decodes
to a message with an empty `ChatID`; called with a message whose `ChatID` is `"c2"`, it
leaves an event that decodes to `ChatID = "c2"`. -/
theorem BroadcastToChat_serializes_before_chatID :
    (∃ h' fwd, BroadcastToChat sampleHub "c1"
        { Type_ := "new_message", Data := Data.json (JSON.str "hello") } = Except.ok h' ∧
      (h'.heap 0).send.buf =
        [JSON.obj [("type", JSON.str "new_message"), ("data", JSON.str "hello")]] ∧
      jsonUnmarshal (some (JSON.obj [("type", JSON.str "new_message"),
        ("data", JSON.str "hello")])) = some fwd ∧
      fwd.ChatID = "" ∧ fwd.ChatID ≠ "c1") ∧
    (∃ h' fwd, BroadcastToChat sampleHub "c1"
        { Type_ := "new_message", Data := Data.json (JSON.str "hello"), ChatID := "c2" } =
        Except.ok h' ∧
      (h'.heap 0).send.buf =
        [JSON.obj [("type", JSON.str "new_message"), ("data", JSON.str "hello"),
          ("chatId", JSON.str "c2")]] ∧
      jsonUnmarshal (some (JSON.obj [("type", JSON.str "new_message"),
        ("data", JSON.str "hello"), ("chatId", JSON.str "c2")])) = some fwd ∧
      fwd.ChatID = "c2" ∧ fwd.ChatID ≠ "c1") := by
  have hwf := sampleHub_wellFormed
  have h0 : (0 : ClientPtr) ∈ sampleHub.clients := by decide
  constructor
  · obtain ⟨h', hrun, _, hheap, _⟩ :=
      runBroadcast_spec sampleHub
        (JSON.obj [("type", JSON.str "new_message"), ("data", JSON.str "hello")]) hwf
    refine ⟨h', _, ?_, ?_, rfl, rfl, by decide⟩
    · rw [BroadcastToChat_eq _ _ _ _ jsonMarshal_sample]
      exact hrun
    · rw [hheap 0, if_pos h0, (deliveredClient_room _ _ (sampleHub_room 0 h0).1).1,
        (sampleHub_room 0 h0).2]
      rfl
  · obtain ⟨h', hrun, _, hheap, _⟩ :=
      runBroadcast_spec sampleHub
        (JSON.obj [("type", JSON.str "new_message"), ("data", JSON.str "hello"),
          ("chatId", JSON.str "c2")]) hwf
    refine ⟨h', _, ?_, ?_, rfl, rfl, by decide⟩
    · rw [BroadcastToChat_eq _ _ _ _ (show jsonMarshal
        { Type_ := "new_message", Data := Data.json (JSON.str "hello"), ChatID := "c2" } =
        some (JSON.obj [("type", JSON.str "new_message"), ("data", JSON.str "hello"),
          ("chatId", JSON.str "c2")]) from rfl)]
      exact hrun
    · rw [hheap 0, if_pos h0, (deliveredClient_room _ _ (sampleHub_room 0 h0).1).1,
        (sampleHub_room 0 h0).2]
      rfl

/-! ## Sessions out of the map -/

/-- C19: on a well-formed hub state, a session `c` that is not in the map when a step
is processed has its client object, and so its queue, unchanged by the step, and the
step returns a state: the broadcast case, `BroadcastToChat`, `BroadcastToUser`,
`broadcastToOthers`, and the register and unregister cases with their presence
notification, whichever session they are for. -/
theorem delivery_skips_absent_session (h : HubState) (c : ClientPtr) (hwf : h.WellFormed)
    (hc : c ∉ h.clients) :
    (∀ data : Bytes, ∃ h', runBroadcast h data = Except.ok h' ∧ h'.heap c = h.heap c) ∧
    (∀ (chatID : String) (message : Message),
      ∃ h', BroadcastToChat h chatID message = Except.ok h' ∧ h'.heap c = h.heap c) ∧
    (∀ (userID : String) (message : Message),
      ∃ h', BroadcastToUser h userID message = Except.ok h' ∧ h'.heap c = h.heap c) ∧
    (∀ (sender : ClientPtr) (message : Message),
      ∃ h', broadcastToOthers h sender message = Except.ok h' ∧ h'.heap c = h.heap c) ∧
    (∀ s : ClientPtr, ∃ h', runRegister h s = Except.ok h' ∧ h'.heap c = h.heap c) ∧
    (∀ s : ClientPtr, ∃ h', runUnregister h s = Except.ok h' ∧ h'.heap c = h.heap c) := by
  have key : ∀ (target : ClientPtr → Client → Bool) (data : Bytes),
      ∃ h', rangeClients target data h.clients h = Except.ok h' ∧ h'.heap c = h.heap c := by
    intro target data
    obtain ⟨h', hrun, _, hframe, _⟩ := fanOut_sheds target data h hwf
    exact ⟨h', hrun, hframe c (fun hh => hc hh.1)⟩
  refine ⟨fun data => key _ data, ?_, ?_, ?_, ?_, ?_⟩
  · intro chatID message
    cases hm : jsonMarshal message with
    | none => exact ⟨h, by simp only [BroadcastToChat, hm], rfl⟩
    | some data =>
      obtain ⟨h', hrun, hsame⟩ := key (fun _ _ => true) data
      exact ⟨h', by simp only [BroadcastToChat, hm]; exact hrun, hsame⟩
  · intro userID message
    cases hm : jsonMarshal message with
    | none => exact ⟨h, by simp only [BroadcastToUser, hm], rfl⟩
    | some data =>
      obtain ⟨h', hrun, hsame⟩ := key (fun _ client => decide (client.userID = userID)) data
      exact ⟨h', by simp only [BroadcastToUser, hm]; exact hrun, hsame⟩
  · intro sender message
    cases hm : jsonMarshal message with
    | none => exact ⟨h, by simp only [broadcastToOthers, hm], rfl⟩
    | some data =>
      obtain ⟨h', hrun, hsame⟩ := key (fun client _ => decide (client ≠ sender)) data
      exact ⟨h', by simp only [broadcastToOthers, hm]; exact hrun, hsame⟩
  · intro s
    obtain ⟨h', _, _, hrun, _, hheap, _⟩ :=
      runRegister_spec h s hwf.1 (fun d hd _ => hwf.2 d hd)
    refine ⟨h', hrun, ?_⟩
    rw [hheap c, if_neg (fun hh => hc hh.1)]
  · intro s
    by_cases hs : s ∈ h.clients
    · obtain ⟨h', _, _, hrun, _, hheap, _⟩ := runUnregister_spec h s hwf hs
      refine ⟨h', hrun, ?_⟩
      have hne : c ≠ s := fun e => hc (e ▸ hs)
      rw [hheap c, if_neg hne, if_neg hc]
    · refine ⟨h, ?_, rfl⟩
      unfold runUnregister
      simp only [hs, if_false]

theorem delivery_skips_absent_session_witness :
    sampleHub.WellFormed ∧ 2 ∉ sampleHub.clients ∧
    (∀ data : Bytes,
      ∃ h', runBroadcast sampleHub data = Except.ok h' ∧ h'.heap 2 = sampleHub.heap 2) ∧
    (∀ (chatID : String) (message : Message),
      ∃ h', BroadcastToChat sampleHub chatID message = Except.ok h' ∧
        h'.heap 2 = sampleHub.heap 2) ∧
    (∀ (userID : String) (message : Message),
      ∃ h', BroadcastToUser sampleHub userID message = Except.ok h' ∧
        h'.heap 2 = sampleHub.heap 2) ∧
    (∀ (sender : ClientPtr) (message : Message),
      ∃ h', broadcastToOthers sampleHub sender message = Except.ok h' ∧
        h'.heap 2 = sampleHub.heap 2) ∧
    (∀ s : ClientPtr,
      ∃ h', runRegister sampleHub s = Except.ok h' ∧ h'.heap 2 = sampleHub.heap 2) ∧
    (∀ s : ClientPtr,
      ∃ h', runUnregister sampleHub s = Except.ok h' ∧ h'.heap 2 = sampleHub.heap 2) :=
  ⟨sampleHub_wellFormed, by decide,
    delivery_skips_absent_session sampleHub 2 sampleHub_wellFormed (by decide)⟩

/-! ## Termination of the two pumps -/

theorem pendingHub_wellFormed : pendingHub.WellFormed := by
  refine ⟨by decide, ?_⟩
  intro c hc
  have : c = 0 ∨ c = 1 := by
    have hc' : c ∈ [0, 1] := hc
    simpa using hc'
  rcases this with rfl | rfl <;> rfl

/-- What the read pump sends to the hub is a run of broadcasts, followed by at most one
unregister, of its own client, at the very end. -/
theorem readPump_requests (unmarshal : Frame → Option Message) (client : ClientPtr)
    (c : Client) (results : List ReadResult) :
    ∃ payloads : List Bytes,
      readPump unmarshal client c results = payloads.map Request.broadcast ∨
      readPump unmarshal client c results =
        payloads.map Request.broadcast ++ [Request.unregister client] := by
  induction results with
  | nil => exact ⟨[], Or.inl rfl⟩
  | cons r rest ih =>
    cases r with
    | err => exact ⟨[], Or.inr rfl⟩
    | message messageBytes =>
      obtain ⟨payloads, hp⟩ := ih
      cases hm : readPumpMessage unmarshal c messageBytes with
      | none =>
        refine ⟨payloads, ?_⟩
        simp only [readPump, hm]
        exact hp
      | some data =>
        refine ⟨data :: payloads, ?_⟩
        simp only [readPump, hm, List.map_cons, List.cons_append]
        rcases hp with hp | hp
        · exact Or.inl (by rw [hp])
        · exact Or.inr (by rw [hp])

/-- C20: whatever `json.Unmarshal` is, when the write of a pending event fails, the iteration of the write pump
returns, with the connection closed by its deferred call and the map as it was; the
next read of the read pump on that connection is an error, whatever the peer sent, and
the read pump ends by sending its client on `h.unregister`, the one unregister it ever
sends; and on every well-formed hub state the unregister case returns a state without
the session in the map on which a further unregister of the session changes nothing. -/
theorem write_failure_triggers_one_remove (unmarshal : Frame → Option Message)
    (h : HubState) (client : ClientPtr) (conn : Conn) (message : Bytes) (pending : List Bytes)
    (hbuf : (h.heap client).send.buf = message :: pending) :
    (writePumpIter h client conn true).2.2 = false ∧
    (writePumpIter h client conn true).2.1.closed = true ∧
    (writePumpIter h client conn true).1.clients = h.clients ∧
    (∀ (incoming : ReadResult) (later : List ReadResult),
      readPump unmarshal client (h.heap client)
        ((writePumpIter h client conn true).2.1.ReadMessage incoming :: later) =
      [Request.unregister client]) ∧
    (∀ results : List ReadResult, ∃ payloads : List Bytes,
      readPump unmarshal client (h.heap client) results = payloads.map Request.broadcast ∨
      readPump unmarshal client (h.heap client) results =
        payloads.map Request.broadcast ++ [Request.unregister client]) ∧
    (∀ h0 : HubState, h0.WellFormed →
      ∃ h1, runUnregister h0 client = Except.ok h1 ∧ client ∉ h1.clients ∧
        runUnregister h1 client = Except.ok h1 ∧
        (client ∈ h0.clients → (h1.heap client).send.closed = true)) := by
  have hiter : writePumpIter h client conn true =
      (writePumpRecv h client, conn.Close, false) := by
    unfold writePumpIter
    rw [hbuf]
    simp [Conn.WriteMessage]
  refine ⟨?_, ?_, ?_, ?_, ?_, ?_⟩
  · rw [hiter]
  · rw [hiter]; rfl
  · rw [hiter]; rfl
  · intro incoming later
    rw [hiter]
    simp only [Conn.ReadMessage, Conn.Close, if_true, readPump]
  · exact fun results => readPump_requests unmarshal client (h.heap client) results
  · intro h0 hwf0
    by_cases hs : client ∈ h0.clients
    · obtain ⟨h1, _, _, hrun, hcl, hheap, _⟩ := runUnregister_spec h0 client hwf0 hs
      have hout : client ∉ h1.clients := by
        rw [hcl, List.mem_filter, mem_mapDelete]
        exact fun hm => hm.1.2 rfl
      refine ⟨h1, hrun, hout, ?_, ?_⟩
      · unfold runUnregister
        simp only [hout, if_false]
      · intro _
        rw [hheap client, if_pos rfl]
    · have hnoop : runUnregister h0 client = Except.ok h0 := by
        unfold runUnregister
        simp only [hs, if_false]
      exact ⟨h0, hnoop, hs, hnoop, fun hc => absurd hc hs⟩

theorem write_failure_triggers_one_remove_witness :
    (pendingHub.heap 0).send.buf = JSON.str "first" :: [JSON.str "second"] ∧
    (writePumpIter pendingHub 0 openConn true).2.2 = false ∧
    (writePumpIter pendingHub 0 openConn true).2.1.closed = true ∧
    (writePumpIter pendingHub 0 openConn true).1.clients = pendingHub.clients ∧
    (∀ (incoming : ReadResult) (later : List ReadResult),
      readPump sampleUnmarshal 0 (pendingHub.heap 0)
        ((writePumpIter pendingHub 0 openConn true).2.1.ReadMessage incoming :: later) =
      [Request.unregister 0]) ∧
    (∀ results : List ReadResult, ∃ payloads : List Bytes,
      readPump sampleUnmarshal 0 (pendingHub.heap 0) results = payloads.map Request.broadcast ∨
      readPump sampleUnmarshal 0 (pendingHub.heap 0) results =
        payloads.map Request.broadcast ++ [Request.unregister 0]) ∧
    (∀ h0 : HubState, h0.WellFormed →
      ∃ h1, runUnregister h0 0 = Except.ok h1 ∧ 0 ∉ h1.clients ∧
        runUnregister h1 0 = Except.ok h1 ∧
        (0 ∈ h0.clients → (h1.heap 0).send.closed = true)) :=
  ⟨rfl, write_failure_triggers_one_remove sampleUnmarshal pendingHub 0 openConn (JSON.str "first")
    [JSON.str "second"] rfl⟩

/-! ## First in, first out -/

/-- A session that a fan-out loop leaves in the map has the event at the tail of its
queue when it is a target, and its queue as it was otherwise. -/
theorem fanOut_queue (target : ClientPtr → Client → Bool) (data : Bytes) (h h1 : HubState)
    (c : ClientPtr) (hwf : h.WellFormed) (hc : c ∈ h.clients)
    (hrun : rangeClients target data h.clients h = Except.ok h1) (hc1 : c ∈ h1.clients) :
    (h1.heap c).send.buf =
      (h.heap c).send.buf ++ (if target c (h.heap c) = true then [data] else []) := by
  obtain ⟨h', hrun', hshed, hframe, _⟩ := fanOut_sheds target data h hwf
  have hsame : h' = h1 := Except.ok.inj (hrun'.symm.trans hrun)
  subst hsame
  by_cases ht : target c (h.heap c) = true
  · rw [if_pos ht]
    by_cases hr : hasRoom (h.heap c)
    · exact ((hshed c hc ht).2 hr).2.1
    · exact absurd hc1 ((hshed c hc ht).1 hr).2.2
  · rw [if_neg ht, hframe c (fun hh => ht hh.2), List.append_nil]

/-- The map after a request holds sessions of the map before it, and the session the
request allocated when it is a connection; addresses are never given twice. -/
theorem step_clients (h h1 : HubState) (r : Request) (hwf : h.WellFormed)
    (halloc : h.Allocated) (hstep : step h r = Except.ok h1) :
    h.nextClient ≤ h1.nextClient ∧
    ∀ c ∈ h1.clients, c ∈ h.clients ∨ (c = h.nextClient ∧ h.nextClient < h1.nextClient) := by
  have fan : ∀ (target : ClientPtr → Client → Bool) (data : Bytes),
      rangeClients target data h.clients h = Except.ok h1 →
      h.nextClient ≤ h1.nextClient ∧
      ∀ c ∈ h1.clients, c ∈ h.clients ∨ (c = h.nextClient ∧ h.nextClient < h1.nextClient) := by
    intro target data hrun
    obtain ⟨h', hrun', hcl, _, _, hn, _⟩ :=
      fanOut_spec target data h hwf.1 (fun c hc _ => hwf.2 c hc)
    have hsame : h' = h1 := Except.ok.inj (hrun'.symm.trans hrun)
    subst hsame
    refine ⟨by rw [hn], ?_⟩
    intro c hc
    rw [hcl, List.mem_filter] at hc
    exact Or.inl hc.1
  have same : h1 = h →
      h.nextClient ≤ h1.nextClient ∧
      ∀ c ∈ h1.clients, c ∈ h.clients ∨ (c = h.nextClient ∧ h.nextClient < h1.nextClient) := by
    intro e
    subst e
    exact ⟨le_refl _, fun c hc => Or.inl hc⟩
  cases r with
  | handleWebSocket userID username role =>
    obtain ⟨h', _, _, hrun, hcl, _, hn⟩ :=
      HandleWebSocket_notifies h userID username role hwf halloc
    have hsame : h' = h1 := Except.ok.inj (hrun.symm.trans hstep)
    subst hsame
    refine ⟨by rw [hn]; exact Nat.le_succ _, ?_⟩
    intro c hc
    rw [hcl, List.mem_append, List.mem_filter, List.mem_singleton] at hc
    rcases hc with hc | hc
    · exact Or.inl hc.1
    · exact Or.inr ⟨hc, by rw [hn]; exact Nat.lt_succ_self _⟩
  | unregister s =>
    by_cases hs : s ∈ h.clients
    · obtain ⟨h', _, _, hrun, hcl, _, _, hn, _⟩ := runUnregister_spec h s hwf hs
      have hsame : h' = h1 := Except.ok.inj (hrun.symm.trans hstep)
      subst hsame
      refine ⟨by rw [hn], ?_⟩
      intro c hc
      rw [hcl, List.mem_filter, mem_mapDelete] at hc
      exact Or.inl hc.1.1
    · apply same
      have hnoop : runUnregister h s = Except.ok h := by
        unfold runUnregister
        simp only [hs, if_false]
      exact Except.ok.inj (hstep.symm.trans hnoop)
  | broadcast message => exact fan _ message hstep
  | broadcastToChat chatID message =>
    cases hm : jsonMarshal message with
    | none =>
      apply same
      have : step h (Request.broadcastToChat chatID message) = Except.ok h := by
        simp only [step, BroadcastToChat, hm]
      exact Except.ok.inj (hstep.symm.trans this)
    | some data =>
      apply fan (fun _ _ => true) data
      have : step h (Request.broadcastToChat chatID message) =
          rangeClients (fun _ _ => true) data h.clients h := by
        simp only [step, BroadcastToChat, hm]
      rw [← this]
      exact hstep
  | broadcastToUser userID message =>
    cases hm : jsonMarshal message with
    | none =>
      apply same
      have : step h (Request.broadcastToUser userID message) = Except.ok h := by
        simp only [step, BroadcastToUser, hm]
      exact Except.ok.inj (hstep.symm.trans this)
    | some data =>
      apply fan (fun _ client => decide (client.userID = userID)) data
      have : step h (Request.broadcastToUser userID message) =
          rangeClients (fun _ client => decide (client.userID = userID)) data h.clients h := by
        simp only [step, BroadcastToUser, hm]
      rw [← this]
      exact hstep
  | setStatusUpdateFunc fn =>
    have e : h1 = SetStatusUpdateFunc h fn := (Except.ok.inj hstep).symm
    subst e
    exact ⟨le_refl _, fun c hc => Or.inl hc⟩
  | writePumpRecv s =>
    have e : h1 = writePumpRecv h s := (Except.ok.inj hstep).symm
    subst e
    exact ⟨le_refl _, fun c hc => Or.inl hc⟩

theorem step_allocated (h h1 : HubState) (r : Request) (hwf : h.WellFormed)
    (halloc : h.Allocated) (hstep : step h r = Except.ok h1) : h1.Allocated := by
  obtain ⟨hle, hmem⟩ := step_clients h h1 r hwf halloc hstep
  intro c hc
  rcases hmem c hc with hc0 | ⟨hc0, hlt⟩
  · exact lt_of_lt_of_le (halloc c hc0) hle
  · rw [hc0]; exact hlt

theorem head_toList_append_tail (l : List Bytes) : l.head?.toList ++ l.tail = l := by
  cases l <;> rfl

/-- The queue of a session that a request leaves in the map: what the request took
from its head, followed by the queue after, is the queue before followed by what the
request addressed to the session. -/
theorem step_queue (h h1 : HubState) (r : Request) (c : ClientPtr) (hwf : h.WellFormed)
    (halloc : h.Allocated) (hc : c ∈ h.clients) (hstep : step h r = Except.ok h1)
    (hc1 : c ∈ h1.clients) :
    takenBy h c r ++ (h1.heap c).send.buf =
      (h.heap c).send.buf ++ deliveriesTargeting h c r := by
  cases r with
  | handleWebSocket userID username role =>
    obtain ⟨h', data, hdata, hrun, hcl, hheap, _⟩ :=
      HandleWebSocket_notifies h userID username role hwf halloc
    have hsame : h' = h1 := Except.ok.inj (hrun.symm.trans hstep)
    subst hsame
    have hne : c ≠ h.nextClient := fun e => lt_irrefl _ (e ▸ halloc c hc)
    have hr : hasRoom (h.heap c) := by
      rw [hcl, List.mem_append, List.mem_filter, List.mem_singleton] at hc1
      rcases hc1 with hh | hh
      · simpa using hh.2
      · exact absurd hh hne
    simp only [takenBy, deliveriesTargeting, hdata, Option.toList, List.nil_append]
    rw [hheap c, if_neg hne, if_pos hc]
    exact (deliveredClient_room _ _ hr).1
  | unregister s =>
    by_cases hs : s ∈ h.clients
    · obtain ⟨h', data, hdata, hrun, hcl, hheap, _⟩ := runUnregister_spec h s hwf hs
      have hsame : h' = h1 := Except.ok.inj (hrun.symm.trans hstep)
      subst hsame
      rw [hcl, List.mem_filter, mem_mapDelete] at hc1
      have hne : c ≠ s := hc1.1.2
      have hr : hasRoom (h.heap c) := by simpa using hc1.2
      have hcond : s ∈ h.clients ∧ s ≠ c := ⟨hs, fun e => hne e.symm⟩
      simp only [takenBy, deliveriesTargeting, hdata, Option.toList, List.nil_append,
        if_pos hcond]
      rw [hheap c, if_neg hne, if_pos hc]
      exact (deliveredClient_room _ _ hr).1
    · have hnoop : runUnregister h s = Except.ok h := by
        unfold runUnregister
        simp only [hs, if_false]
      have e : h1 = h := Except.ok.inj (hstep.symm.trans hnoop)
      subst e
      have hcond : ¬ (s ∈ h1.clients ∧ s ≠ c) := fun hh => hs hh.1
      simp only [takenBy, deliveriesTargeting, if_neg hcond, List.nil_append, List.append_nil]
  | broadcast message =>
    have := fanOut_queue (fun _ _ => true) message h h1 c hwf hc hstep hc1
    simpa [takenBy, deliveriesTargeting] using this
  | broadcastToChat chatID message =>
    cases hm : jsonMarshal message with
    | none =>
      have hnoop : step h (Request.broadcastToChat chatID message) = Except.ok h := by
        simp only [step, BroadcastToChat, hm]
      have e : h1 = h := Except.ok.inj (hstep.symm.trans hnoop)
      subst e
      simp [takenBy, deliveriesTargeting, hm]
    | some data =>
      have hrun : rangeClients (fun _ _ => true) data h.clients h = Except.ok h1 := by
        have : step h (Request.broadcastToChat chatID message) =
            rangeClients (fun _ _ => true) data h.clients h := by
          simp only [step, BroadcastToChat, hm]
        rw [← this]
        exact hstep
      have := fanOut_queue (fun _ _ => true) data h h1 c hwf hc hrun hc1
      simpa [takenBy, deliveriesTargeting, hm] using this
  | broadcastToUser userID message =>
    cases hm : jsonMarshal message with
    | none =>
      have hnoop : step h (Request.broadcastToUser userID message) = Except.ok h := by
        simp only [step, BroadcastToUser, hm]
      have e : h1 = h := Except.ok.inj (hstep.symm.trans hnoop)
      subst e
      simp [takenBy, deliveriesTargeting, hm]
    | some data =>
      have hrun : rangeClients (fun _ client => decide (client.userID = userID)) data
          h.clients h = Except.ok h1 := by
        have : step h (Request.broadcastToUser userID message) =
            rangeClients (fun _ client => decide (client.userID = userID)) data
              h.clients h := by
          simp only [step, BroadcastToUser, hm]
        rw [← this]
        exact hstep
      have := fanOut_queue (fun _ client => decide (client.userID = userID)) data h h1 c
        hwf hc hrun hc1
      by_cases hu : (h.heap c).userID = userID
      · simpa [takenBy, deliveriesTargeting, hm, hu] using this
      · simpa [takenBy, deliveriesTargeting, hm, hu] using this
  | setStatusUpdateFunc fn =>
    have e : h1 = SetStatusUpdateFunc h fn := (Except.ok.inj hstep).symm
    subst e
    simp [takenBy, deliveriesTargeting, SetStatusUpdateFunc]
  | writePumpRecv s =>
    have e : h1 = writePumpRecv h s := (Except.ok.inj hstep).symm
    subst e
    by_cases hsc : s = c
    · subst hsc
      have : ((writePumpRecv h s).heap s).send.buf = (h.heap s).send.buf.tail := by
        simp [writePumpRecv, setSend]
      simp only [takenBy, deliveriesTargeting, if_true, List.append_nil, this]
      exact head_toList_append_tail _
    · have hcs : c ≠ s := fun e => hsc e.symm
      have : (writePumpRecv h s).heap c = h.heap c := by
        simp [writePumpRecv, setSend, Function.update_noteq hcs]
      simp only [takenBy, deliveriesTargeting, if_neg hsc, List.nil_append, List.append_nil,
        this]

/-- Every state reached from `NewHub` is well formed and its map holds allocated
addresses only. -/
theorem reachable_allocated (reqs : List Request) :
    ∀ h : HubState, h.WellFormed → h.Allocated →
      ∃ h', run h reqs = Except.ok h' ∧ h'.WellFormed ∧ h'.Allocated := by
  induction reqs with
  | nil => exact fun h hwf halloc => ⟨h, rfl, hwf, halloc⟩
  | cons r rest ih =>
    intro h hwf halloc
    obtain ⟨h1, hstep, hwf1⟩ := step_wellFormed h r hwf
    obtain ⟨h', hrun, hwf', halloc'⟩ := ih h1 hwf1 (step_allocated h h1 r hwf halloc hstep)
    exact ⟨h', by rw [run_cons_ok h h1 r rest hstep]; exact hrun, hwf', halloc'⟩

theorem NewHub_allocated : NewHub.Allocated :=
  fun _ hc => absurd hc (List.not_mem_nil _)

/-- A session allocated before a sequence of requests and in the map after it was in
the map before it. -/
theorem run_backward (c : ClientPtr) (reqs : List Request) :
    ∀ h h' : HubState, h.WellFormed → h.Allocated → run h reqs = Except.ok h' →
      c < h.nextClient → c ∈ h'.clients → c ∈ h.clients := by
  induction reqs with
  | nil =>
    intro h h' _ _ hrun _ hc
    have e : h = h' := Except.ok.inj hrun
    rw [e]
    exact hc
  | cons r rest ih =>
    intro h h' hwf halloc hrun hlt hc
    obtain ⟨h1, hstep, hwf1⟩ := step_wellFormed h r hwf
    have hrun1 : run h1 rest = Except.ok h' := by
      rw [← run_cons_ok h h1 r rest hstep]
      exact hrun
    obtain ⟨hle, hmem⟩ := step_clients h h1 r hwf halloc hstep
    have hc1 : c ∈ h1.clients :=
      ih h1 h' hwf1 (step_allocated h h1 r hwf halloc hstep) hrun1
        (lt_of_lt_of_le hlt hle) hc
    rcases hmem c hc1 with hc0 | ⟨hc0, _⟩
    · exact hc0
    · exact absurd hc0 (Nat.ne_of_lt hlt)

/-- The queue law along a sequence of requests. -/
theorem run_queue (c : ClientPtr) (reqs : List Request) :
    ∀ h h' : HubState, h.WellFormed → h.Allocated → c ∈ h.clients →
      run h reqs = Except.ok h' → c ∈ h'.clients →
      takenAlong c h reqs ++ (h'.heap c).send.buf =
        (h.heap c).send.buf ++ deliveriesAlong c h reqs := by
  induction reqs with
  | nil =>
    intro h h' _ _ _ hrun _
    have e : h = h' := Except.ok.inj hrun
    subst e
    simp [takenAlong, deliveriesAlong]
  | cons r rest ih =>
    intro h h' hwf halloc hc hrun hc'
    obtain ⟨h1, hstep, hwf1⟩ := step_wellFormed h r hwf
    have hrun1 : run h1 rest = Except.ok h' := by
      rw [← run_cons_ok h h1 r rest hstep]
      exact hrun
    have halloc1 := step_allocated h h1 r hwf halloc hstep
    obtain ⟨hle, _⟩ := step_clients h h1 r hwf halloc hstep
    have hc1 : c ∈ h1.clients :=
      run_backward c rest h1 h' hwf1 halloc1 hrun1 (lt_of_lt_of_le (halloc c hc) hle) hc'
    have hq := step_queue h h1 r c hwf halloc hc hstep hc1
    have hrest := ih h1 h' hwf1 halloc1 hc1 hrun1 hc'
    simp only [takenAlong, deliveriesAlong, hstep]
    rw [List.append_assoc, hrest, ← List.append_assoc, hq, List.append_assoc]

/-- The write pump, its writes succeeding on an open connection, writes the events at
the head of the queue in the order of the queue and leaves the rest of the queue. -/
theorem writePump_writes_in_order (c : ClientPtr) (first : List Bytes) :
    ∀ (g : HubState) (conn : Conn) (rest : List Bytes), conn.closed = false →
      (g.heap c).send.buf = first ++ rest →
      (writePump c g conn (List.replicate first.length false)).2.2 = true ∧
      (writePump c g conn (List.replicate first.length false)).2.1.written =
        conn.written ++ first.map WireFrame.text ∧
      ((writePump c g conn (List.replicate first.length false)).1.heap c).send.buf = rest ∧
      (writePump c g conn (List.replicate first.length false)).1.clients = g.clients := by
  induction first with
  | nil =>
    intro g conn rest _ hbuf
    simpa [writePump] using hbuf
  | cons m first ih =>
    intro g conn rest hopen hbuf
    have hiter : writePumpIter g c conn false =
        (writePumpRecv g c, { conn with written := conn.written ++ [WireFrame.text m] },
          true) := by
      unfold writePumpIter
      rw [hbuf]
      simp [Conn.WriteMessage, hopen]
    have hbuf1 : ((writePumpRecv g c).heap c).send.buf = first ++ rest := by
      simp [writePumpRecv, setSend, hbuf]
    obtain ⟨h1, h2, h3, h4⟩ :=
      ih (writePumpRecv g c) { conn with written := conn.written ++ [WireFrame.text m] }
        rest hopen hbuf1
    simp only [List.length_cons, List.replicate_succ, writePump, hiter, if_true]
    refine ⟨h1, ?_, h3, ?_⟩
    · rw [h2]
      simp
    · rw [h4]
      rfl

/-- C15: on a well-formed hub state whose map holds allocated addresses, every sequence
of requests is processed, and for a session `c` of the map that is still in the map at
the end, the events taken from the head of its queue along the sequence, followed by
the queue at the end, are the queue at the start followed by the deliveries that
targeted `c`, in the order the hub processed them; and the write pump, its writes
succeeding, writes the events at the head of the queue to the connection in the order of
the queue, each once, and leaves the others in the queue. -/
theorem per_session_fifo (h : HubState) (c : ClientPtr) (reqs : List Request)
    (hwf : h.WellFormed) (halloc : h.Allocated) (hc : c ∈ h.clients) :
    ∃ h', run h reqs = Except.ok h' ∧
      (c ∈ h'.clients →
        takenAlong c h reqs ++ (h'.heap c).send.buf =
          (h.heap c).send.buf ++ deliveriesAlong c h reqs) ∧
      (∀ (conn : Conn) (first rest : List Bytes), conn.closed = false →
        (h'.heap c).send.buf = first ++ rest →
        (writePump c h' conn (List.replicate first.length false)).2.1.written =
          conn.written ++ first.map WireFrame.text ∧
        ((writePump c h' conn (List.replicate first.length false)).1.heap c).send.buf =
          rest) := by
  obtain ⟨h', hrun, _⟩ := run_wellFormed reqs h hwf
  refine ⟨h', hrun, ?_, ?_⟩
  · intro hc'
    exact run_queue c reqs h h' hwf halloc hc hrun hc'
  · intro conn first rest hopen hbuf
    obtain ⟨_, h2, h3, _⟩ := writePump_writes_in_order c first h' conn rest hopen hbuf
    exact ⟨h2, h3⟩

theorem pendingHub_allocated : pendingHub.Allocated := by
  intro c hc
  have : c = 0 ∨ c = 1 := by
    have hc' : c ∈ [0, 1] := hc
    simpa using hc'
  rcases this with rfl | rfl <;> decide

theorem per_session_fifo_witness :
    pendingHub.WellFormed ∧ pendingHub.Allocated ∧ 0 ∈ pendingHub.clients ∧
    ∃ h', run pendingHub mixedRequests = Except.ok h' ∧
      (0 ∈ h'.clients →
        takenAlong 0 pendingHub mixedRequests ++ (h'.heap 0).send.buf =
          (pendingHub.heap 0).send.buf ++ deliveriesAlong 0 pendingHub mixedRequests) ∧
      (∀ (conn : Conn) (first rest : List Bytes), conn.closed = false →
        (h'.heap 0).send.buf = first ++ rest →
        (writePump 0 h' conn (List.replicate first.length false)).2.1.written =
          conn.written ++ first.map WireFrame.text ∧
        ((writePump 0 h' conn (List.replicate first.length false)).1.heap 0).send.buf =
          rest) :=
  ⟨pendingHub_wellFormed, pendingHub_allocated, by decide,
    per_session_fifo pendingHub 0 mixedRequests pendingHub_wellFormed pendingHub_allocated
      (by decide)⟩

/-! ## The wire envelope -/

/-- C21: whenever `json.Marshal` serializes a `Message`, the result is a JSON object
whose keys are `type` and `data`, then `userId`, `username` and `chatId`, each present
exactly when the field is not empty, and no other key; and `json.Unmarshal` of that
object gives a message with the same `Type`, `UserID`, `Username` and `ChatID`. -/
theorem wire_envelope (m : Message) (doc : Bytes) (hdoc : jsonMarshal m = some doc) :
    (∃ fields, doc = JSON.obj fields) ∧
    doc.keys = ["type", "data"] ++ (if m.UserID = "" then [] else ["userId"])
      ++ (if m.Username = "" then [] else ["username"])
      ++ (if m.ChatID = "" then [] else ["chatId"]) ∧
    "type" ∈ doc.keys ∧ "data" ∈ doc.keys ∧
    ("userId" ∈ doc.keys ↔ m.UserID ≠ "") ∧
    ("username" ∈ doc.keys ↔ m.Username ≠ "") ∧
    ("chatId" ∈ doc.keys ↔ m.ChatID ≠ "") ∧
    (∀ k ∈ doc.keys, k ∈ ["type", "data", "userId", "username", "chatId"]) ∧
    (∃ decoded, jsonUnmarshal (some doc) = some decoded ∧
      decoded.Type_ = m.Type_ ∧ decoded.UserID = m.UserID ∧
      decoded.Username = m.Username ∧ decoded.ChatID = m.ChatID) := by
  obtain ⟨t, d, u, n, c⟩ := m
  cases d with
  | unsupported => exact absurd hdoc (by simp [jsonMarshal])
  | json v =>
    have hround := jsonUnmarshal_jsonMarshal
      { Type_ := t, Data := Data.json v, UserID := u, Username := n, ChatID := c } v rfl
    rw [hdoc] at hround
    have hd : doc = JSON.obj ([("type", JSON.str t), ("data", v)]
        ++ omitEmpty "userId" u ++ omitEmpty "username" n ++ omitEmpty "chatId" c) := by
      simp only [jsonMarshal, Option.some.injEq] at hdoc
      exact hdoc.symm
    have hkeys : doc.keys = ["type", "data"] ++ (if u = "" then [] else ["userId"])
        ++ (if n = "" then [] else ["username"]) ++ (if c = "" then [] else ["chatId"]) := by
      rw [hd]
      by_cases hu : u = "" <;> by_cases hn : n = "" <;> by_cases hc : c = "" <;>
        simp [JSON.keys, omitEmpty, hu, hn, hc]
    refine ⟨⟨_, hd⟩, hkeys, ?_, ?_, ?_, ?_, ?_, ?_, ⟨_, hround, rfl, rfl, rfl, rfl⟩⟩
    · rw [hkeys]; simp
    · rw [hkeys]; simp
    · rw [hkeys]
      by_cases hu : u = "" <;> by_cases hn : n = "" <;> by_cases hc : c = "" <;>
        simp [hu, hn, hc]
    · rw [hkeys]
      by_cases hu : u = "" <;> by_cases hn : n = "" <;> by_cases hc : c = "" <;>
        simp [hu, hn, hc]
    · rw [hkeys]
      by_cases hu : u = "" <;> by_cases hn : n = "" <;> by_cases hc : c = "" <;>
        simp [hu, hn, hc]
    · rw [hkeys]
      intro k hk
      by_cases hu : u = "" <;> by_cases hn : n = "" <;> by_cases hc : c = "" <;>
        simp [hu, hn, hc] at hk ⊢ <;> tauto

theorem wire_envelope_witness :
    jsonMarshal sampleEnvelope =
      some (JSON.obj [("type", JSON.str "new_message"), ("data", JSON.str "hello"),
        ("chatId", JSON.str "c1")]) ∧
    (∃ fields, JSON.obj [("type", JSON.str "new_message"), ("data", JSON.str "hello"),
        ("chatId", JSON.str "c1")] = JSON.obj fields) ∧
    (JSON.obj [("type", JSON.str "new_message"), ("data", JSON.str "hello"),
        ("chatId", JSON.str "c1")]).keys = ["type", "data", "chatId"] :=
  ⟨rfl, (wire_envelope sampleEnvelope _ rfl).1, (wire_envelope sampleEnvelope _ rfl).2.1⟩

/-- The keys of the object `json.Marshal` makes of a `Message`. -/
theorem jsonMarshal_keys (m : Message) (doc : Bytes) (hdoc : jsonMarshal m = some doc) :
    doc.keys = ["type", "data"] ++ (if m.UserID = "" then [] else ["userId"])
      ++ (if m.Username = "" then [] else ["username"])
      ++ (if m.ChatID = "" then [] else ["chatId"]) := by
  obtain ⟨t, d, u, n, c⟩ := m
  cases d with
  | unsupported => exact absurd hdoc (by simp [jsonMarshal])
  | json v =>
    simp only [jsonMarshal, Option.some.injEq] at hdoc
    rw [← hdoc]
    by_cases hu : u = "" <;> by_cases hn : n = "" <;> by_cases hc : c = "" <;>
      simp [JSON.keys, omitEmpty, hu, hn, hc]

theorem no_chatId_key (m : Message) (doc : Bytes) (hdoc : jsonMarshal m = some doc)
    (hc : m.ChatID = "") : "chatId" ∉ doc.keys := by
  rw [jsonMarshal_keys m doc hdoc, hc]
  by_cases hu : m.UserID = "" <;> by_cases hn : m.Username = "" <;> simp [hu, hn]

/-! ## The presence events -/

/-- C24: on a well-formed hub state, the event that the register case for `s` appends
to the queues of the other sessions decodes to type `user_connected`, the `userID` and
`username` of `s`, the data object with `isOnline` true and the same `userId` and
`username`, and no chat id; the event of the unregister case for a session `s` of the
map decodes to type `user_disconnected`, the same identity, the data object with
`isOnline` false, and no chat id; neither document has a `chatId` key. -/
theorem presence_event_content (h : HubState) (s : ClientPtr) (hwf : h.WellFormed) :
    (∃ h' data decoded, runRegister h s = Except.ok h' ∧
      (∀ c ∈ h.clients, c ≠ s → hasRoom (h.heap c) →
        (h'.heap c).send.buf = (h.heap c).send.buf ++ [data]) ∧
      jsonUnmarshal (some data) = some decoded ∧
      decoded.Type_ = "user_connected" ∧
      decoded.UserID = (h.heap s).userID ∧ decoded.Username = (h.heap s).username ∧
      decoded.Data = Data.json (JSON.obj [("isOnline", JSON.bool true),
        ("userId", JSON.str (h.heap s).userID),
        ("username", JSON.str (h.heap s).username)]) ∧
      decoded.ChatID = "" ∧ "chatId" ∉ data.keys) ∧
    (s ∈ h.clients → ∃ h' data decoded, runUnregister h s = Except.ok h' ∧
      (∀ c ∈ h.clients, c ≠ s → hasRoom (h.heap c) →
        (h'.heap c).send.buf = (h.heap c).send.buf ++ [data]) ∧
      jsonUnmarshal (some data) = some decoded ∧
      decoded.Type_ = "user_disconnected" ∧
      decoded.UserID = (h.heap s).userID ∧ decoded.Username = (h.heap s).username ∧
      decoded.Data = Data.json (JSON.obj [("isOnline", JSON.bool false),
        ("userId", JSON.str (h.heap s).userID),
        ("username", JSON.str (h.heap s).username)]) ∧
      decoded.ChatID = "" ∧ "chatId" ∉ data.keys) := by
  constructor
  · obtain ⟨h', data, hdata, hrun, _, hheap, _⟩ :=
      runRegister_spec h s hwf.1 (fun c hc _ => hwf.2 c hc)
    have hround := jsonUnmarshal_jsonMarshal (connectedNotification (h.heap s)) _ rfl
    rw [hdata] at hround
    refine ⟨h', data, _, hrun, ?_, hround, rfl, rfl, rfl, rfl, rfl,
      no_chatId_key _ data hdata rfl⟩
    intro c hc hne hr
    rw [hheap c]
    simp only [hc, hne, ne_eq, not_false_eq_true, and_self, if_true]
    exact (deliveredClient_room _ _ hr).1
  · intro hs
    obtain ⟨h', data, hdata, hrun, _, hheap, _⟩ := runUnregister_spec h s hwf hs
    have hround := jsonUnmarshal_jsonMarshal (disconnectedNotification (h.heap s)) _ rfl
    rw [hdata] at hround
    refine ⟨h', data, _, hrun, ?_, hround, rfl, rfl, rfl, rfl, rfl,
      no_chatId_key _ data hdata rfl⟩
    intro c hc hne hr
    rw [hheap c]
    simp only [hne, if_false, hc, if_true]
    exact (deliveredClient_room _ _ hr).1

theorem presence_event_content_witness :
    sampleHub.WellFormed ∧
    (∃ h' data decoded, runRegister sampleHub 2 = Except.ok h' ∧
      (∀ c ∈ sampleHub.clients, c ≠ 2 → hasRoom (sampleHub.heap c) →
        (h'.heap c).send.buf = (sampleHub.heap c).send.buf ++ [data]) ∧
      jsonUnmarshal (some data) = some decoded ∧
      decoded.Type_ = "user_connected" ∧
      decoded.UserID = (sampleHub.heap 2).userID ∧
      decoded.Username = (sampleHub.heap 2).username ∧
      decoded.Data = Data.json (JSON.obj [("isOnline", JSON.bool true),
        ("userId", JSON.str (sampleHub.heap 2).userID),
        ("username", JSON.str (sampleHub.heap 2).username)]) ∧
      decoded.ChatID = "" ∧ "chatId" ∉ data.keys) ∧
    (0 ∈ sampleHub.clients → ∃ h' data decoded, runUnregister sampleHub 0 = Except.ok h' ∧
      (∀ c ∈ sampleHub.clients, c ≠ 0 → hasRoom (sampleHub.heap c) →
        (h'.heap c).send.buf = (sampleHub.heap c).send.buf ++ [data]) ∧
      jsonUnmarshal (some data) = some decoded ∧
      decoded.Type_ = "user_disconnected" ∧
      decoded.UserID = (sampleHub.heap 0).userID ∧
      decoded.Username = (sampleHub.heap 0).username ∧
      decoded.Data = Data.json (JSON.obj [("isOnline", JSON.bool false),
        ("userId", JSON.str (sampleHub.heap 0).userID),
        ("username", JSON.str (sampleHub.heap 0).username)]) ∧
      decoded.ChatID = "" ∧ "chatId" ∉ data.keys) :=
  ⟨sampleHub_wellFormed,
    (presence_event_content sampleHub 2 sampleHub_wellFormed).1,
    (presence_event_content sampleHub 0 sampleHub_wellFormed).2⟩

/-! ## The frame of a delivery -/

theorem fanOut_frame (target : ClientPtr → Client → Bool) (data : Bytes) (h : HubState)
    (hwf : h.WellFormed) :
    ∃ h', rangeClients target data h.clients h = Except.ok h' ∧
      DeliveryFrame h h' (fun c => target c (h.heap c) = true) := by
  obtain ⟨h', hrun, hcl, hheap, _⟩ :=
    fanOut_spec target data h hwf.1 (fun c hc _ => hwf.2 c hc)
  refine ⟨h', hrun, ?_, ?_, ?_⟩
  · intro c hc
    rw [hcl, List.mem_filter] at hc
    exact hc.1
  · intro c hc
    rw [hcl, List.mem_filter]
    constructor
    · intro hout
      by_cases ht : target c (h.heap c) = true
      · refine ⟨ht, fun hr => hout ⟨hc, ?_⟩⟩
        simp [hr]
      · exact absurd ⟨hc, by simp [ht]⟩ hout
    · rintro ⟨ht, hr⟩ hin
      have := hin.2
      simp only [decide_eq_true_eq] at this
      exact hr (this ht)
  · intro c
    rw [hheap c]
    by_cases hcond : c ∈ h.clients ∧ target c (h.heap c) = true
    · rw [if_pos hcond]
      exact deliveredClient_identity _ _
    · rw [if_neg hcond]
      exact ⟨rfl, rfl, rfl⟩

/-- C23: on a well-formed hub state, the broadcast case, and `BroadcastToChat` and
`BroadcastToUser` of a message that serializes, return a state whose map holds only
sessions of the map before; the sessions that left the map are exactly the targets
whose queue was full (every session for the first two, the sessions of the user for the
third); and the `userID`, `username` and `role` of every client object are unchanged.
With a message that does not serialize the two functions return the state as it is. -/
theorem delivery_never_grows_registry (h : HubState) (hwf : h.WellFormed) :
    (∀ data : Bytes, ∃ h', runBroadcast h data = Except.ok h' ∧
      DeliveryFrame h h' (fun _ => True)) ∧
    (∀ (chatID : String) (message : Message) (data : Bytes),
      jsonMarshal message = some data →
      ∃ h', BroadcastToChat h chatID message = Except.ok h' ∧
        DeliveryFrame h h' (fun _ => True)) ∧
    (∀ (userID : String) (message : Message) (data : Bytes),
      jsonMarshal message = some data →
      ∃ h', BroadcastToUser h userID message = Except.ok h' ∧
        DeliveryFrame h h' (fun c => (h.heap c).userID = userID)) ∧
    (∀ (key : String) (message : Message), jsonMarshal message = none →
      BroadcastToChat h key message = Except.ok h ∧
      BroadcastToUser h key message = Except.ok h) := by
  have key : ∀ data : Bytes, ∃ h', runBroadcast h data = Except.ok h' ∧
      DeliveryFrame h h' (fun _ => True) := by
    intro data
    obtain ⟨h', hrun, h1, h2, h3⟩ := fanOut_frame (fun _ _ => true) data h hwf
    refine ⟨h', hrun, h1, ?_, h3⟩
    intro c hc
    rw [h2 c hc]
    simp
  refine ⟨key, ?_, ?_, ?_⟩
  · intro chatID message data hdata
    rw [BroadcastToChat_eq h chatID message data hdata]
    exact key data
  · intro userID message data hdata
    obtain ⟨h', hrun, h1, h2, h3⟩ :=
      fanOut_frame (fun _ client => decide (client.userID = userID)) data h hwf
    refine ⟨h', ?_, h1, ?_, h3⟩
    · unfold BroadcastToUser
      simp only [hdata]
      exact hrun
    · intro c hc
      rw [h2 c hc]
      simp
  · intro k message hnone
    constructor
    · simp only [BroadcastToChat, hnone]
    · simp only [BroadcastToUser, hnone]

theorem delivery_never_grows_registry_witness :
    fullQueueHub.WellFormed ∧
    (∃ h', runBroadcast fullQueueHub (JSON.str "x") = Except.ok h' ∧
      DeliveryFrame fullQueueHub h' (fun _ => True)) ∧
    (∃ h', BroadcastToChat fullQueueHub "c1"
        { Type_ := "new_message", Data := Data.json (JSON.str "hello") } = Except.ok h' ∧
      DeliveryFrame fullQueueHub h' (fun _ => True)) ∧
    (∃ h', BroadcastToUser fullQueueHub "u-alice"
        { Type_ := "new_message", Data := Data.json (JSON.str "hello") } = Except.ok h' ∧
      DeliveryFrame fullQueueHub h' (fun c => (fullQueueHub.heap c).userID = "u-alice")) ∧
    (BroadcastToChat fullQueueHub "c1" { Type_ := "bad", Data := Data.unsupported } =
        Except.ok fullQueueHub ∧
      BroadcastToUser fullQueueHub "c1" { Type_ := "bad", Data := Data.unsupported } =
        Except.ok fullQueueHub) :=
  ⟨fullQueueHub_wellFormed,
    (delivery_never_grows_registry fullQueueHub fullQueueHub_wellFormed).1 (JSON.str "x"),
    (delivery_never_grows_registry fullQueueHub fullQueueHub_wellFormed).2.1 "c1" _ _
      jsonMarshal_sample,
    (delivery_never_grows_registry fullQueueHub fullQueueHub_wellFormed).2.2.1 "u-alice" _ _
      jsonMarshal_sample,
    (delivery_never_grows_registry fullQueueHub fullQueueHub_wellFormed).2.2.2 "c1" _ rfl⟩

/-! ## The bound on the queues -/

theorem deliveredClient_bounded (c : Client) (data : Bytes)
    (hb : c.send.buf.length ≤ c.send.cap ∧ c.send.cap ≤ 256) :
    (deliveredClient c data).send.buf.length ≤ (deliveredClient c data).send.cap ∧
      (deliveredClient c data).send.cap ≤ 256 := by
  by_cases hr : hasRoom c
  · obtain ⟨e1, _, e3⟩ := deliveredClient_room c data hr
    rw [e1, e3, List.length_append, List.length_singleton]
    unfold hasRoom at hr
    exact ⟨hr, hb.2⟩
  · obtain ⟨e1, _, e3⟩ := deliveredClient_full c data hr
    rw [e1, e3]
    exact hb

theorem NewHub_bounded : NewHub.Bounded := by
  intro c
  exact ⟨Nat.le_refl 0, Nat.zero_le 256⟩

theorem fanOut_bounded (target : ClientPtr → Client → Bool) (data : Bytes) (h h1 : HubState)
    (hwf : h.WellFormed) (hb : h.Bounded)
    (hrun : rangeClients target data h.clients h = Except.ok h1) : h1.Bounded := by
  obtain ⟨h', hrun', _, hheap, _⟩ :=
    fanOut_spec target data h hwf.1 (fun c hc _ => hwf.2 c hc)
  have hsame : h' = h1 := Except.ok.inj (hrun'.symm.trans hrun)
  subst hsame
  intro c
  rw [hheap c]
  by_cases hcond : c ∈ h.clients ∧ target c (h.heap c) = true
  · rw [if_pos hcond]
    exact deliveredClient_bounded _ _ (hb c)
  · rw [if_neg hcond]
    exact hb c

/-- Every request keeps the queues within their bound. -/
theorem step_bounded (h h1 : HubState) (r : Request) (hwf : h.WellFormed)
    (halloc : h.Allocated) (hb : h.Bounded) (hstep : step h r = Except.ok h1) :
    h1.Bounded := by
  cases r with
  | handleWebSocket userID username role =>
    obtain ⟨h', data, _, hrun, _, hheap, _⟩ :=
      HandleWebSocket_notifies h userID username role hwf halloc
    have hsame : h' = h1 := Except.ok.inj (hrun.symm.trans hstep)
    subst hsame
    intro c
    rw [hheap c]
    by_cases hcn : c = h.nextClient
    · rw [if_pos hcn]
      exact ⟨Nat.zero_le _, Nat.le_refl _⟩
    · rw [if_neg hcn]
      by_cases hc : c ∈ h.clients
      · rw [if_pos hc]
        exact deliveredClient_bounded _ _ (hb c)
      · rw [if_neg hc]
        exact hb c
  | unregister s =>
    by_cases hs : s ∈ h.clients
    · obtain ⟨h', data, _, hrun, _, hheap, _⟩ := runUnregister_spec h s hwf hs
      have hsame : h' = h1 := Except.ok.inj (hrun.symm.trans hstep)
      subst hsame
      intro c
      rw [hheap c]
      by_cases hcs : c = s
      · rw [if_pos hcs]
        exact hb s
      · rw [if_neg hcs]
        by_cases hc : c ∈ h.clients
        · rw [if_pos hc]
          exact deliveredClient_bounded _ _ (hb c)
        · rw [if_neg hc]
          exact hb c
    · have hnoop : runUnregister h s = Except.ok h := by
        unfold runUnregister
        simp only [hs, if_false]
      have e : h1 = h := Except.ok.inj (hstep.symm.trans hnoop)
      rw [e]
      exact hb
  | broadcast message => exact fanOut_bounded _ message h h1 hwf hb hstep
  | broadcastToChat chatID message =>
    cases hm : jsonMarshal message with
    | none =>
      have hnoop : step h (Request.broadcastToChat chatID message) = Except.ok h := by
        simp only [step, BroadcastToChat, hm]
      have e : h1 = h := Except.ok.inj (hstep.symm.trans hnoop)
      rw [e]
      exact hb
    | some data =>
      apply fanOut_bounded (fun _ _ => true) data h h1 hwf hb
      have : step h (Request.broadcastToChat chatID message) =
          rangeClients (fun _ _ => true) data h.clients h := by
        simp only [step, BroadcastToChat, hm]
      rw [← this]
      exact hstep
  | broadcastToUser userID message =>
    cases hm : jsonMarshal message with
    | none =>
      have hnoop : step h (Request.broadcastToUser userID message) = Except.ok h := by
        simp only [step, BroadcastToUser, hm]
      have e : h1 = h := Except.ok.inj (hstep.symm.trans hnoop)
      rw [e]
      exact hb
    | some data =>
      apply fanOut_bounded (fun _ client => decide (client.userID = userID)) data h h1 hwf hb
      have : step h (Request.broadcastToUser userID message) =
          rangeClients (fun _ client => decide (client.userID = userID)) data h.clients h := by
        simp only [step, BroadcastToUser, hm]
      rw [← this]
      exact hstep
  | setStatusUpdateFunc fn =>
    have e : h1 = SetStatusUpdateFunc h fn := (Except.ok.inj hstep).symm
    rw [e]
    exact hb
  | writePumpRecv s =>
    have e : h1 = writePumpRecv h s := (Except.ok.inj hstep).symm
    rw [e]
    intro c
    by_cases hcs : c = s
    · subst hcs
      have hbuf : ((writePumpRecv h c).heap c).send.buf = (h.heap c).send.buf.tail := by
        simp [writePumpRecv, setSend]
      have hcap : ((writePumpRecv h c).heap c).send.cap = (h.heap c).send.cap := by
        simp [writePumpRecv, setSend]
      rw [hbuf, hcap, List.length_tail]
      exact ⟨le_trans (Nat.sub_le _ _) (hb c).1, (hb c).2⟩
    · have : (writePumpRecv h s).heap c = h.heap c := by
        simp [writePumpRecv, setSend, Function.update_noteq hcs]
      rw [this]
      exact hb c

theorem run_bounded (reqs : List Request) :
    ∀ h : HubState, h.WellFormed → h.Allocated → h.Bounded →
      ∃ h', run h reqs = Except.ok h' ∧ h'.WellFormed ∧ h'.Bounded := by
  induction reqs with
  | nil => exact fun h hwf _ hb => ⟨h, rfl, hwf, hb⟩
  | cons r rest ih =>
    intro h hwf halloc hb
    obtain ⟨h1, hstep, hwf1⟩ := step_wellFormed h r hwf
    obtain ⟨h', hrun, hwf', hb'⟩ :=
      ih h1 hwf1 (step_allocated h h1 r hwf halloc hstep)
        (step_bounded h h1 r hwf halloc hb hstep)
    exact ⟨h', by rw [run_cons_ok h h1 r rest hstep]; exact hrun, hwf', hb'⟩

/-- C22: every sequence of requests (connections handed to `HandleWebSocket`,
unregisters, deliveries and receives of write pumps) is processed from `NewHub`, and in
the state reached the queue of every session holds at most 256 events; a non-blocking
send on a queue that holds 256 events never takes the send branch, and for a session of
the map with 256 pending events the `select` block returns a state in which the queue
holds the same events. -/
theorem queue_bounded_by_256 (reqs : List Request) :
    ∃ h, run NewHub reqs = Except.ok h ∧
      (∀ c, (h.heap c).send.buf.length ≤ 256) ∧
      (∀ (c : ClientPtr) (data : Bytes) (ch : Chan), (h.heap c).send.buf.length = 256 →
        (h.heap c).send.trySend data ≠ Except.ok (SendResult.sent ch)) ∧
      (∀ c ∈ h.clients, ∀ data : Bytes, (h.heap c).send.buf.length = 256 →
        ∃ h', selectSend h c data = Except.ok h' ∧
          (h'.heap c).send.buf = (h.heap c).send.buf) := by
  obtain ⟨h, hrun, hwf, hb⟩ :=
    run_bounded reqs NewHub NewHub_wellFormed NewHub_allocated NewHub_bounded
  have hfull : ∀ c, (h.heap c).send.buf.length = 256 → ¬ hasRoom (h.heap c) := by
    intro c hlen hr
    unfold hasRoom at hr
    have := (hb c).2
    omega
  refine ⟨h, hrun, fun c => le_trans (hb c).1 (hb c).2, ?_, ?_⟩
  · intro c data ch hlen
    have hnr := hfull c hlen
    unfold hasRoom at hnr
    unfold Chan.trySend
    by_cases hcl : (h.heap c).send.closed = true
    · simp [hcl]
    · simp [hcl, hnr]
  · intro c hc data hlen
    refine ⟨_, selectSend_of_open h c data (hwf.2 c hc), ?_⟩
    simp only [Function.update_same]
    exact (deliveredClient_full _ _ (hfull c hlen)).1

end Websocket

namespace Services

/-! ## The reversal loop of `GetMessages` -/

theorem get?_middle (mid post : List Models.Message) (b : Models.Message) :
    (mid ++ b :: post).get? mid.length = some b := by
  induction mid with
  | nil => rfl
  | cons m mid ih => exact ih

theorem set_middle (mid post : List Models.Message) (a b : Models.Message) :
    (mid ++ b :: post).set mid.length a = mid ++ a :: post := by
  induction mid with
  | nil => rfl
  | cons m mid ih =>
    show m :: (mid ++ b :: post).set mid.length a = m :: (mid ++ a :: post)
    rw [ih]

theorem swap_ends (mid post : List Models.Message) (a b : Models.Message) :
    swap (a :: (mid ++ b :: post)) 0 (mid.length + 1) = b :: (mid ++ a :: post) := by
  have h2 : (a :: (mid ++ b :: post)).get? (mid.length + 1) = some b :=
    get?_middle mid post b
  have h1 : (a :: (mid ++ b :: post)).get? 0 = some a := rfl
  unfold swap
  rw [h1, h2]
  show b :: (mid ++ b :: post).set mid.length a = b :: (mid ++ a :: post)
  rw [set_middle]

theorem swap_shift (pre l : List Models.Message) (i j : Nat) :
    swap (pre ++ l) (i + pre.length) (j + pre.length) = pre ++ swap l i j := by
  induction pre with
  | nil => rfl
  | cons p pre ih =>
    have e1 : ((p :: pre) ++ l).get? (i + (p :: pre).length) =
        (pre ++ l).get? (i + pre.length) := rfl
    have e2 : ((p :: pre) ++ l).get? (j + (p :: pre).length) =
        (pre ++ l).get? (j + pre.length) := rfl
    unfold swap at ih ⊢
    rw [e1, e2]
    cases h1 : (pre ++ l).get? (i + pre.length) with
    | none =>
      rw [h1] at ih
      cases h3 : l.get? i with
      | none => rfl
      | some x =>
        rw [h3] at ih
        cases h4 : l.get? j with
        | none => rfl
        | some y =>
          rw [h4] at ih
          simp only at ih ⊢
          exact congrArg (List.cons p) ih
    | some a =>
      rw [h1] at ih
      cases h2 : (pre ++ l).get? (j + pre.length) with
      | none =>
        rw [h2] at ih
        simp only at ih ⊢
        exact congrArg (List.cons p) ih
      | some b =>
        rw [h2] at ih
        simp only at ih ⊢
        exact congrArg (List.cons p) ih

/-- The loop, entered with `i` at the start and `j` at the end of a stretch `mid` of
the slice, reverses that stretch and leaves what is before and after it. -/
theorem reverseLoop_spec (n : Nat) :
    ∀ (mid pre post : List Models.Message), mid.length ≤ n →
      reverseLoop (pre ++ mid ++ post) pre.length ((pre.length : Int) + mid.length - 1) =
        pre ++ mid.reverse ++ post := by
  induction n with
  | zero =>
    intro mid pre post hlen
    have : mid = [] := List.length_eq_zero.mp (Nat.le_zero.mp hlen)
    subst this
    rw [reverseLoop]
    simp
  | succ n ih =>
    intro mid pre post hlen
    cases mid with
    | nil =>
      rw [reverseLoop]
      simp
    | cons a rest =>
      rcases List.eq_nil_or_concat rest with hnil | ⟨mid, b, hrest⟩
      · subst hnil
        rw [reverseLoop]
        simp
      · rw [List.concat_eq_append] at hrest
        subst hrest
        have hlen2 : (a :: (mid ++ [b])).length = mid.length + 2 := by simp
        rw [hlen2] at hlen ⊢
        rw [reverseLoop]
        have hlt : (pre.length : Int) <
            (pre.length : Int) + ((mid.length + 2 : Nat) : Int) - 1 := by
          omega
        rw [if_pos hlt]
        have hi : ((pre.length : Int)).toNat = 0 + pre.length := by omega
        have hj : ((pre.length : Int) + ((mid.length + 2 : Nat) : Int) - 1).toNat =
            (mid.length + 1) + pre.length := by
          omega
        have hl : pre ++ a :: (mid ++ [b]) ++ post = pre ++ (a :: (mid ++ b :: post)) := by
          simp
        rw [hi, hj, hl, swap_shift, swap_ends]
        have hl2 : pre ++ b :: (mid ++ a :: post) = (pre ++ [b]) ++ mid ++ (a :: post) := by
          simp
        have hi2 : (pre.length : Int) + 1 = ((pre ++ [b]).length : Nat) := by
          simp
        have hj2 : (pre.length : Int) + ((mid.length + 2 : Nat) : Int) - 1 - 1 =
            (((pre ++ [b]).length : Nat) : Int) + (mid.length : Nat) - 1 := by
          have : (pre ++ [b]).length = pre.length + 1 := by simp
          rw [this]
          omega
        rw [hl2, hi2, hj2, ih mid (pre ++ [b]) (a :: post) (by omega)]
        simp

theorem reverseLoop_reverse (messages : List Models.Message) :
    reverseLoop messages 0 ((messages.length : Int) - 1) = messages.reverse := by
  have h := reverseLoop_spec messages.length messages [] [] (le_refl _)
  simpa using h

theorem scanRows_scans (rows : List (Models.Message × Models.User)) :
    ∀ messages : List Models.Message,
      scanRows (scans rows) messages = Except.ok (messages ++ fetched rows) := by
  induction rows with
  | nil =>
    intro messages
    simp [scans, fetched, scanRows]
  | cons row rest ih =>
    intro messages
    show scanRows (scans rest) (messages ++ [withSender row.1 row.2]) = _
    rw [ih]
    simp [fetched]

/-- C25: for every sequence of rows that the query gives and that scan without error,
of any length, `GetMessages` returns without error the messages of the rows in the
opposite order: the slice returned is the reverse of the slice fetched, it has the same
length, its element at index `k` is the element fetched at index `length - 1 - k`, and
when the rows come newest first the messages returned are oldest first. -/
theorem GetMessages_reverses (rows : List (Models.Message × Models.User)) :
    ∃ messages, GetMessages (Except.ok (scans rows)) = Except.ok messages ∧
      messages = (fetched rows).reverse ∧
      messages.length = rows.length ∧
      (∀ k, k < rows.length → messages[k]? = (fetched rows)[rows.length - 1 - k]?) ∧
      ((fetched rows).Pairwise (fun a b => b.CreatedAt ≤ a.CreatedAt) →
        messages.Pairwise (fun a b => a.CreatedAt ≤ b.CreatedAt)) := by
  have hlen : (fetched rows).length = rows.length := by simp [fetched]
  refine ⟨(fetched rows).reverse, ?_, rfl, ?_, ?_, ?_⟩
  · unfold GetMessages
    simp only [scanRows_scans rows [], List.nil_append, reverseLoop_reverse]
  · rw [List.length_reverse, hlen]
  · intro k hk
    rw [List.getElem?_reverse (by rw [hlen]; exact hk), hlen]
  · intro hsorted
    rw [List.pairwise_reverse]
    exact hsorted

theorem GetMessages_reverses_witness :
    (fetched sampleRows).Pairwise (fun a b => b.CreatedAt ≤ a.CreatedAt) ∧
    ∃ messages, GetMessages (Except.ok (scans sampleRows)) = Except.ok messages ∧
      messages = (fetched sampleRows).reverse ∧
      messages.length = sampleRows.length ∧
      (∀ k, k < sampleRows.length →
        messages[k]? = (fetched sampleRows)[sampleRows.length - 1 - k]?) ∧
      ((fetched sampleRows).Pairwise (fun a b => b.CreatedAt ≤ a.CreatedAt) →
        messages.Pairwise (fun a b => a.CreatedAt ≤ b.CreatedAt)) :=
  ⟨by decide, GetMessages_reverses sampleRows⟩

end Services
